import Mathlib

/-!
# Big Two: hand classification, comparison, scoring and the turn state machine

A shallow embedding of `card.go`, `game.go` (the `HandType`, `PlayedHand` and `GameState`
declarations), `player.go` (the `Player` struct, `RemoveCards`), `rules.go`
(`DeterminePlayedHand` with its five-card helpers, `BeatsLastHand`), `scoring.go`
(`CalculateScores`), `actions.go` (the handlers of play, pass and new game) and `main.go`
(the initial deal, the round reset and the match reset), followed by theorems about the
classifier, the comparator, the scorer, the handlers, and the deck and the cards in play.

Go's `int` based types `Rank`, `Suit` and `HandType` are integers here; the
sentinel `-1` of the source is the integer `-1`.  A Go slice of cards is a list.
-/

namespace BigTwo

/-! ## card.go -/

/-- Suit of a card: `type Suit int`. -/
abbrev Suit := Int

abbrev Diamonds : Suit := 0
abbrev Clubs : Suit := 1
abbrev Hearts : Suit := 2
abbrev Spades : Suit := 3

/-- Rank of a card: `type Rank int`; 3 is the lowest, 2 (value 15) the highest. -/
abbrev Rank := Int

abbrev Rank3 : Rank := 3
abbrev Rank4 : Rank := 4
abbrev Rank5 : Rank := 5
abbrev Rank6 : Rank := 6
abbrev Rank7 : Rank := 7
abbrev Rank8 : Rank := 8
abbrev Rank9 : Rank := 9
abbrev Rank10 : Rank := 10
abbrev Jack : Rank := 11
abbrev Queen : Rank := 12
abbrev King : Rank := 13
abbrev Ace : Rank := 14
abbrev Two : Rank := 15

/-- Card: `type Card struct { Rank Rank; Suit Suit }`. -/
structure Card where
  Rank : BigTwo.Rank
  Suit : BigTwo.Suit
deriving DecidableEq, Repr, Inhabited

/-- Deck: `type Deck []Card`. -/
abbrev Deck := List Card

/-- A card of the game: its rank is one of the thirteen declared rank constants
and its suit one of the four declared suit constants. -/
def Card.valid (c : Card) : Prop :=
  (Rank3 ≤ c.Rank ∧ c.Rank ≤ Two) ∧ (Diamonds ≤ c.Suit ∧ c.Suit ≤ Spades)

instance (c : Card) : Decidable c.valid := by
  unfold Card.valid; infer_instance

/-- The comparison closure handed to `sort.SliceStable` in `Deck.Sort`:
equal ranks are ordered by suit, otherwise by rank. -/
def sortLess (a b : Card) : Bool :=
  if a.Rank = b.Rank then decide (a.Suit < b.Suit) else decide (a.Rank < b.Rank)

/-- The order a stable sort by `sortLess` establishes between an earlier element `a`
and a later element `b`: the later one is not strictly less than the earlier one. -/
def cardLE (a b : Card) : Prop := sortLess b a = false

instance : DecidableRel cardLE := fun a b => by
  unfold cardLE; infer_instance

/-- The method `Deck.Sort`: `sort.SliceStable` with the closure `sortLess`.  The library
routine is a stable insertion sort (for slices of at most 20 elements it is nothing
else); the result is the stable ordering of the elements under `sortLess`. -/
def Deck.Sort (d : Deck) : Deck := d.insertionSort cardLE

/-- A deck is in canonical order when no later card is `sortLess` than an earlier one. -/
def Deck.IsSorted (d : Deck) : Prop := d.Sorted cardLE

instance (d : Deck) : Decidable d.IsSorted := by
  unfold Deck.IsSorted List.Sorted; infer_instance

/-! ## game.go -/

/-- Category of a played hand: `type HandType int`, numbered by `iota`. -/
abbrev HandType := Int

abbrev InvalidHand : HandType := 0
abbrev Single : HandType := 1
abbrev Pair : HandType := 2
abbrev Triple : HandType := 3
abbrev Straight : HandType := 4
abbrev Flush : HandType := 5
abbrev FullHouse : HandType := 6
abbrev FourOfAKindPlusOne : HandType := 7
abbrev StraightFlush : HandType := 8

/-- PlayedHand: the struct of `game.go`, field for field. -/
structure PlayedHand where
  Cards : List Card
  PlayerID : String
  HandType : BigTwo.HandType
  HandTypeString : String
  Rank : BigTwo.Rank
  EffectiveRank : BigTwo.Rank
  EffectiveSuit : Suit
deriving DecidableEq, Repr

/-! ## rules.go -/

/-- Two's complement wrap-around of a 64-bit Go `int`. -/
def wrapInt (x : Int) : Int :=
  (x + 9223372036854775808) % 18446744073709551616 - 9223372036854775808

/-- The loop of `isStraight`: `cards[i+1].Rank != cards[i].Rank+1` fails for no `i` in `0..3`. -/
def isConsecutive (cards : Deck) : Bool :=
  (List.range 4).all fun i =>
    decide ((cards.getD (i + 1) default).Rank = wrapInt ((cards.getD i default).Rank + 1))

/-- The helper `isStraight` of `rules.go`. -/
def isStraight (cards : Deck) : Bool × Rank × Suit :=
  match cards with
  | [c0, c1, c2, c3, c4] =>
    if c0.Rank = Rank10 ∧ c1.Rank = Jack ∧ c2.Rank = Queen ∧ c3.Rank = King ∧ c4.Rank = Ace then
      (true, c4.Rank, c4.Suit)
    else if c0.Rank = Jack ∧ c1.Rank = Queen ∧ c2.Rank = King ∧ c3.Rank = Ace ∧ c4.Rank = Two then
      (true, c4.Rank, c4.Suit)
    else if c0.Rank = Rank3 ∧ c1.Rank = Rank4 ∧ c2.Rank = Rank5 ∧ c3.Rank = Ace ∧ c4.Rank = Two then
      (true, c2.Rank, c2.Suit)
    else if isConsecutive cards then
      (true, c4.Rank, c4.Suit)
    else
      (false, -1, -1)
  | _ => (false, -1, -1)

/-- The helper `isFlush` of `rules.go`; the result is (ok, suit, rank). -/
def isFlush (cards : Deck) : Bool × Suit × Rank :=
  match cards with
  | [c0, _, _, _, c4] =>
    let firstSuit := c0.Suit
    if (List.range' 1 4).all fun i => decide ((cards.getD i default).Suit = firstSuit) then
      (true, c4.Suit, c4.Rank)
    else
      (false, -1, -1)
  | _ => (false, -1, -1)

/-- The helper `isFullHouse` of `rules.go`. -/
def isFullHouse (cards : Deck) : Bool × Rank :=
  match cards with
  | [c0, c1, c2, c3, c4] =>
    if c0.Rank = c1.Rank ∧ c1.Rank = c2.Rank ∧ c3.Rank = c4.Rank ∧ c2.Rank ≠ c3.Rank then
      (true, c0.Rank)
    else if c0.Rank = c1.Rank ∧ c2.Rank = c3.Rank ∧ c3.Rank = c4.Rank ∧ c1.Rank ≠ c2.Rank then
      (true, c2.Rank)
    else
      (false, -1)
  | _ => (false, -1)

/-- The helper `isFourOfAKindPlusOne` of `rules.go`. -/
def isFourOfAKindPlusOne (cards : Deck) : Bool × Rank :=
  match cards with
  | [c0, c1, c2, c3, c4] =>
    if c0.Rank = c1.Rank ∧ c1.Rank = c2.Rank ∧ c2.Rank = c3.Rank then
      (true, c0.Rank)
    else if c1.Rank = c2.Rank ∧ c2.Rank = c3.Rank ∧ c3.Rank = c4.Rank then
      (true, c1.Rank)
    else
      (false, -1)
  | _ => (false, -1)

/-- The helper `isStraightFlush` of `rules.go`. -/
def isStraightFlush (cards : Deck) : Bool × Rank × Suit :=
  if cards.length ≠ 5 then (false, -1, -1)
  else if ¬ (isFlush cards).1 then (false, -1, -1)
  else if (isStraight cards).1 then (true, (isStraight cards).2.1, (isStraight cards).2.2)
  else (false, -1, -1)

/-- The tail of `DeterminePlayedHand`: the hand is returned with a sorted copy of the
cards; the fields the function does not set keep their zero values. -/
def mkPlayedHand (selectedCards : Deck) (handType : HandType) (effectiveRank : Rank)
    (effectiveSuit : Suit) : Except String PlayedHand :=
  if handType = InvalidHand then
    .error "selected cards do not form a valid Big 2 hand type"
  else
    .ok { Cards := Deck.Sort selectedCards, PlayerID := "", HandType := handType,
          HandTypeString := "", Rank := 0,
          EffectiveRank := effectiveRank, EffectiveSuit := effectiveSuit }

/-- The five-card case of the switch in `DeterminePlayedHand`. -/
def determineFive (selectedCards : Deck) : Except String PlayedHand :=
  if (isStraightFlush selectedCards).1 then
    mkPlayedHand selectedCards StraightFlush (isStraightFlush selectedCards).2.1
      (isStraightFlush selectedCards).2.2
  else if (isFourOfAKindPlusOne selectedCards).1 then
    mkPlayedHand selectedCards FourOfAKindPlusOne (isFourOfAKindPlusOne selectedCards).2 (-1)
  else if (isFullHouse selectedCards).1 then
    mkPlayedHand selectedCards FullHouse (isFullHouse selectedCards).2 (-1)
  else if (isFlush selectedCards).1 then
    mkPlayedHand selectedCards Flush (isFlush selectedCards).2.2 (isFlush selectedCards).2.1
  else if (isStraight selectedCards).1 then
    mkPlayedHand selectedCards Straight (isStraight selectedCards).2.1
      (isStraight selectedCards).2.2
  else
    .error ("selected 5 cards do not form a valid Big 2 hand " ++
      "(Straight, Flush, Full House, Bomb, or Straight Flush)")

/-- The method `DeterminePlayedHand` of `rules.go`: `(*PlayedHand, error)` is an `Except`. -/
def DeterminePlayedHand (selectedCards : Deck) : Except String PlayedHand :=
  match selectedCards with
  | [] => .error "no cards selected"
  | [c0] => mkPlayedHand selectedCards Single c0.Rank c0.Suit
  | [c0, c1] =>
    if c0.Rank = c1.Rank then mkPlayedHand selectedCards Pair c0.Rank c1.Suit
    else .error "not a valid pair (ranks differ)"
  | [c0, c1, c2] =>
    if c0.Rank = c1.Rank ∧ c1.Rank = c2.Rank then mkPlayedHand selectedCards Triple c0.Rank (-1)
    else .error "not a valid triple"
  | [_, _, _, _, _] => determineFive selectedCards
  | _ =>
    .error ("invalid number of cards played: " ++ toString selectedCards.length ++
      ". Must be 1, 2, 3, or 5")

/-- The call failed: the error component of the Go result is not nil. -/
def isError (r : Except String PlayedHand) : Bool :=
  match r with
  | .error _ => true
  | .ok _ => false

/-- The method `BeatsLastHand` of `rules.go`; a nil `lastPlayedHand` is `none`. -/
def BeatsLastHand (currentPlay : PlayedHand) (lastPlayedHand : Option PlayedHand) : Bool :=
  match lastPlayedHand with
  | none => decide (currentPlay.HandType ≠ InvalidHand)
  | some last =>
    let currentPlayerIsBomb : Bool :=
      decide (currentPlay.HandType = FourOfAKindPlusOne ∨ currentPlay.HandType = StraightFlush)
    let lastPlayerIsBomb : Bool :=
      decide (last.HandType = FourOfAKindPlusOne ∨ last.HandType = StraightFlush)
    if currentPlayerIsBomb then
      if !lastPlayerIsBomb then true
      else if currentPlay.HandType = StraightFlush ∧ last.HandType = FourOfAKindPlusOne then true
      else if currentPlay.HandType = FourOfAKindPlusOne ∧ last.HandType = StraightFlush then false
      else if currentPlay.EffectiveRank > last.EffectiveRank then true
      else if currentPlay.EffectiveRank = last.EffectiveRank then
        if currentPlay.HandType = StraightFlush then
          decide (currentPlay.EffectiveSuit > last.EffectiveSuit)
        else false
      else false
    else if lastPlayerIsBomb then false
    else if currentPlay.Cards.length ≠ last.Cards.length then false
    else if currentPlay.HandType ≠ last.HandType then
      if currentPlay.Cards.length = 5 then decide (currentPlay.HandType > last.HandType)
      else false
    else if currentPlay.EffectiveRank > last.EffectiveRank then true
    else if currentPlay.EffectiveRank < last.EffectiveRank then false
    else if currentPlay.HandType = Single ∨ currentPlay.HandType = Pair ∨
        currentPlay.HandType = Straight ∨ currentPlay.HandType = Flush then
      decide (currentPlay.EffectiveSuit > last.EffectiveSuit)
    else if currentPlay.HandType = Triple ∨ currentPlay.HandType = FullHouse then false
    else false

/-! ## player.go, game.go: players and game state -/

/-- Player: the struct of `player.go`, field for field. -/
structure Player where
  ID : String
  Name : String
  Hand : Deck
  IsConnected : Bool
  Score : Int
  OrderInTurn : Int
  HasPassed : Bool
deriving DecidableEq, Repr

/-- A Go `map[string]int`, as an association list with at most one entry per key. -/
abbrev ScoreMap := List (String × Int)

/-- The lookup `v, ok := m[k]`. -/
def mapGet (m : ScoreMap) (k : String) : Option Int := m.lookup k

/-- The assignment `m[k] = v`: the entry of `k` is replaced, or added when there is none. -/
def mapSet (m : ScoreMap) (k : String) (v : Int) : ScoreMap :=
  if m.any (fun e => e.1 == k) then m.map (fun e => if e.1 == k then (k, v) else e)
  else m ++ [(k, v)]

/-- GameState: the struct of `game.go`; the stateless `RuleEngine` field is left out. -/
structure GameState where
  Players : List Player
  CurrentTurnPlayerIndex : Int
  LastPlayedHand : Option PlayedHand
  PassCount : Int
  IsGameOver : Bool
  WinnerID : String
  Scores : ScoreMap
  RoundNumber : Int
  TargetScore : Int
  IsMatchOver : Bool
  OverallWinnerID : String
  RoundScoresHistory : List ScoreMap
deriving DecidableEq, Repr

/-! ## scoring.go -/

/-- The score of one player in the loop of `CalculateScores`. -/
def playerScore (winnerID : String) (player : Player) : Int :=
  if player.ID = winnerID then 0
  else
    let score : Int := player.Hand.length
    if score ≥ 10 ∧ score < 13 then score * 2
    else if score = 13 then score * 3
    else score

/-- The function `CalculateScores` of `scoring.go`, for a non-nil game. -/
def CalculateScores (game : GameState) : ScoreMap :=
  if game.Players.isEmpty ∨ game.WinnerID = "" then []
  else game.Players.foldl (fun scores player =>
    mapSet scores player.ID (playerScore game.WinnerID player)) []

/-! ## card.go: the deck -/

/-- The function `NewDeck`: suit by suit, the thirteen ranks in ascending order. -/
def NewDeck : Deck :=
  ([Diamonds, Clubs, Hearts, Spades] : List Suit).flatMap fun suit =>
    ([Rank3, Rank4, Rank5, Rank6, Rank7, Rank8, Rank9, Rank10, Jack, Queen, King, Ace, Two] :
      List Rank).map fun rank => { Rank := rank, Suit := suit }

/-- The method `Deal`: the dealt cards, the success flag and the remaining deck. -/
def Deck.Deal (d : Deck) (n : Nat) : Deck × Bool × Deck :=
  if d.length < n then ([], false, d) else (d.take n, true, d.drop n)

/-! ## game.go, player.go: helpers of the handlers -/

/-- The method `String` of `HandType`. -/
def handTypeString (ht : HandType) : String :=
  (["Invalid", "Single", "Pair", "Triple", "Straight", "Flush", "Full House",
    "Four of a Kind", "Straight Flush"] : List String).getD ht.toNat ""

/-- The function `NewPlayer`. -/
def NewPlayer (id : Nat) (name : String) : Player :=
  { ID := "player" ++ toString id, Name := name, Hand := [], IsConnected := true, Score := 0,
    OrderInTurn := -1, HasPassed := false }

/-- The loop of `FindPlayerWith3D` from the player of index `i` on; leaving the loop gives
the fallback `return 0`. -/
def findPlayerWith3DLoop (i : Nat) : List Player → Nat
  | [] => 0
  | p :: rest =>
    if p.Hand.any (fun card => decide (card.Rank = Rank3 ∧ card.Suit = Diamonds)) then i
    else findPlayerWith3DLoop (i + 1) rest

/-- The function `FindPlayerWith3D` of `game.go`. -/
def FindPlayerWith3D (players : List Player) : Nat := findPlayerWith3DLoop 0 players

/-- The read `m[k]` of a Go map: the zero value when the key is absent. -/
def mapGetD (m : ScoreMap) (k : String) : Int := (mapGet m k).getD 0

/-- A Go `map[Card]int` counting the cards of a deck: `m[c]++` for every card. -/
def cardCounts (d : Deck) : Card → Int :=
  d.foldl (fun m c => Function.update m c (m c + 1)) (fun _ => 0)

/-- The possession loop of `processPlayCardsAction` over the parsed cards: every card must
still have a positive count, which is then decremented. -/
def canPlayLoop (tempHandCheck : Card → Int) : Deck → Bool
  | [] => true
  | c :: rest =>
    if tempHandCheck c > 0 then
      canPlayLoop (Function.update tempHandCheck c (tempHandCheck c - 1)) rest
    else false

/-- The possession check of `processPlayCardsAction`. -/
def canPlayCards (hand parsedDeck : Deck) : Bool := canPlayLoop (cardCounts hand) parsedDeck

/-- The loop of `RemoveCards` over the hand: the kept cards and the number of cards
processed for removal. -/
def removeLoop (toRemoveMap : Card → Int) : Deck → Deck × Nat
  | [] => ([], 0)
  | cardInHand :: rest =>
    if toRemoveMap cardInHand > 0 then
      let r := removeLoop
        (Function.update toRemoveMap cardInHand (toRemoveMap cardInHand - 1)) rest
      (r.1, r.2 + 1)
    else
      let r := removeLoop toRemoveMap rest
      (cardInHand :: r.1, r.2)

/-- The method `RemoveCards` of `player.go`: the player afterwards and the returned flag. -/
def Player.RemoveCards (p : Player) (cardsToRemove : Deck) : Player × Bool :=
  if cardsToRemove.length = 0 then (p, true)
  else
    let r := removeLoop (cardCounts cardsToRemove) p.Hand
    if r.2 = cardsToRemove.length ∧
        (r.1.length : Int) = (p.Hand.length : Int) - (cardsToRemove.length : Int) then
      ({ p with Hand := Deck.Sort r.1 }, true)
    else (p, false)

/-- The assignment to a field of `Players[i]`: nothing happens outside the list. -/
def updatePlayer (players : List Player) (i : Nat) (f : Player → Player) : List Player :=
  match players[i]? with
  | some p => players.set i (f p)
  | none => players

/-! ## actions.go: the handlers

A handler returns the game afterwards and the two flags `shouldContinue` and
`broadcastStateNeeded`.  The acting connection's player `assignedPlayer` is a pointer into
`game.Players`; it is given by its index `actor`, and the pointer comparison with
`currentPlayerInGame` is the comparison of `actor` with the turn index.  The addition of a
round score to a match total and the increment of the round number wrap around at 64 bits
(`wrapInt`), as Go's `int` does.  Card counts are lengths of slices, and the pass counter
and the turn index are bounded by the number of players wherever a handler changes them, so
their arithmetic is taken in the integers. -/

/-- The body of the loop of `processPlayCardsAction` over the players that adds the round
score to the match total and tests the target; the state is `Scores` and `matchShouldEnd`. -/
def matchScoreStep (targetScore : Int) (roundScores : ScoreMap) (acc : ScoreMap × Bool)
    (p : Player) : ScoreMap × Bool :=
  let scores :=
    match mapGet roundScores p.ID with
    | some roundScore => mapSet acc.1 p.ID (wrapInt (mapGetD acc.1 p.ID + roundScore))
    | none => acc.1
  (scores, acc.2 || decide (mapGetD scores p.ID ≥ targetScore))

/-- The loop of `processPlayCardsAction` that adds the round scores to the match totals and
sets `matchShouldEnd`. -/
def updateMatchScores (targetScore : Int) (roundScores : ScoreMap) (players : List Player)
    (scores : ScoreMap) : ScoreMap × Bool :=
  players.foldl (matchScoreStep targetScore roundScores) (scores, false)

/-- The body of the loop of `processPlayCardsAction` that determines the overall winner; the
state is `lowestScore` and `overallWinner`. -/
def overallWinnerStep (scores : ScoreMap) (acc : Int × Option Player) (p : Player) :
    Int × Option Player :=
  if acc.2.isNone ∨ mapGetD scores p.ID < acc.1 then (mapGetD scores p.ID, some p) else acc

/-- The loop of `processPlayCardsAction` that determines the overall winner. -/
def findOverallWinner (scores : ScoreMap) (players : List Player) : Int × Option Player :=
  players.foldl (overallWinnerStep scores) (-1, none)

/-- The branch `len(assignedPlayer.Hand) == 0` of `processPlayCardsAction`. -/
def endRound (game : GameState) (assignedPlayer : Player) : GameState :=
  let game := { game with IsGameOver := true, WinnerID := assignedPlayer.ID }
  let roundScores := CalculateScores game
  let game := { game with RoundScoresHistory := game.RoundScoresHistory ++ [roundScores] }
  let r := updateMatchScores game.TargetScore roundScores game.Players game.Scores
  let game := { game with Scores := r.1 }
  if r.2 then
    let game := { game with IsMatchOver := true }
    match (findOverallWinner game.Scores game.Players).2 with
    | some overallWinner => { game with OverallWinnerID := overallWinner.ID }
    | none => game
  else game

/-- The branch of `processPlayCardsAction` that advances the turn. -/
def advanceTurn (game : GameState) : GameState :=
  let idx := (game.CurrentTurnPlayerIndex + 1).tmod (game.Players.length : Int)
  let game := { game with CurrentTurnPlayerIndex := idx }
  if idx < (game.Players.length : Int) ∧ idx ≥ 0 then
    let players := updatePlayer game.Players idx.toNat (fun p => { p with HasPassed := false })
    { game with Players := players }
  else game

/-- The classified hand as `processPlayCardsAction` completes it: the ID of the player and
the name of the category. -/
def stampHand (hand : PlayedHand) (assignedPlayer : Player) : PlayedHand :=
  { hand with PlayerID := assignedPlayer.ID, HandTypeString := handTypeString hand.HandType }

/-- The end of `processPlayCardsAction`, after the cards have been removed from the hand:
`removed` is the acting player after `RemoveCards`. -/
def acceptPlay (game : GameState) (actor : Nat) (removed : Player)
    (determinedHand : PlayedHand) : GameState :=
  let assignedPlayer : Player := { removed with HasPassed := false }
  let game : GameState :=
    { game with Players := game.Players.set actor assignedPlayer,
                LastPlayedHand := some determinedHand, PassCount := 0 }
  if assignedPlayer.Hand.length = 0 then endRound game assignedPlayer
  else advanceTurn game

/-- The function `processPlayCardsAction`.  The message is `none` when it carries no card
data or data that cannot be parsed, and otherwise the cards in the order of the client;
`parseCardsFromClientData` sorts them. -/
def processPlayCardsAction (game : GameState) (actor : Nat) (msg : Option Deck) :
    GameState × Bool × Bool :=
  match game.Players[actor]? with
  | none => (game, true, false)
  | some assignedPlayer =>
    if game.IsGameOver then (game, true, false)
    else if (actor : Int) ≠ game.CurrentTurnPlayerIndex then (game, true, false)
    else
      match msg with
      | none => (game, true, false)
      | some data =>
        let parsedDeck := Deck.Sort data
        if ¬ canPlayCards assignedPlayer.Hand parsedDeck then (game, true, false)
        else
          match DeterminePlayedHand parsedDeck with
          | .error _ => (game, true, false)
          | .ok hand =>
            let determinedHand := stampHand hand assignedPlayer
            if ¬ BeatsLastHand determinedHand game.LastPlayedHand then (game, true, false)
            else
              let r := assignedPlayer.RemoveCards parsedDeck
              if ¬ r.2 then (game, true, false)
              else (acceptPlay game actor r.1 determinedHand, false, true)

/-- The end of `processPassTurnAction`, once the pass is accepted.  (The caller has checked
that the turn index is a valid index; with an invalid one the last assignment of the
source would panic.) -/
def acceptPass (game : GameState) (actor : Nat) (assignedPlayer : Player) : GameState :=
  let game : GameState :=
    { game with Players := game.Players.set actor { assignedPlayer with HasPassed := true },
                PassCount := game.PassCount + 1 }
  let game : GameState :=
    if game.PassCount ≥ (game.Players.length : Int) - 1 then
      { game with LastPlayedHand := none, PassCount := 0,
                  Players := game.Players.map (fun p => { p with HasPassed := false }) }
    else game
  let idx := (game.CurrentTurnPlayerIndex + 1).tmod (game.Players.length : Int)
  let players := updatePlayer game.Players idx.toNat (fun p => { p with HasPassed := false })
  { game with CurrentTurnPlayerIndex := idx, Players := players }

/-- The function `processPassTurnAction`. -/
def processPassTurnAction (game : GameState) (actor : Nat) : GameState × Bool × Bool :=
  match game.Players[actor]? with
  | none => (game, true, false)
  | some assignedPlayer =>
    if game.IsGameOver then (game, true, false)
    else if (actor : Int) ≠ game.CurrentTurnPlayerIndex then (game, true, false)
    else if game.LastPlayedHand.isNone ∧ game.PassCount = 0 then (game, true, false)
    else (acceptPass game actor assignedPlayer, false, true)

/-! ## main.go: dealing, round reset and match reset

The outcome of `Shuffle` is a parameter: the shuffled deck. -/

/-- The dealing loop of `resetRoundState`: every player gets the next `cardsPerPlayer` cards,
sorted, or an empty hand when the deck runs out, and the pass flag is cleared. -/
def dealRound (cardsPerPlayer : Nat) : Deck → List Player → List Player
  | _, [] => []
  | deck, player :: rest =>
    let r := deck.Deal cardsPerPlayer
    (if r.2.1 then { player with Hand := Deck.Sort r.1, HasPassed := false }
      else { player with Hand := [], HasPassed := false }) :: dealRound cardsPerPlayer r.2.2 rest

/-- The search for the 3 of Diamonds in `resetRoundState` and in `main`: the index of the
first player whose hand holds it. -/
def firstWith3D : List Player → Option Nat
  | [] => none
  | p :: rest =>
    if p.Hand.contains { Rank := Rank3, Suit := Diamonds } then some 0
    else (firstWith3D rest).map (· + 1)

/-- The function `resetRoundState`, for a non-nil game and the shuffled deck `newDeck`. -/
def resetRoundState (game : GameState) (newDeck : Deck) : GameState :=
  if game.Players.isEmpty then game
  else
    let cardsPerPlayer :=
      if game.Players.length = 4 then 13 else newDeck.length / game.Players.length
    let players := dealRound cardsPerPlayer newDeck game.Players
    let startingPlayerIndex : Nat :=
      if players.length = 1 then 0 else (firstWith3D players).getD 0
    { game with Players := players, CurrentTurnPlayerIndex := startingPlayerIndex,
                LastPlayedHand := none, PassCount := 0, IsGameOver := false, WinnerID := "" }

/-- The function `resetMatchState`. -/
def resetMatchState (game : GameState) (newDeck : Deck) : GameState :=
  let game :=
    { game with RoundNumber := 1, IsGameOver := false, IsMatchOver := false, WinnerID := "",
                OverallWinnerID := "", LastPlayedHand := none, PassCount := 0,
                Scores := game.Players.foldl (fun scores p => mapSet scores p.ID 0) [],
                RoundScoresHistory := [] }
  resetRoundState game newDeck

/-- The function `processNewGameAction`, with the deck the reset shuffles. -/
def processNewGameAction (game : GameState) (newDeck : Deck) : GameState × Bool × Bool :=
  if game.IsMatchOver then (resetMatchState game newDeck, false, true)
  else if game.IsGameOver then
    (resetRoundState { game with RoundNumber := wrapInt (game.RoundNumber + 1) } newDeck,
      false, true)
  else (resetMatchState game newDeck, false, true)

/-- The dealing loop of `main`: player `i` gets the next `cardsPerPlayer` cards, sorted, and
the turn order `i`.  (A failed deal ends the process; the deck never runs out here.) -/
def dealInitial (cardsPerPlayer : Nat) : Deck → Nat → List Player → List Player
  | _, _, [] => []
  | deck, i, player :: rest =>
    let r := deck.Deal cardsPerPlayer
    { player with Hand := Deck.Sort r.1, OrderInTurn := i } ::
      dealInitial cardsPerPlayer r.2.2 (i + 1) rest

/-- The players `main` creates: `NewPlayer(1, "P1")`, `NewPlayer(2, "P2")`, ...; the source
creates four of them. -/
def initPlayers (n : Nat) : List Player :=
  (List.range n).map fun i => NewPlayer (i + 1) ("P" ++ toString (i + 1))

/-- The game state `main` builds from the shuffled deck for `n > 0` players. -/
def initialGameState (n : Nat) (deck : Deck) : GameState :=
  let players := dealInitial (deck.length / n) deck 0 (initPlayers n)
  let startingPlayerIndex : Nat := (firstWith3D players).getD 0
  { Players := players, CurrentTurnPlayerIndex := startingPlayerIndex, LastPlayedHand := none,
    PassCount := 0, IsGameOver := false, WinnerID := "",
    Scores := players.foldl (fun scores p => mapSet scores p.ID 0) [],
    RoundNumber := 1, TargetScore := 100, IsMatchOver := false, OverallWinnerID := "",
    RoundScoresHistory := [] }

/-- The messages that change the game: play, pass and new game (with its shuffled deck). -/
inductive Action where
  | playCards (msg : Option Deck)
  | passTurn
  | newGame (newDeck : Deck)

/-- The dispatch of `handleWebSocket` under the game lock: no handler runs unless the turn
index is a valid index into the players; the result is the game afterwards and
`needsBroadcast`. -/
def handleAction (game : GameState) (actor : Nat) (a : Action) : GameState × Bool :=
  if game.Players.isEmpty ∨ game.CurrentTurnPlayerIndex < 0 ∨
      game.CurrentTurnPlayerIndex ≥ (game.Players.length : Int) then (game, false)
  else
    match a with
    | .playCards msg => ((processPlayCardsAction game actor msg).1,
        (processPlayCardsAction game actor msg).2.2)
    | .passTurn => ((processPassTurnAction game actor).1, (processPassTurnAction game actor).2.2)
    | .newGame newDeck => ((processNewGameAction game newDeck).1,
        (processNewGameAction game newDeck).2.2)

/-- The states of a match: `main` deals a shuffled `NewDeck` to `n > 0` players, and then
connected players send play, pass and new-game messages; every reset shuffles a `NewDeck`. -/
inductive Reachable : GameState → Prop where
  | init (n : Nat) (deck : Deck) (hn : 0 < n) (hd : deck.Perm NewDeck) :
      Reachable (initialGameState n deck)
  | step (game : GameState) (actor : Nat) (a : Action) (hg : Reachable game)
      (hactor : actor < game.Players.length)
      (hdeck : ∀ newDeck, a = Action.newGame newDeck → newDeck.Perm NewDeck) :
      Reachable (handleAction game actor a).1

/-! ## Words of the specification used in the statements -/

/-- All cards of the deck carry the suit `s`. -/
def allSuit (cards : Deck) (s : Suit) : Prop := ∀ c ∈ cards, c.Suit = s

instance (cards : Deck) (s : Suit) : Decidable (allSuit cards s) := by
  unfold allSuit; infer_instance

/-- Number of cards of rank `r` in the deck. -/
def rankCount (cards : Deck) (r : Rank) : Nat := cards.countP fun c => decide (c.Rank = r)


/-- A bomb: a hand of category FourOfAKindPlusOne or StraightFlush. -/
def isBomb (h : PlayedHand) : Prop :=
  h.HandType = FourOfAKindPlusOne ∨ h.HandType = StraightFlush

instance (h : PlayedHand) : Decidable (isBomb h) := by
  unfold isBomb; infer_instance

/-- A valid hand: its category is one of the eight categories of a legal play and its
number of cards is the one of that category. -/
def PlayedHand.valid (h : PlayedHand) : Prop :=
  (h.HandType = Single ∧ h.Cards.length = 1) ∨
  (h.HandType = Pair ∧ h.Cards.length = 2) ∨
  (h.HandType = Triple ∧ h.Cards.length = 3) ∨
  ((h.HandType = Straight ∨ h.HandType = Flush ∨ h.HandType = FullHouse ∨
      h.HandType = FourOfAKindPlusOne ∨ h.HandType = StraightFlush) ∧ h.Cards.length = 5)

instance (h : PlayedHand) : Decidable h.valid := by
  unfold PlayedHand.valid; infer_instance

/-- The well-formedness of the turn state that every reachable state has: there is a
player, the turn index is a valid index, the pass counter lies between 0 and the number of
players minus one, it is 0 when no hand stands, and a finished match is a finished round. -/
def turnInvariant (g : GameState) : Prop :=
  0 < g.Players.length ∧
  0 ≤ g.CurrentTurnPlayerIndex ∧ g.CurrentTurnPlayerIndex < (g.Players.length : Int) ∧
  0 ≤ g.PassCount ∧ g.PassCount ≤ (g.Players.length : Int) - 1 ∧
  (g.LastPlayedHand = none → g.PassCount = 0) ∧
  (g.IsMatchOver = true → g.IsGameOver = true)

/-- The pass of the player whose turn it is. -/
def passOnTurn (g : GameState) : GameState :=
  (processPassTurnAction g g.CurrentTurnPlayerIndex.toNat).1

/-- The state after `k` consecutive passes, each by the player whose turn it is. -/
def passes : Nat → GameState → GameState
  | 0, g => g
  | k + 1, g => passOnTurn (passes k g)

/-- The match total of a player: the read `Scores[p.ID]`. -/
def matchTotal (g : GameState) (p : Player) : Int := mapGetD g.Scores p.ID

/-- The cards of the standing hand; none when no hand stands. -/
def standingCards (g : GameState) : Deck :=
  match g.LastPlayedHand with
  | none => []
  | some h => h.Cards

/-- The cards of the game in play: the hands of all players, then the standing hand. -/
def allCards (g : GameState) : Deck := g.Players.flatMap Player.Hand ++ standingCards g

/-- The sum of the hand sizes of all players plus the number of cards of the standing hand. -/
def cardTotal (g : GameState) : Nat :=
  (g.Players.map fun p => p.Hand.length).sum + (standingCards g).length

/-- The hand holds the 3 of Diamonds. -/
def holds3D (p : Player) : Prop := ({ Rank := Rank3, Suit := Diamonds } : Card) ∈ p.Hand

instance (p : Player) : Decidable (holds3D p) := by
  unfold holds3D; infer_instance

/-- A round that `player1` has just won in a match of two players: `player2` still holds
the 26 cards dealt. -/
def twoPlayerExample : GameState :=
  { Players := [⟨"player1", "P1", [], true, 0, 0, false⟩,
                ⟨"player2", "P2", List.replicate 26 ⟨Rank4, Diamonds⟩, true, 0, 1, false⟩],
    CurrentTurnPlayerIndex := 0, LastPlayedHand := none, PassCount := 0, IsGameOver := true,
    WinnerID := "player1", Scores := [], RoundNumber := 1, TargetScore := 100,
    IsMatchOver := false, OverallWinnerID := "", RoundScoresHistory := [] }

/-- A round that `player1` has just won: the others hold 13, 11 and 5 cards. -/
def roundEndExample : GameState :=
  { Players := [⟨"player1", "Ann", [], true, 0, 0, false⟩,
                ⟨"player2", "Bob", List.replicate 13 ⟨Rank3, Diamonds⟩, true, 0, 1, false⟩,
                ⟨"player3", "Cid", List.replicate 11 ⟨Rank3, Diamonds⟩, true, 0, 2, false⟩,
                ⟨"player4", "Dee", List.replicate 5 ⟨Rank3, Diamonds⟩, true, 0, 3, false⟩],
    CurrentTurnPlayerIndex := 0, LastPlayedHand := none, PassCount := 0, IsGameOver := true,
    WinnerID := "player1", Scores := [], RoundNumber := 1, TargetScore := 100,
    IsMatchOver := false, OverallWinnerID := "", RoundScoresHistory := [] }

/-- A round in progress among four players with no hand standing: `player1` is to lead. -/
def trickExample : GameState :=
  { Players := [⟨"player1", "Ann", [⟨Rank3, Diamonds⟩, ⟨Rank5, Clubs⟩], true, 0, 0, false⟩,
                ⟨"player2", "Bob", [⟨Rank4, Diamonds⟩, ⟨Rank6, Clubs⟩], true, 0, 1, false⟩,
                ⟨"player3", "Cid", [⟨Rank7, Hearts⟩], true, 0, 2, false⟩,
                ⟨"player4", "Dee", [⟨Rank8, Spades⟩, ⟨Two, Spades⟩], true, 0, 3, false⟩],
    CurrentTurnPlayerIndex := 0, LastPlayedHand := none, PassCount := 0, IsGameOver := false,
    WinnerID := "",
    Scores := [("player1", 10), ("player2", 20), ("player3", 30), ("player4", 40)],
    RoundNumber := 2, TargetScore := 100, IsMatchOver := false, OverallWinnerID := "",
    RoundScoresHistory := [] }

/-- The same round with `player3`, who holds a single card, to lead. -/
def lastCardExample : GameState := { trickExample with CurrentTurnPlayerIndex := 2 }

/-- A player whose hand is not in canonical order. -/
def unsortedPlayer : Player :=
  ⟨"player1", "P1", [⟨Rank4, Diamonds⟩, ⟨Rank3, Diamonds⟩], true, 0, 0, false⟩

/-- The game after a list of messages, each with the index of its sender, handled in order
by `handleAction`. -/
def replay (g : GameState) : List (Nat × Action) → GameState
  | [] => g
  | m :: rest => replay (handleAction g m.1 m.2).1 rest

/-- Every sender of the list is a player of the game at the time of its message, and every
new-game message deals `NewDeck` as it is. -/
def movesOk (g : GameState) : List (Nat × Action) → Bool
  | [] => true
  | m :: rest =>
    decide (m.1 < g.Players.length) &&
    (match m.2 with
      | .newGame d => decide (d = NewDeck)
      | _ => true) &&
    movesOk (handleAction g m.1 m.2).1 rest

/-- A whole round after a deal of `NewDeck` as it is: the first player holds the thirteen
Diamonds and plays them in five hands, and the three others pass every time. -/
def roundMoves : List (Nat × Action) :=
  [(0, .playCards (some [⟨Rank3, Diamonds⟩, ⟨Rank4, Diamonds⟩, ⟨Rank5, Diamonds⟩,
      ⟨Rank6, Diamonds⟩, ⟨Rank7, Diamonds⟩])),
   (1, .passTurn), (2, .passTurn), (3, .passTurn),
   (0, .playCards (some [⟨Rank8, Diamonds⟩, ⟨Rank9, Diamonds⟩, ⟨Rank10, Diamonds⟩,
      ⟨Jack, Diamonds⟩, ⟨Queen, Diamonds⟩])),
   (1, .passTurn), (2, .passTurn), (3, .passTurn),
   (0, .playCards (some [⟨King, Diamonds⟩])),
   (1, .passTurn), (2, .passTurn), (3, .passTurn),
   (0, .playCards (some [⟨Ace, Diamonds⟩])),
   (1, .passTurn), (2, .passTurn), (3, .passTurn),
   (0, .playCards (some [⟨Two, Diamonds⟩]))]

/-- Three such rounds, with a new game after the first and after the second. -/
def threeRounds : List (Nat × Action) :=
  roundMoves ++ [(0, .newGame NewDeck)] ++ roundMoves ++ [(0, .newGame NewDeck)] ++ roundMoves

/-- The state after three such rounds from the deal of `NewDeck` to four players: the three
others have 117 points each, and the match is over. -/
def matchOverExample : GameState := replay (initialGameState 4 NewDeck) threeRounds

/-- The round of `lastCardExample` with the match total of `player4` at the largest 64-bit
integer. -/
def overflowExample : GameState :=
  { lastCardExample with
    Scores := [("player1", 10), ("player2", 20), ("player3", 30),
               ("player4", 9223372036854775807)] }

/-- The finished round of `roundEndExample` with the round number at the largest 64-bit
integer. -/
def lastRoundExample : GameState :=
  { roundEndExample with RoundNumber := 9223372036854775807 }

/-! ## Auxiliary lemmas -/

theorem exists_five_of_length (cards : Deck) (h : cards.length = 5) :
    ∃ c0 c1 c2 c3 c4, cards = [c0, c1, c2, c3, c4] := by
  match cards, h with
  | [c0, c1, c2, c3, c4], _ => exact ⟨c0, c1, c2, c3, c4, rfl⟩

theorem wrapInt_of_small (x : Int) (h1 : -9223372036854775808 ≤ x)
    (h2 : x < 9223372036854775808) : wrapInt x = x := by
  unfold wrapInt; omega

theorem wrapInt_succ_ne (x : Int) : wrapInt (x + 1) ≠ x := by
  unfold wrapInt; omega

theorem isConsecutive_five (c0 c1 c2 c3 c4 : Card) :
    isConsecutive [c0, c1, c2, c3, c4] = true ↔
      c1.Rank = wrapInt (c0.Rank + 1) ∧ c2.Rank = wrapInt (c1.Rank + 1) ∧
      c3.Rank = wrapInt (c2.Rank + 1) ∧ c4.Rank = wrapInt (c3.Rank + 1) := by
  simp [isConsecutive, List.range_succ, and_assoc]

theorem isFlush_five (c0 c1 c2 c3 c4 : Card) :
    isFlush [c0, c1, c2, c3, c4] =
      if c1.Suit = c0.Suit ∧ c2.Suit = c0.Suit ∧ c3.Suit = c0.Suit ∧ c4.Suit = c0.Suit then
        (true, c4.Suit, c4.Rank) else (false, -1, -1) := by
  have hr : List.range' 1 4 = [1, 2, 3, 4] := rfl
  simp only [isFlush, hr]
  simp [and_assoc]

theorem wrapInt_rank_succ (c : Card) (h : c.valid) : wrapInt (c.Rank + 1) = c.Rank + 1 := by
  obtain ⟨⟨h1, h2⟩, _⟩ := h
  dsimp only [Rank, Rank3, Two] at h1 h2
  exact wrapInt_of_small _ (by omega) (by omega)

theorem determinePlayedHand_five (c0 c1 c2 c3 c4 : Card) :
    DeterminePlayedHand [c0, c1, c2, c3, c4] = determineFive [c0, c1, c2, c3, c4] := rfl

theorem isStraightFlush_five (c0 c1 c2 c3 c4 : Card) :
    isStraightFlush [c0, c1, c2, c3, c4] =
      if (isFlush [c0, c1, c2, c3, c4]).1 = true ∧ (isStraight [c0, c1, c2, c3, c4]).1 = true then
        (true, (isStraight [c0, c1, c2, c3, c4]).2.1, (isStraight [c0, c1, c2, c3, c4]).2.2)
      else (false, -1, -1) := by
  unfold isStraightFlush
  by_cases hf : (isFlush [c0, c1, c2, c3, c4]).1 = true <;>
    by_cases hs : (isStraight [c0, c1, c2, c3, c4]).1 = true <;> simp [hf, hs]

theorem isFlush_iff_allSuit (c0 c1 c2 c3 c4 : Card) :
    (isFlush [c0, c1, c2, c3, c4]).1 = true ↔ ∃ s, allSuit [c0, c1, c2, c3, c4] s := by
  rw [isFlush_five]
  constructor
  · intro h
    split_ifs at h with hc
    exact ⟨c0.Suit, by simp [allSuit, hc]⟩
  · rintro ⟨s, hs⟩
    simp only [allSuit, List.mem_cons, List.mem_singleton, forall_eq_or_imp, forall_eq,
      List.not_mem_nil, false_imp_iff, implies_true, and_true] at hs
    obtain ⟨h0, h1, h2, h3, h4⟩ := hs
    simp [h0, h1, h2, h3, h4]

theorem mkPlayedHand_ok (cards : Deck) (t : HandType) (r : Rank) (s : Suit)
    (ht : t ≠ InvalidHand) :
    mkPlayedHand cards t r s = .ok ⟨Deck.Sort cards, "", t, "", 0, r, s⟩ := by
  simp [mkPlayedHand, ht]

theorem cardLE_iff (a b : Card) :
    cardLE a b ↔ a.Rank < b.Rank ∨ (a.Rank = b.Rank ∧ a.Suit ≤ b.Suit) := by
  unfold cardLE sortLess
  dsimp only [Rank, Suit]
  split_ifs with h <;> simp <;> omega

theorem cardLE_rank {a b : Card} (h : cardLE a b) : a.Rank ≤ b.Rank := by
  rw [cardLE_iff] at h
  dsimp only [Rank, Suit] at *
  omega

instance : IsTotal Card cardLE where
  total a b := by
    simp only [cardLE_iff]
    dsimp only [Rank, Suit]
    omega

instance : IsTrans Card cardLE where
  trans a b c := by
    simp only [cardLE_iff]
    dsimp only [Rank, Suit]
    omega

theorem sort_isSorted (d : Deck) : (Deck.Sort d).IsSorted :=
  List.sorted_insertionSort cardLE d

theorem sort_perm (d : Deck) : (Deck.Sort d).Perm d :=
  List.perm_insertionSort cardLE d

theorem isSorted_five {c0 c1 c2 c3 c4 : Card} (h : Deck.IsSorted [c0, c1, c2, c3, c4]) :
    cardLE c0 c1 ∧ cardLE c1 c2 ∧ cardLE c2 c3 ∧ cardLE c3 c4 := by
  simp only [Deck.IsSorted, List.sorted_cons, List.mem_cons, List.mem_singleton,
    forall_eq_or_imp, forall_eq] at h
  exact ⟨h.1.1, h.2.1.1, h.2.2.1.1, h.2.2.2.1.1⟩

/-- The ranks of a sorted deck are the sorted list of the ranks of the deck. -/
theorem sort_ranks_eq (d : Deck) (l : List Int) (hp : (d.map Card.Rank).Perm l)
    (hs : l.Sorted (· ≤ ·)) : (Deck.Sort d).map Card.Rank = l := by
  refine List.eq_of_perm_of_sorted (((sort_perm d).map _).trans hp) ?_ hs
  exact List.Pairwise.map _ (fun a b hab => cardLE_rank hab) (sort_isSorted d)

/-- The five-card case with the final `InvalidHand` test resolved. -/
theorem determineFive_eq (cards : Deck) :
    determineFive cards =
      if (isStraightFlush cards).1 = true then
        .ok ⟨Deck.Sort cards, "", StraightFlush, "", 0, (isStraightFlush cards).2.1,
          (isStraightFlush cards).2.2⟩
      else if (isFourOfAKindPlusOne cards).1 = true then
        .ok ⟨Deck.Sort cards, "", FourOfAKindPlusOne, "", 0, (isFourOfAKindPlusOne cards).2, -1⟩
      else if (isFullHouse cards).1 = true then
        .ok ⟨Deck.Sort cards, "", FullHouse, "", 0, (isFullHouse cards).2, -1⟩
      else if (isFlush cards).1 = true then
        .ok ⟨Deck.Sort cards, "", Flush, "", 0, (isFlush cards).2.2, (isFlush cards).2.1⟩
      else if (isStraight cards).1 = true then
        .ok ⟨Deck.Sort cards, "", Straight, "", 0, (isStraight cards).2.1,
          (isStraight cards).2.2⟩
      else
        .error ("selected 5 cards do not form a valid Big 2 hand " ++
          "(Straight, Flush, Full House, Bomb, or Straight Flush)") := by
  simp only [determineFive, mkPlayedHand]
  rfl

/-- Inversion of a successful five-card classification: the first helper that accepts
determines the result. -/
theorem determineFive_ok_cases {cards : Deck} {h : PlayedHand}
    (hh : determineFive cards = .ok h) :
    ((isStraightFlush cards).1 = true ∧
      h = ⟨Deck.Sort cards, "", StraightFlush, "", 0, (isStraightFlush cards).2.1,
        (isStraightFlush cards).2.2⟩) ∨
    (¬ (isStraightFlush cards).1 = true ∧ (isFourOfAKindPlusOne cards).1 = true ∧
      h = ⟨Deck.Sort cards, "", FourOfAKindPlusOne, "", 0, (isFourOfAKindPlusOne cards).2, -1⟩) ∨
    (¬ (isStraightFlush cards).1 = true ∧ ¬ (isFourOfAKindPlusOne cards).1 = true ∧
      (isFullHouse cards).1 = true ∧
      h = ⟨Deck.Sort cards, "", FullHouse, "", 0, (isFullHouse cards).2, -1⟩) ∨
    (¬ (isStraightFlush cards).1 = true ∧ ¬ (isFourOfAKindPlusOne cards).1 = true ∧
      ¬ (isFullHouse cards).1 = true ∧ (isFlush cards).1 = true ∧
      h = ⟨Deck.Sort cards, "", Flush, "", 0, (isFlush cards).2.2, (isFlush cards).2.1⟩) ∨
    (¬ (isStraightFlush cards).1 = true ∧ ¬ (isFourOfAKindPlusOne cards).1 = true ∧
      ¬ (isFullHouse cards).1 = true ∧ ¬ (isFlush cards).1 = true ∧
      (isStraight cards).1 = true ∧
      h = ⟨Deck.Sort cards, "", Straight, "", 0, (isStraight cards).2.1,
        (isStraight cards).2.2⟩) := by
  rw [determineFive_eq] at hh
  split_ifs at hh with h1 h2 h3 h4 h5 <;> cases hh
  · exact Or.inl ⟨h1, rfl⟩
  · exact Or.inr (Or.inl ⟨h1, h2, rfl⟩)
  · exact Or.inr (Or.inr (Or.inl ⟨h1, h2, h3, rfl⟩))
  · exact Or.inr (Or.inr (Or.inr (Or.inl ⟨h1, h2, h3, h4, rfl⟩)))
  · exact Or.inr (Or.inr (Or.inr (Or.inr ⟨h1, h2, h3, h4, h5, rfl⟩)))

theorem isStraight_ranks_ne {c0 c1 c2 c3 c4 : Card}
    (h : (isStraight [c0, c1, c2, c3, c4]).1 = true) :
    c0.Rank ≠ c1.Rank ∧ c1.Rank ≠ c2.Rank ∧ c2.Rank ≠ c3.Rank ∧ c3.Rank ≠ c4.Rank := by
  simp only [isStraight, isConsecutive_five] at h
  unfold wrapInt at h
  dsimp only [Rank, Suit, Rank3, Rank4, Rank5, Rank10, Jack, Queen, King, Ace, Two] at *
  split_ifs at h <;> omega

theorem isStraightFlush_false_of_not_straight {c0 c1 c2 c3 c4 : Card}
    (h : ¬ (isStraight [c0, c1, c2, c3, c4]).1 = true) :
    ¬ (isStraightFlush [c0, c1, c2, c3, c4]).1 = true := by
  rw [isStraightFlush_five, if_neg (fun hc => h hc.2)]
  decide

theorem rankCount_five (c0 c1 c2 c3 c4 : Card) (r : Rank) :
    rankCount [c0, c1, c2, c3, c4] r =
      (if c0.Rank = r then 1 else 0) + (if c1.Rank = r then 1 else 0) +
      (if c2.Rank = r then 1 else 0) + (if c3.Rank = r then 1 else 0) +
      (if c4.Rank = r then 1 else 0) := by
  simp only [rankCount, List.countP_cons, List.countP_nil, decide_eq_true_eq]
  omega

theorem isSorted_five_ranks {c0 c1 c2 c3 c4 : Card} (h : Deck.IsSorted [c0, c1, c2, c3, c4]) :
    c0.Rank ≤ c1.Rank ∧ c1.Rank ≤ c2.Rank ∧ c2.Rank ≤ c3.Rank ∧ c3.Rank ≤ c4.Rank :=
  have h' := isSorted_five h
  ⟨cardLE_rank h'.1, cardLE_rank h'.2.1, cardLE_rank h'.2.2.1, cardLE_rank h'.2.2.2⟩

theorem nodup_five {c0 c1 c2 c3 c4 : Card} (h : List.Nodup [c0, c1, c2, c3, c4]) :
    (c0.Rank ≠ c1.Rank ∨ c0.Suit ≠ c1.Suit) ∧ (c1.Rank ≠ c2.Rank ∨ c1.Suit ≠ c2.Suit) ∧
    (c2.Rank ≠ c3.Rank ∨ c2.Suit ≠ c3.Suit) ∧ (c3.Rank ≠ c4.Rank ∨ c3.Suit ≠ c4.Suit) := by
  have ne : ∀ a b : Card, a ≠ b → (a.Rank ≠ b.Rank ∨ a.Suit ≠ b.Suit) := by
    intro a b hab
    by_contra hc
    push_neg at hc
    exact hab (by cases a; cases b; simp_all)
  simp only [List.nodup_cons, List.mem_cons, List.mem_singleton, not_or, List.not_mem_nil,
    not_false_eq_true, List.nodup_nil, and_true] at h
  exact ⟨ne _ _ h.1.1, ne _ _ h.2.1.1, ne _ _ h.2.2.1.1, ne _ _ h.2.2.2⟩

theorem count_two_cases (r0 r1 r2 r3 r4 r : Int)
    (h01 : r0 ≤ r1) (h12 : r1 ≤ r2) (h23 : r2 ≤ r3) (h34 : r3 ≤ r4)
    (hc : (if r0 = r then 1 else 0) + (if r1 = r then 1 else 0) + (if r2 = r then 1 else 0) +
      (if r3 = r then 1 else 0) + (if r4 = r then 1 else 0) = 2) :
    (r0 = r ∧ r1 = r ∧ r2 ≠ r) ∨ (r0 ≠ r ∧ r1 = r ∧ r2 = r ∧ r3 ≠ r) ∨
    (r1 ≠ r ∧ r2 = r ∧ r3 = r ∧ r4 ≠ r) ∨ (r2 ≠ r ∧ r3 = r ∧ r4 = r) := by
  split_ifs at hc <;> omega

theorem count_three_cases (r0 r1 r2 r3 r4 r : Int)
    (h01 : r0 ≤ r1) (h12 : r1 ≤ r2) (h23 : r2 ≤ r3) (h34 : r3 ≤ r4)
    (hc : (if r0 = r then 1 else 0) + (if r1 = r then 1 else 0) + (if r2 = r then 1 else 0) +
      (if r3 = r then 1 else 0) + (if r4 = r then 1 else 0) = 3) :
    (r0 = r ∧ r1 = r ∧ r2 = r ∧ r3 ≠ r) ∨ (r0 ≠ r ∧ r1 = r ∧ r2 = r ∧ r3 = r ∧ r4 ≠ r) ∨
    (r1 ≠ r ∧ r2 = r ∧ r3 = r ∧ r4 = r) := by
  split_ifs at hc <;> omega

theorem sort_length (d : Deck) : (Deck.Sort d).length = d.length :=
  (sort_perm d).length_eq

/-- A successful classification returns the sorted copy of the input, tagged with the
category of its number of cards. -/
theorem determinePlayedHand_ok {cards : Deck} {h : PlayedHand}
    (hh : DeterminePlayedHand cards = .ok h) :
    h.Cards = Deck.Sort cards ∧ h.valid := by
  have hl := sort_length cards
  match cards, hh, hl with
  | [c0], hh, hl =>
    simp only [DeterminePlayedHand, mkPlayedHand] at hh
    cases hh
    exact ⟨rfl, Or.inl ⟨rfl, hl⟩⟩
  | [c0, c1], hh, hl =>
    simp only [DeterminePlayedHand, mkPlayedHand] at hh
    split_ifs at hh
    cases hh
    exact ⟨rfl, Or.inr (Or.inl ⟨rfl, hl⟩)⟩
  | [c0, c1, c2], hh, hl =>
    simp only [DeterminePlayedHand, mkPlayedHand] at hh
    split_ifs at hh
    cases hh
    exact ⟨rfl, Or.inr (Or.inr (Or.inl ⟨rfl, hl⟩))⟩
  | [c0, c1, c2, c3, c4], hh, hl =>
    rw [determinePlayedHand_five] at hh
    rcases determineFive_ok_cases hh with ⟨_, rfl⟩ | ⟨_, _, rfl⟩ | ⟨_, _, _, rfl⟩ |
      ⟨_, _, _, _, rfl⟩ | ⟨_, _, _, _, _, rfl⟩
    · exact ⟨rfl, Or.inr (Or.inr (Or.inr ⟨Or.inr (Or.inr (Or.inr (Or.inr rfl))), hl⟩))⟩
    · exact ⟨rfl, Or.inr (Or.inr (Or.inr ⟨Or.inr (Or.inr (Or.inr (Or.inl rfl))), hl⟩))⟩
    · exact ⟨rfl, Or.inr (Or.inr (Or.inr ⟨Or.inr (Or.inr (Or.inl rfl)), hl⟩))⟩
    · exact ⟨rfl, Or.inr (Or.inr (Or.inr ⟨Or.inr (Or.inl rfl), hl⟩))⟩
    · exact ⟨rfl, Or.inr (Or.inr (Or.inr ⟨Or.inl rfl, hl⟩))⟩

theorem valid_ne_invalid {h : PlayedHand} (hv : h.valid) : h.HandType ≠ InvalidHand := by
  unfold PlayedHand.valid at hv
  dsimp only [HandType, InvalidHand, Single, Pair, Triple, Straight, Flush, FullHouse,
    FourOfAKindPlusOne, StraightFlush] at *
  omega

theorem sort_eq_of_isSorted {d : Deck} (h : d.IsSorted) : Deck.Sort d = d :=
  List.Sorted.insertionSort_eq h

theorem rankCount_sort (d : Deck) (r : Rank) : rankCount (Deck.Sort d) r = rankCount d r :=
  (sort_perm d).countP_eq _

theorem not_straight_of_adjacent_eq {c0 c1 c2 c3 c4 : Card}
    (h : c0.Rank = c1.Rank ∨ c1.Rank = c2.Rank ∨ c2.Rank = c3.Rank ∨ c3.Rank = c4.Rank) :
    ¬ (isStraight [c0, c1, c2, c3, c4]).1 = true := by
  intro hst
  have := isStraight_ranks_ne hst
  dsimp only [Rank] at *
  omega

/-- Four cards of one rank in a sorted five-card input make a FourOfAKindPlusOne. -/
theorem determineFive_of_four {c0 c1 c2 c3 c4 : Card}
    (hs : Deck.IsSorted [c0, c1, c2, c3, c4]) (r : Rank)
    (hr : 4 ≤ rankCount [c0, c1, c2, c3, c4] r) :
    determineFive [c0, c1, c2, c3, c4] =
      .ok ⟨Deck.Sort [c0, c1, c2, c3, c4], "", FourOfAKindPlusOne, "", 0, r, -1⟩ := by
  obtain ⟨s01, s12, s23, s34⟩ := isSorted_five_ranks hs
  rw [rankCount_five] at hr
  have hq : (c0.Rank = r ∧ c1.Rank = r ∧ c2.Rank = r ∧ c3.Rank = r) ∨
      (c1.Rank = r ∧ c2.Rank = r ∧ c3.Rank = r ∧ c4.Rank = r) := by
    dsimp only [Rank] at *
    split_ifs at hr <;> omega
  have hns : ¬ (isStraight [c0, c1, c2, c3, c4]).1 = true :=
    not_straight_of_adjacent_eq (by dsimp only [Rank] at *; omega)
  rw [determineFive_eq, if_neg (isStraightFlush_false_of_not_straight hns)]
  rcases hq with ⟨h0, h1, h2, h3⟩ | ⟨h1, h2, h3, h4⟩
  · simp [isFourOfAKindPlusOne, h0, h1, h2, h3]
  · by_cases h0 : c0.Rank = r
    · simp [isFourOfAKindPlusOne, h0, h1, h2, h3]
    · simp [isFourOfAKindPlusOne, h0, h1, h2, h3, h4]

/-- Three cards of one rank and two of another in a sorted five-card input make a
FullHouse ranked by the three. -/
theorem determineFive_of_three_two {c0 c1 c2 c3 c4 : Card}
    (hs : Deck.IsSorted [c0, c1, c2, c3, c4]) (t p : Rank) (htp : t ≠ p)
    (ht : rankCount [c0, c1, c2, c3, c4] t = 3) (hp : rankCount [c0, c1, c2, c3, c4] p = 2) :
    determineFive [c0, c1, c2, c3, c4] =
      .ok ⟨Deck.Sort [c0, c1, c2, c3, c4], "", FullHouse, "", 0, t, -1⟩ := by
  obtain ⟨s01, s12, s23, s34⟩ := isSorted_five_ranks hs
  rw [rankCount_five] at ht hp
  have ct := count_three_cases _ _ _ _ _ t s01 s12 s23 s34 ht
  have cp := count_two_cases _ _ _ _ _ p s01 s12 s23 s34 hp
  have hq : (c0.Rank = t ∧ c1.Rank = t ∧ c2.Rank = t ∧ c3.Rank = p ∧ c4.Rank = p) ∨
      (c0.Rank = p ∧ c1.Rank = p ∧ c2.Rank = t ∧ c3.Rank = t ∧ c4.Rank = t) := by
    dsimp only [Rank] at *
    omega
  have hns : ¬ (isStraight [c0, c1, c2, c3, c4]).1 = true :=
    not_straight_of_adjacent_eq (by dsimp only [Rank] at *; omega)
  rw [determineFive_eq, if_neg (isStraightFlush_false_of_not_straight hns)]
  rcases hq with ⟨h0, h1, h2, h3, h4⟩ | ⟨h0, h1, h2, h3, h4⟩
  · simp [isFourOfAKindPlusOne, isFullHouse, h0, h1, h2, h3, h4, htp, Ne.symm htp]
  · simp [isFourOfAKindPlusOne, isFullHouse, h0, h1, h2, h3, h4, htp, Ne.symm htp]

/-- A straight of cards of the game is in canonical order. -/
theorem isSorted_of_isStraight {c0 c1 c2 c3 c4 : Card}
    (hv : ∀ c ∈ [c0, c1, c2, c3, c4], c.valid)
    (hst : (isStraight [c0, c1, c2, c3, c4]).1 = true) :
    Deck.IsSorted [c0, c1, c2, c3, c4] := by
  have w0 := wrapInt_rank_succ c0 (hv c0 (by simp))
  have w1 := wrapInt_rank_succ c1 (hv c1 (by simp))
  have w2 := wrapInt_rank_succ c2 (hv c2 (by simp))
  have w3 := wrapInt_rank_succ c3 (hv c3 (by simp))
  simp only [isStraight, isConsecutive_five, w0, w1, w2, w3] at hst
  have hlt : c0.Rank < c1.Rank ∧ c1.Rank < c2.Rank ∧ c2.Rank < c3.Rank ∧ c3.Rank < c4.Rank := by
    dsimp only [Rank, Suit, Rank3, Rank4, Rank5, Rank10, Jack, Queen, King, Ace, Two] at *
    split_ifs at hst <;> omega
  simp only [Deck.IsSorted, List.sorted_cons, List.mem_cons, List.mem_singleton,
    forall_eq_or_imp, forall_eq, List.not_mem_nil, false_imp_iff, implies_true, and_true,
    List.sorted_nil, cardLE_iff]
  dsimp only [Rank, Suit] at *
  omega

theorem mapSet_of_absent (m : ScoreMap) (k : String) (v : Int)
    (h : ∀ e ∈ m, e.1 ≠ k) : mapSet m k v = m ++ [(k, v)] := by
  unfold mapSet
  rw [if_neg]
  simp only [List.any_eq_true, beq_iff_eq, not_exists, not_and]
  exact fun e he => h e he

theorem foldl_mapSet_of_nodup (f : Player → Int) (ps : List Player) :
    ∀ acc : ScoreMap, (ps.map Player.ID).Nodup → (∀ p ∈ ps, ∀ e ∈ acc, e.1 ≠ p.ID) →
      ps.foldl (fun scores player => mapSet scores player.ID (f player)) acc =
        acc ++ ps.map (fun p => (p.ID, f p)) := by
  induction ps with
  | nil => intro acc _ _; simp
  | cons p ps ih =>
    intro acc hnd hdis
    rw [List.map_cons, List.nodup_cons] at hnd
    rw [List.foldl_cons, mapSet_of_absent _ _ _ (hdis p (List.mem_cons_self _ _)), ih _ hnd.2]
    · simp
    · intro q hq e he
      rw [List.mem_append, List.mem_singleton] at he
      rcases he with he | rfl
      · exact hdis q (List.mem_cons_of_mem _ hq) e he
      · intro heq
        have heq2 : p.ID = q.ID := heq
        exact hnd.1 (heq2 ▸ List.mem_map_of_mem Player.ID hq)

theorem calculateScores_eq_map (game : GameState) (hw : game.WinnerID ≠ "")
    (hid : (game.Players.map Player.ID).Nodup) :
    CalculateScores game =
      game.Players.map (fun p => (p.ID, playerScore game.WinnerID p)) := by
  unfold CalculateScores
  by_cases he : game.Players.isEmpty = true
  · rw [List.isEmpty_iff] at he
    simp [he]
  · rw [if_neg (by simp [he, hw])]
    rw [foldl_mapSet_of_nodup _ _ [] hid (by simp)]
    simp

theorem mapGet_map_of_nodup (f : Player → Int) (ps : List Player)
    (hnd : (ps.map Player.ID).Nodup) (p : Player) (hp : p ∈ ps) :
    mapGet (ps.map (fun q => (q.ID, f q))) p.ID = some (f p) := by
  unfold mapGet
  induction ps with
  | nil => simp at hp
  | cons q qs ih =>
    rw [List.map_cons, List.nodup_cons] at hnd
    rw [List.map_cons]
    rcases List.mem_cons.1 hp with rfl | hp
    · simp [List.lookup]
    · have hne : p.ID ≠ q.ID := by
        intro heq
        exact hnd.1 (heq ▸ List.mem_map_of_mem Player.ID hp)
      rw [List.lookup_cons, show (p.ID == q.ID) = false from by simpa using hne]
      exact ih hnd.2 hp

/-! ## Auxiliary lemmas: the handlers -/

theorem foldl_counts (d : Deck) : ∀ (m : Card → Int) (c : Card),
    d.foldl (fun m c => Function.update m c (m c + 1)) m c = m c + (d.count c : Int) := by
  induction d with
  | nil => intro m c; simp
  | cons a d ih =>
    intro m c
    rw [List.foldl_cons, ih, List.count_cons]
    by_cases hac : a = c
    · subst hac; simp; omega
    · have hca : c ≠ a := fun h => hac h.symm
      simp [Function.update_noteq hca, hac]

theorem cardCounts_eq (d : Deck) (c : Card) : cardCounts d c = (d.count c : Int) := by
  unfold cardCounts
  rw [foldl_counts]
  simp

theorem counts_erase (m : Card → Int) (rem : Deck) (c : Card) (hc : c ∈ rem)
    (hm : ∀ x, m x = (rem.count x : Int)) :
    ∀ x, Function.update m c (m c - 1) x = ((rem.erase c).count x : Int) := by
  intro x
  by_cases hx : x = c
  · subst hx
    have := List.count_pos_iff.2 hc
    rw [Function.update_same, hm, List.count_erase_self]
    omega
  · rw [Function.update_noteq hx, hm, List.count_erase_of_ne hx]

theorem canPlayLoop_iff : ∀ (parsed rem : Deck) (m : Card → Int),
    (∀ x, m x = (rem.count x : Int)) → (canPlayLoop m parsed = true ↔ parsed.Subperm rem) := by
  intro parsed
  induction parsed with
  | nil => intro rem m _; simp [canPlayLoop, List.nil_subperm]
  | cons c rest ih =>
    intro rem m hm
    unfold canPlayLoop
    by_cases hc : c ∈ rem
    · have hpos : m c > 0 := by
        have := List.count_pos_iff.2 hc
        rw [hm]; omega
      rw [if_pos hpos, ih (rem.erase c) _ (counts_erase m rem c hc hm)]
      constructor
      · intro h
        exact ((List.subperm_cons c).2 h).trans (List.perm_cons_erase hc).symm.subperm
      · intro h
        have := h.erase c
        simpa using this
    · have hnpos : ¬ m c > 0 := by
        rw [hm, List.count_eq_zero_of_not_mem hc]; simp
      rw [if_neg hnpos]
      constructor
      · intro h; simp at h
      · intro h
        exact absurd (h.subset (List.mem_cons_self _ _)) hc

theorem canPlayCards_iff (hand parsed : Deck) :
    canPlayCards hand parsed = true ↔ parsed.Subperm hand :=
  canPlayLoop_iff parsed hand _ (cardCounts_eq hand)

theorem subperm_sort_iff (data hand : Deck) :
    (Deck.Sort data).Subperm hand ↔ data.Subperm hand :=
  ⟨fun h => (sort_perm data).symm.subperm.trans h, fun h => (sort_perm data).subperm.trans h⟩

theorem removeLoop_spec : ∀ (hand rem : Deck) (m : Card → Int),
    (∀ x, m x = (rem.count x : Int)) → rem.Subperm hand →
    (removeLoop m hand).2 = rem.length ∧ ((removeLoop m hand).1 ++ rem).Perm hand := by
  intro hand
  induction hand with
  | nil =>
    intro rem m _ hsub
    have : rem = [] := List.subperm_nil.1 hsub
    subst this
    simp [removeLoop]
  | cons c rest ih =>
    intro rem m hm hsub
    unfold removeLoop
    by_cases hc : c ∈ rem
    · have hpos : m c > 0 := by
        have := List.count_pos_iff.2 hc
        rw [hm]; omega
      rw [if_pos hpos]
      have hsub' : (rem.erase c).Subperm rest := by
        have := hsub.erase c
        simpa using this
      obtain ⟨h1, h2⟩ := ih (rem.erase c) _ (counts_erase m rem c hc hm) hsub'
      refine ⟨?_, ?_⟩
      · simp only [h1]
        rw [List.length_erase_of_mem hc]
        have := List.length_pos_of_mem hc
        omega
      · have hp : rem.Perm (c :: rem.erase c) := List.perm_cons_erase hc
        exact ((List.Perm.append_left _ hp).trans List.perm_middle).trans (h2.cons c)
    · have hnpos : ¬ m c > 0 := by
        rw [hm, List.count_eq_zero_of_not_mem hc]; simp
      rw [if_neg hnpos]
      have hsub' : rem.Subperm rest := by
        rw [List.subperm_ext_iff] at hsub ⊢
        intro x hx
        have := hsub x hx
        have hxc : x ≠ c := fun h => hc (h ▸ hx)
        rwa [List.count_cons_of_ne hxc] at this
      obtain ⟨h1, h2⟩ := ih rem m hm hsub'
      exact ⟨h1, by simpa using h2.cons c⟩

/-- When the cards to remove are held, `RemoveCards` succeeds and the hand afterwards,
together with the removed cards, is the hand before. -/
theorem removeCards_of_subperm (p : Player) (cards : Deck) (h : cards.Subperm p.Hand) :
    (p.RemoveCards cards).2 = true ∧
    ((p.RemoveCards cards).1.Hand ++ cards).Perm p.Hand ∧
    (p.RemoveCards cards).1.ID = p.ID ∧
    (cards ≠ [] → (p.RemoveCards cards).1.Hand.IsSorted) := by
  unfold Player.RemoveCards
  by_cases hl : cards.length = 0
  · have : cards = [] := List.length_eq_zero.1 hl
    subst this
    simp
  · obtain ⟨h1, h2⟩ := removeLoop_spec p.Hand cards _ (cardCounts_eq cards) h
    have h3 : ((removeLoop (cardCounts cards) p.Hand).1.length : Int) =
        (p.Hand.length : Int) - (cards.length : Int) := by
      have := h2.length_eq
      rw [List.length_append] at this
      omega
    rw [if_neg hl, if_pos ⟨h1, h3⟩]
    refine ⟨rfl, ?_, rfl, fun _ => sort_isSorted _⟩
    exact ((sort_perm _).append_right cards).trans h2

theorem updatePlayer_length (ps : List Player) (i : Nat) (f : Player → Player) :
    (updatePlayer ps i f).length = ps.length := by
  unfold updatePlayer
  split <;> simp

theorem updatePlayer_getElem? (ps : List Player) (i j : Nat) (f : Player → Player) :
    (updatePlayer ps i f)[j]? = if i = j then ps[j]?.map f else ps[j]? := by
  unfold updatePlayer
  split
  · next p hp =>
    rw [List.getElem?_set]
    by_cases hij : i = j
    · subst hij
      have hlt : i < ps.length := (List.getElem?_eq_some_iff.1 hp).1
      simp [hlt, hp]
    · simp [hij]
  · next hp =>
    by_cases hij : i = j
    · subst hij; simp [hp]
    · simp [hij]

theorem beatsLastHand_congr (h : PlayedHand) (a b : String) (t : Option PlayedHand) :
    BeatsLastHand { h with PlayerID := a, HandTypeString := b } t = BeatsLastHand h t := by
  cases t <;> rfl

/-! ### Fields after `endRound` and `advanceTurn` -/

theorem endRound_fields (g : GameState) (p : Player) :
    (endRound g p).Players = g.Players ∧
    (endRound g p).CurrentTurnPlayerIndex = g.CurrentTurnPlayerIndex ∧
    (endRound g p).LastPlayedHand = g.LastPlayedHand ∧
    (endRound g p).PassCount = g.PassCount ∧
    (endRound g p).IsGameOver = true ∧
    (endRound g p).WinnerID = p.ID ∧
    (endRound g p).RoundNumber = g.RoundNumber ∧
    (endRound g p).TargetScore = g.TargetScore ∧
    (endRound g p).RoundScoresHistory =
      g.RoundScoresHistory ++ [CalculateScores { g with IsGameOver := true, WinnerID := p.ID }] := by
  unfold endRound
  dsimp only
  split
  · split <;> simp
  · simp

theorem advanceTurn_fields (g : GameState) :
    (advanceTurn g).Players.length = g.Players.length ∧
    (advanceTurn g).CurrentTurnPlayerIndex =
      (g.CurrentTurnPlayerIndex + 1).tmod (g.Players.length : Int) ∧
    (advanceTurn g).LastPlayedHand = g.LastPlayedHand ∧
    (advanceTurn g).PassCount = g.PassCount ∧
    (advanceTurn g).IsGameOver = g.IsGameOver ∧
    (advanceTurn g).WinnerID = g.WinnerID ∧
    (advanceTurn g).Scores = g.Scores ∧
    (advanceTurn g).RoundNumber = g.RoundNumber ∧
    (advanceTurn g).TargetScore = g.TargetScore ∧
    (advanceTurn g).IsMatchOver = g.IsMatchOver ∧
    (advanceTurn g).OverallWinnerID = g.OverallWinnerID ∧
    (advanceTurn g).RoundScoresHistory = g.RoundScoresHistory := by
  unfold advanceTurn
  dsimp only
  split <;> simp [updatePlayer_length]

theorem advanceTurn_players (g : GameState) :
    (advanceTurn g).Players =
      if (g.CurrentTurnPlayerIndex + 1).tmod (g.Players.length : Int) < (g.Players.length : Int) ∧
          (g.CurrentTurnPlayerIndex + 1).tmod (g.Players.length : Int) ≥ 0 then
        updatePlayer g.Players ((g.CurrentTurnPlayerIndex + 1).tmod (g.Players.length : Int)).toNat
          (fun p => { p with HasPassed := false })
      else g.Players := by
  unfold advanceTurn
  dsimp only
  split <;> rfl

theorem beatsLastHand_stamp (h : PlayedHand) (p : Player) (t : Option PlayedHand) :
    BeatsLastHand (stampHand h p) t = BeatsLastHand h t := by
  cases t <;> rfl

/-- The outcome of `processPlayCardsAction`: the play is rejected and nothing changes, or
every check has passed and the play is carried out. -/
theorem play_cases (game : GameState) (actor : Nat) (msg : Option Deck) :
    processPlayCardsAction game actor msg = (game, true, false) ∨
    ∃ p data hand, game.Players[actor]? = some p ∧ game.IsGameOver = false ∧
      (actor : Int) = game.CurrentTurnPlayerIndex ∧ msg = some data ∧
      canPlayCards p.Hand (Deck.Sort data) = true ∧
      DeterminePlayedHand (Deck.Sort data) = .ok hand ∧
      BeatsLastHand hand game.LastPlayedHand = true ∧
      (p.RemoveCards (Deck.Sort data)).2 = true ∧
      processPlayCardsAction game actor msg =
        (acceptPlay game actor (p.RemoveCards (Deck.Sort data)).1 (stampHand hand p),
          false, true) := by
  unfold processPlayCardsAction
  cases hp : game.Players[actor]? with
  | none => left; rfl
  | some p =>
    dsimp only
    by_cases hgo : game.IsGameOver = true
    · left; simp [hgo]
    by_cases hturn : (actor : Int) = game.CurrentTurnPlayerIndex
    swap
    · left; simp [hgo, hturn]
    cases msg with
    | none => left; simp [hgo, hturn]
    | some data =>
      by_cases hcan : canPlayCards p.Hand (Deck.Sort data) = true
      swap
      · left; simp [hgo, hturn, hcan]
      cases hd : DeterminePlayedHand (Deck.Sort data) with
      | error e => left; simp [hgo, hturn, hcan, hd]
      | ok hand =>
        by_cases hb : BeatsLastHand hand game.LastPlayedHand = true
        swap
        · left; simp [hgo, hturn, hcan, hd, beatsLastHand_stamp, hb]
        by_cases hr : (p.RemoveCards (Deck.Sort data)).2 = true
        swap
        · left; simp [hgo, hturn, hcan, hd, beatsLastHand_stamp, hb, hr]
        right
        refine ⟨p, data, hand, rfl, by simpa using hgo, hturn, rfl, hcan, hd, hb, hr, ?_⟩
        simp [hgo, hturn, hcan, hd, beatsLastHand_stamp, hb, hr]

theorem pass_cases (game : GameState) (actor : Nat) :
    processPassTurnAction game actor = (game, true, false) ∨
    ∃ p, game.Players[actor]? = some p ∧ game.IsGameOver = false ∧
      (actor : Int) = game.CurrentTurnPlayerIndex ∧
      ¬ (game.LastPlayedHand = none ∧ game.PassCount = 0) ∧
      processPassTurnAction game actor = (acceptPass game actor p, false, true) := by
  unfold processPassTurnAction
  cases hp : game.Players[actor]? with
  | none => left; rfl
  | some p =>
    dsimp only
    by_cases hgo : game.IsGameOver = true
    · left; simp [hgo]
    by_cases hturn : (actor : Int) = game.CurrentTurnPlayerIndex
    swap
    · left; simp [hgo, hturn]
    by_cases hlead : game.LastPlayedHand = none ∧ game.PassCount = 0
    · left; simp [hgo, hturn, hlead.1, hlead.2]
    · right
      refine ⟨p, rfl, by simpa using hgo, hturn, hlead, ?_⟩
      simp [hgo, hturn]
      exact fun hn hz => hlead ⟨hn, hz⟩

/-- The state after an accepted pass, field by field. -/
theorem acceptPass_fields (g : GameState) (actor : Nat) (p : Player) :
    (acceptPass g actor p).Players.length = g.Players.length ∧
    (acceptPass g actor p).CurrentTurnPlayerIndex =
      (g.CurrentTurnPlayerIndex + 1).tmod (g.Players.length : Int) ∧
    (acceptPass g actor p).LastPlayedHand =
      (if g.PassCount + 1 ≥ (g.Players.length : Int) - 1 then none else g.LastPlayedHand) ∧
    (acceptPass g actor p).PassCount =
      (if g.PassCount + 1 ≥ (g.Players.length : Int) - 1 then 0 else g.PassCount + 1) ∧
    (acceptPass g actor p).IsGameOver = g.IsGameOver ∧
    (acceptPass g actor p).IsMatchOver = g.IsMatchOver := by
  unfold acceptPass
  simp only [List.length_set]
  split <;> simp [updatePlayer_length]

theorem acceptPlay_eq (g : GameState) (actor : Nat) (r : Player) (dh : PlayedHand) :
    acceptPlay g actor r dh =
      if r.Hand.length = 0 then
        endRound { g with Players := g.Players.set actor { r with HasPassed := false },
                          LastPlayedHand := some dh, PassCount := 0 }
          { r with HasPassed := false }
      else
        advanceTurn { g with Players := g.Players.set actor { r with HasPassed := false },
                             LastPlayedHand := some dh, PassCount := 0 } := rfl

theorem endRound_matchOver (g : GameState) (p : Player) :
    (endRound g p).IsMatchOver = true → (endRound g p).IsGameOver = true :=
  fun _ => (endRound_fields g p).2.2.2.2.1

theorem tmod_succ_range (i n : Int) (h0 : 0 ≤ i) (h1 : i < n) :
    0 ≤ (i + 1).tmod n ∧ (i + 1).tmod n < n := by
  rw [Int.tmod_eq_emod (by omega) (by omega)]
  exact ⟨Int.emod_nonneg _ (by omega), Int.emod_lt_of_pos _ (by omega)⟩

theorem dealRound_length (cpp : Nat) : ∀ (ps : List Player) (deck : Deck),
    (dealRound cpp deck ps).length = ps.length := by
  intro ps
  induction ps with
  | nil => intro deck; rfl
  | cons p ps ih => intro deck; simp [dealRound, ih]

theorem dealInitial_length (cpp : Nat) : ∀ (ps : List Player) (deck : Deck) (i : Nat),
    (dealInitial cpp deck i ps).length = ps.length := by
  intro ps
  induction ps with
  | nil => intro deck i; rfl
  | cons p ps ih => intro deck i; simp [dealInitial, ih]

theorem firstWith3D_lt : ∀ (ps : List Player) (i : Nat), firstWith3D ps = some i → i < ps.length := by
  intro ps
  induction ps with
  | nil => intro i h; simp [firstWith3D] at h
  | cons p ps ih =>
    intro i h
    unfold firstWith3D at h
    split_ifs at h
    · cases h; simp
    · cases hf : firstWith3D ps with
      | none => simp [hf] at h
      | some j =>
        simp [hf] at h
        subst h
        have := ih j hf
        simp; omega

theorem firstWith3D_getD_lt (ps : List Player) (h : 0 < ps.length) :
    (firstWith3D ps).getD 0 < ps.length := by
  cases hf : firstWith3D ps with
  | none => simpa using h
  | some j => simpa using firstWith3D_lt ps j hf

theorem resetRoundState_inv (g : GameState) (deck : Deck) (hn : 0 < g.Players.length)
    (hm : g.IsMatchOver = false) : turnInvariant (resetRoundState g deck) := by
  have hne : g.Players.isEmpty = false := by
    cases hp : g.Players with
    | nil => simp [hp] at hn
    | cons a l => rfl
  unfold resetRoundState
  rw [if_neg (by simp [hne])]
  unfold turnInvariant
  dsimp only
  rw [dealRound_length]
  refine ⟨hn, ?_, ?_, le_refl _, by omega, fun _ => rfl, ?_⟩
  · split <;> simp
  · split
    · simpa using hn
    · have := firstWith3D_getD_lt (dealRound
        (if g.Players.length = 4 then 13 else deck.length / g.Players.length) deck g.Players)
        (by rw [dealRound_length]; exact hn)
      rw [dealRound_length] at this
      exact_mod_cast this
  · intro h; rw [hm] at h; cases h

theorem resetMatchState_inv (g : GameState) (deck : Deck) (hn : 0 < g.Players.length) :
    turnInvariant (resetMatchState g deck) := by
  unfold resetMatchState
  exact resetRoundState_inv _ deck hn rfl

theorem initPlayers_length (n : Nat) : (initPlayers n).length = n := by
  simp [initPlayers]

theorem initialGameState_inv (n : Nat) (deck : Deck) (hn : 0 < n) :
    turnInvariant (initialGameState n deck) := by
  unfold turnInvariant initialGameState
  dsimp only
  rw [dealInitial_length, initPlayers_length]
  refine ⟨hn, by simp, ?_, le_refl _, by omega, fun _ => rfl, (by intro h; cases h)⟩
  have := firstWith3D_getD_lt (dealInitial (deck.length / n) deck 0 (initPlayers n))
    (by rw [dealInitial_length, initPlayers_length]; exact hn)
  rw [dealInitial_length, initPlayers_length] at this
  exact_mod_cast this

theorem play_inv (g : GameState) (actor : Nat) (msg : Option Deck) (h : turnInvariant g) :
    turnInvariant (processPlayCardsAction g actor msg).1 := by
  rcases play_cases g actor msg with hrej | ⟨p, data, hand, hp, hgo, hturn, _, _, _, _, _, hres⟩
  · rw [hrej]; exact h
  · rw [hres, acceptPlay_eq]
    obtain ⟨h1, h2, h3, h4, h5, h6, h7⟩ := h
    dsimp only
    split
    · have F := endRound_fields { g with
          Players := g.Players.set actor { (p.RemoveCards (Deck.Sort data)).1 with HasPassed := false },
          LastPlayedHand := some (stampHand hand p), PassCount := 0 }
          { (p.RemoveCards (Deck.Sort data)).1 with HasPassed := false }
      obtain ⟨f1, f2, f3, f4, f5, _⟩ := F
      unfold turnInvariant
      rw [f1, f2, f3, f4, f5]
      dsimp only
      rw [List.length_set]
      exact ⟨h1, h2, h3, le_refl _, by omega, (by intro hc; cases hc), fun _ => rfl⟩
    · have F := advanceTurn_fields { g with
          Players := g.Players.set actor { (p.RemoveCards (Deck.Sort data)).1 with HasPassed := false },
          LastPlayedHand := some (stampHand hand p), PassCount := 0 }
      simp only [List.length_set] at F
      obtain ⟨f1, f2, f3, f4, f5, _, _, _, _, f10, _, _⟩ := F
      have hr := tmod_succ_range _ _ h2 h3
      unfold turnInvariant
      rw [f1, f2, f3, f4, f5, f10]
      exact ⟨h1, hr.1, hr.2, le_refl _, by omega, (by intro hc; cases hc), h7⟩

theorem pass_inv (g : GameState) (actor : Nat) (h : turnInvariant g) :
    turnInvariant (processPassTurnAction g actor).1 := by
  rcases pass_cases g actor with hrej | ⟨p, hp, hgo, hturn, hlead, hres⟩
  · rw [hrej]; exact h
  · rw [hres]
    obtain ⟨h1, h2, h3, h4, h5, h6, h7⟩ := h
    obtain ⟨f1, f2, f3, f4, f5, f6⟩ := acceptPass_fields g actor p
    have hr := tmod_succ_range _ _ h2 h3
    unfold turnInvariant
    rw [f1, f2, f3, f4, f5, f6]
    refine ⟨h1, hr.1, hr.2, ?_, ?_, ?_, h7⟩
    · split <;> omega
    · split <;> omega
    · split
      · intro _; rfl
      · intro hn; exact absurd ⟨hn, h6 hn⟩ hlead

theorem newGame_inv (g : GameState) (deck : Deck) (h : turnInvariant g) :
    turnInvariant (processNewGameAction g deck).1 := by
  unfold processNewGameAction
  split
  · exact resetMatchState_inv g deck h.1
  · next hm =>
    split
    · exact resetRoundState_inv _ deck h.1 (by simpa using hm)
    · exact resetMatchState_inv g deck h.1

theorem handleAction_inv (g : GameState) (actor : Nat) (a : Action) (h : turnInvariant g) :
    turnInvariant (handleAction g actor a).1 := by
  unfold handleAction
  split
  · exact h
  · cases a with
    | playCards msg => exact play_inv g actor msg h
    | passTurn => exact pass_inv g actor h
    | newGame deck => exact newGame_inv g deck h

theorem reachable_inv {g : GameState} (h : Reachable g) : turnInvariant g := by
  induction h with
  | init n deck hn _ => exact initialGameState_inv n deck hn
  | step game actor a _ _ _ ih => exact handleAction_inv game actor a ih

theorem lookup_map_set (k k' : String) (v : Int) : ∀ m : ScoreMap,
    List.lookup k' (m.map (fun e => if e.1 == k then (k, v) else e)) =
      if k' = k then (if m.any (fun e => e.1 == k) then some v else none)
      else List.lookup k' m := by
  intro m
  induction m with
  | nil => simp [List.lookup]
  | cons e m ih =>
    obtain ⟨a, b⟩ := e
    rw [List.map_cons, List.any_cons]
    by_cases hak : a = k
    · have hb0 : (a == k) = true := by simpa using hak
      rw [if_pos hb0, List.lookup_cons, ih]
      dsimp only
      rw [hb0]
      by_cases hk : k' = k
      · have hb : (k' == k) = true := by simpa using hk
        rw [hb]
        simp [hk]
      · have hb : (k' == k) = false := by simpa using hk
        have hb' : (k' == a) = false := by rw [hak]; exact hb
        rw [hb]
        simp [hk, List.lookup_cons, hb']
    · have hb0 : (a == k) = false := by simpa using hak
      rw [if_neg (by rw [hb0]; decide), List.lookup_cons, ih]
      dsimp only
      rw [hb0]
      by_cases hka : k' = a
      · have hb : (k' == a) = true := by simpa using hka
        have hk : ¬ k' = k := by rw [hka]; exact hak
        rw [hb]
        simp [hk, List.lookup_cons, hb]
      · have hb : (k' == a) = false := by simpa using hka
        rw [hb, Bool.false_or]
        simp [List.lookup_cons, hb]

theorem lookup_append_entry (k k' : String) (v : Int) : ∀ m : ScoreMap,
    List.lookup k' (m ++ [(k, v)]) =
      match List.lookup k' m with
      | some x => some x
      | none => if k' = k then some v else none := by
  intro m
  induction m with
  | nil =>
    by_cases hk : k' = k
    · subst hk; simp [List.lookup_cons]
    · have hb : (k' == k) = false := by simpa using hk
      simp [List.lookup_cons, hb, hk]
  | cons e m ih =>
    obtain ⟨a, b⟩ := e
    by_cases hka : k' = a
    · subst hka; simp [List.lookup_cons]
    · have hb : (k' == a) = false := by simpa using hka
      simp only [List.cons_append, List.lookup_cons, hb]
      exact ih

theorem lookup_none_of_not_any (k : String) : ∀ m : ScoreMap,
    ¬ (m.any (fun e => e.1 == k) = true) → List.lookup k m = none := by
  intro m
  induction m with
  | nil => intro _; rfl
  | cons e m ih =>
    obtain ⟨a, b⟩ := e
    intro h
    have hak : ¬ a = k := by intro h'; apply h; simp [h']
    have hm : ¬ (m.any (fun e => e.1 == k) = true) := by
      intro h'; apply h; simp only [List.any_cons, h', Bool.or_true]
    have hb : (k == a) = false := by simpa using fun h' => hak h'.symm
    simp only [List.lookup_cons, hb]
    exact ih hm

theorem mapGet_mapSet_self (m : ScoreMap) (k : String) (v : Int) :
    mapGet (mapSet m k v) k = some v := by
  unfold mapSet mapGet
  split
  · next hany => rw [lookup_map_set, if_pos rfl, if_pos hany]
  · next hany => rw [lookup_append_entry, lookup_none_of_not_any k m hany]; simp

theorem mapGet_mapSet_ne (m : ScoreMap) (k k' : String) (v : Int) (h : k' ≠ k) :
    mapGet (mapSet m k v) k' = mapGet m k' := by
  unfold mapSet mapGet
  split
  · rw [lookup_map_set, if_neg h]
  · rw [lookup_append_entry]
    cases List.lookup k' m with
    | none => simp [h]
    | some x => rfl

theorem mapGetD_mapSet_self (m : ScoreMap) (k : String) (v : Int) :
    mapGetD (mapSet m k v) k = v := by
  unfold mapGetD; rw [mapGet_mapSet_self]; rfl

theorem mapGetD_mapSet_ne (m : ScoreMap) (k k' : String) (v : Int) (h : k' ≠ k) :
    mapGetD (mapSet m k v) k' = mapGetD m k' := by
  unfold mapGetD; rw [mapGet_mapSet_ne m k k' v h]

/-- One step of the loop of `updateMatchScores`. -/
theorem matchScoreStep_spec (T : Int) (rs : ScoreMap) (acc : ScoreMap × Bool) (p : Player)
    (hb : -9223372036854775808 ≤ mapGetD acc.1 p.ID + mapGetD rs p.ID ∧
      mapGetD acc.1 p.ID + mapGetD rs p.ID < 9223372036854775808) :
    (∀ k, mapGetD (matchScoreStep T rs acc p).1 k =
      if k = p.ID then mapGetD acc.1 k + mapGetD rs k else mapGetD acc.1 k) ∧
    (matchScoreStep T rs acc p).2 =
      (acc.2 || decide (T ≤ mapGetD (matchScoreStep T rs acc p).1 p.ID)) := by
  refine ⟨?_, rfl⟩
  intro k
  unfold matchScoreStep
  dsimp only
  by_cases hk : k = p.ID
  · subst hk
    rw [if_pos rfl]
    cases hr : mapGet rs p.ID with
    | none => simp [mapGetD, hr]
    | some v =>
      dsimp only
      rw [mapGetD_mapSet_self]
      have hv : mapGetD rs p.ID = v := by simp [mapGetD, hr]
      rw [hv] at hb ⊢
      exact wrapInt_of_small _ hb.1 hb.2
  · rw [if_neg hk]
    cases hr : mapGet rs p.ID with
    | none => rfl
    | some v => exact mapGetD_mapSet_ne _ _ _ _ hk

/-- The loop of `updateMatchScores` for players of distinct IDs, when no sum leaves the range
of a 64-bit integer: every player's total grows by the round score, other keys keep their
value, and the flag tells whether a total has reached the target. -/
theorem updateMatchScores_foldl (T : Int) (rs : ScoreMap) (ps : List Player) :
    ∀ (acc : ScoreMap × Bool), (ps.map Player.ID).Nodup →
      (∀ p ∈ ps, -9223372036854775808 ≤ mapGetD acc.1 p.ID + mapGetD rs p.ID ∧
        mapGetD acc.1 p.ID + mapGetD rs p.ID < 9223372036854775808) →
      (∀ p ∈ ps, mapGetD (ps.foldl (matchScoreStep T rs) acc).1 p.ID =
        mapGetD acc.1 p.ID + mapGetD rs p.ID) ∧
      (∀ k, k ∉ ps.map Player.ID →
        mapGetD (ps.foldl (matchScoreStep T rs) acc).1 k = mapGetD acc.1 k) ∧
      ((ps.foldl (matchScoreStep T rs) acc).2 = true ↔
        (acc.2 = true ∨ ∃ p ∈ ps, T ≤ mapGetD (ps.foldl (matchScoreStep T rs) acc).1 p.ID)) := by
  induction ps with
  | nil => intro acc _ _; simp
  | cons p rest ih =>
    intro acc hnd hb
    rw [List.map_cons, List.nodup_cons] at hnd
    obtain ⟨hp, hrest⟩ := hnd
    rw [List.foldl_cons]
    obtain ⟨s1, s2⟩ := matchScoreStep_spec T rs acc p (hb p (List.mem_cons_self _ _))
    have hb' : ∀ q ∈ rest,
        -9223372036854775808 ≤ mapGetD (matchScoreStep T rs acc p).1 q.ID + mapGetD rs q.ID ∧
        mapGetD (matchScoreStep T rs acc p).1 q.ID + mapGetD rs q.ID <
          9223372036854775808 := by
      intro q hq
      have hne : q.ID ≠ p.ID := fun h => hp (h ▸ List.mem_map_of_mem Player.ID hq)
      rw [s1, if_neg hne]
      exact hb q (List.mem_cons_of_mem _ hq)
    obtain ⟨h1, h2, h3⟩ := ih (matchScoreStep T rs acc p) hrest hb'
    have hpfinal : mapGetD (rest.foldl (matchScoreStep T rs) (matchScoreStep T rs acc p)).1 p.ID =
        mapGetD acc.1 p.ID + mapGetD rs p.ID := by
      rw [h2 p.ID hp, s1, if_pos rfl]
    refine ⟨?_, ?_, ?_⟩
    · intro q hq
      rcases List.mem_cons.1 hq with rfl | hq
      · exact hpfinal
      · have hne : q.ID ≠ p.ID := fun h => hp (h ▸ List.mem_map_of_mem Player.ID hq)
        rw [h1 q hq, s1, if_neg hne]
    · intro k hk
      rw [List.map_cons, List.mem_cons, not_or] at hk
      rw [h2 k hk.2, s1, if_neg hk.1]
    · rw [h3, s2]
      have e : mapGetD (matchScoreStep T rs acc p).1 p.ID =
          mapGetD (rest.foldl (matchScoreStep T rs) (matchScoreStep T rs acc p)).1 p.ID := by
        rw [h2 p.ID hp]
      rw [e]
      simp only [Bool.or_eq_true, decide_eq_true_eq, List.mem_cons, exists_eq_or_imp]
      tauto

theorem updateMatchScores_spec (T : Int) (rs : ScoreMap) (ps : List Player) (sc0 : ScoreMap)
    (hnd : (ps.map Player.ID).Nodup)
    (hb : ∀ p ∈ ps, -9223372036854775808 ≤ mapGetD sc0 p.ID + mapGetD rs p.ID ∧
      mapGetD sc0 p.ID + mapGetD rs p.ID < 9223372036854775808) :
    (∀ p ∈ ps, mapGetD (updateMatchScores T rs ps sc0).1 p.ID =
      mapGetD sc0 p.ID + mapGetD rs p.ID) ∧
    ((updateMatchScores T rs ps sc0).2 = true ↔
      ∃ p ∈ ps, T ≤ mapGetD (updateMatchScores T rs ps sc0).1 p.ID) := by
  obtain ⟨h1, _, h3⟩ := updateMatchScores_foldl T rs ps (sc0, false) hnd hb
  refine ⟨h1, ?_⟩
  unfold updateMatchScores
  rw [h3]
  simp

/-- The loop of `findOverallWinner`, started with a candidate `w0`: the result is the first
player of minimal total among `w0` and the players that follow. -/
theorem findOverallWinner_foldl (sc : ScoreMap) (ps : List Player) :
    ∀ w0 : Player, ∃ w,
      (ps.foldl (overallWinnerStep sc) (mapGetD sc w0.ID, some w0)).2 = some w ∧
      ((w = w0 ∧ ∀ r ∈ ps, mapGetD sc w0.ID ≤ mapGetD sc r.ID) ∨
       (mapGetD sc w.ID < mapGetD sc w0.ID ∧ ∃ pre post, ps = pre ++ w :: post ∧
          (∀ r ∈ pre, mapGetD sc w.ID < mapGetD sc r.ID) ∧
          (∀ r ∈ post, mapGetD sc w.ID ≤ mapGetD sc r.ID))) := by
  induction ps with
  | nil => intro w0; exact ⟨w0, rfl, Or.inl ⟨rfl, by simp⟩⟩
  | cons p rest ih =>
    intro w0
    rw [List.foldl_cons]
    by_cases hlt : mapGetD sc p.ID < mapGetD sc w0.ID
    · have hstep : overallWinnerStep sc (mapGetD sc w0.ID, some w0) p =
          (mapGetD sc p.ID, some p) := by simp [overallWinnerStep, hlt]
      rw [hstep]
      obtain ⟨w, hw, hcase⟩ := ih p
      refine ⟨w, hw, Or.inr ?_⟩
      rcases hcase with ⟨rfl, hall⟩ | ⟨hlt', pre, post, hps, hpre, hpost⟩
      · exact ⟨hlt, [], rest, rfl, by simp, hall⟩
      · refine ⟨by omega, p :: pre, post, by rw [hps]; rfl, ?_, hpost⟩
        intro r hr
        rcases List.mem_cons.1 hr with rfl | hr
        · exact hlt'
        · exact hpre r hr
    · have hstep : overallWinnerStep sc (mapGetD sc w0.ID, some w0) p =
          (mapGetD sc w0.ID, some w0) := by simp [overallWinnerStep, hlt]
      rw [hstep]
      obtain ⟨w, hw, hcase⟩ := ih w0
      refine ⟨w, hw, ?_⟩
      rcases hcase with ⟨rfl, hall⟩ | ⟨hlt', pre, post, hps, hpre, hpost⟩
      · left
        refine ⟨rfl, ?_⟩
        intro r hr
        rcases List.mem_cons.1 hr with rfl | hr
        · omega
        · exact hall r hr
      · right
        refine ⟨hlt', p :: pre, post, by rw [hps]; rfl, ?_, hpost⟩
        intro r hr
        rcases List.mem_cons.1 hr with rfl | hr
        · omega
        · exact hpre r hr

/-- The overall winner, for a non-empty list of players: the first player of minimal
total. -/
theorem findOverallWinner_spec (sc : ScoreMap) (ps : List Player) (hne : ps ≠ []) :
    ∃ w pre post, (findOverallWinner sc ps).2 = some w ∧ ps = pre ++ w :: post ∧
      (∀ r ∈ pre, mapGetD sc w.ID < mapGetD sc r.ID) ∧
      (∀ r ∈ post, mapGetD sc w.ID ≤ mapGetD sc r.ID) := by
  cases ps with
  | nil => exact absurd rfl hne
  | cons p rest =>
    unfold findOverallWinner
    rw [List.foldl_cons]
    have hstep : overallWinnerStep sc (-1, none) p = (mapGetD sc p.ID, some p) := by
      simp [overallWinnerStep]
    rw [hstep]
    obtain ⟨w, hw, hcase⟩ := findOverallWinner_foldl sc rest p
    rcases hcase with ⟨rfl, hall⟩ | ⟨hlt, pre, post, hps, hpre, hpost⟩
    · exact ⟨w, [], rest, hw, rfl, by simp, hall⟩
    · refine ⟨w, p :: pre, post, hw, by rw [hps]; rfl, ?_, hpost⟩
      intro r hr
      rcases List.mem_cons.1 hr with rfl | hr
      · exact hlt
      · exact hpre r hr

theorem calculateScores_congr (g g' : GameState) (hp : g'.Players = g.Players)
    (hw : g'.WinnerID = g.WinnerID) : CalculateScores g' = CalculateScores g := by
  unfold CalculateScores
  rw [hp, hw]

/-- The match fields after `endRound`. -/
theorem endRound_match (g : GameState) (p : Player) :
    (endRound g p).Scores =
      (updateMatchScores g.TargetScore
        (CalculateScores { g with IsGameOver := true, WinnerID := p.ID }) g.Players g.Scores).1 ∧
    ((updateMatchScores g.TargetScore
        (CalculateScores { g with IsGameOver := true, WinnerID := p.ID }) g.Players g.Scores).2
        = false →
      (endRound g p).IsMatchOver = g.IsMatchOver ∧
      (endRound g p).OverallWinnerID = g.OverallWinnerID) ∧
    ((updateMatchScores g.TargetScore
        (CalculateScores { g with IsGameOver := true, WinnerID := p.ID }) g.Players g.Scores).2
        = true →
      (endRound g p).IsMatchOver = true ∧
      ∀ w, (findOverallWinner (endRound g p).Scores g.Players).2 = some w →
        (endRound g p).OverallWinnerID = w.ID) := by
  unfold endRound
  dsimp only
  refine ⟨?_, ?_, ?_⟩
  · split
    · split <;> rfl
    · rfl
  · intro hb
    rw [if_neg (by rw [hb]; decide)]
    exact ⟨rfl, rfl⟩
  · intro hb
    rw [if_pos hb]
    split
    · next w' hw' =>
      refine ⟨rfl, ?_⟩
      intro w hw
      dsimp only at hw
      rw [hw'] at hw
      cases hw
      rfl
    · next hw' =>
      refine ⟨rfl, ?_⟩
      intro w hw
      dsimp only at hw
      rw [hw'] at hw
      cases hw

/-- An accepted play: every check of `processPlayCardsAction` has passed. -/
theorem play_accepted (game : GameState) (actor : Nat) (msg : Option Deck)
    (hacc : (processPlayCardsAction game actor msg).2.2 = true) :
    ∃ p data hand, game.Players[actor]? = some p ∧ game.IsGameOver = false ∧
      (actor : Int) = game.CurrentTurnPlayerIndex ∧ msg = some data ∧
      data.Subperm p.Hand ∧ DeterminePlayedHand (Deck.Sort data) = .ok hand ∧
      BeatsLastHand hand game.LastPlayedHand = true ∧
      ((p.RemoveCards (Deck.Sort data)).1.Hand ++ data).Perm p.Hand ∧
      (p.RemoveCards (Deck.Sort data)).1.ID = p.ID ∧
      (processPlayCardsAction game actor msg).1 =
        acceptPlay game actor (p.RemoveCards (Deck.Sort data)).1 (stampHand hand p) := by
  rcases play_cases game actor msg with h | ⟨p, data, hand, hp, hgo, hturn, hmsg, hcan, hd, hb, _, hres⟩
  · rw [h] at hacc; cases hacc
  · have hsub := (canPlayCards_iff _ _).1 hcan
    obtain ⟨_, hperm, hid, _⟩ := removeCards_of_subperm p (Deck.Sort data) hsub
    refine ⟨p, data, hand, hp, hgo, hturn, hmsg, (subperm_sort_iff _ _).1 hsub, hd, hb, ?_, hid, ?_⟩
    · exact ((sort_perm data).symm.append_left _).trans hperm
    · rw [hres]

theorem getElem?_set_self_of_some {ps : List Player} {i : Nat} {p : Player} (q : Player)
    (hp : ps[i]? = some p) : (ps.set i q)[i]? = some q := by
  have hlt : i < ps.length := (List.getElem?_eq_some_iff.1 hp).1
  rw [List.getElem?_set]
  simp [hlt]

theorem map_ID_set {ps : List Player} {i : Nat} {p : Player} (q : Player)
    (hp : ps[i]? = some p) (hid : q.ID = p.ID) :
    (ps.set i q).map Player.ID = ps.map Player.ID := by
  apply List.ext_getElem?
  intro j
  rw [List.getElem?_map, List.getElem?_map, List.getElem?_set]
  by_cases hij : i = j
  · subst hij
    have hlt : i < ps.length := (List.getElem?_eq_some_iff.1 hp).1
    simp [hlt, hp, hid]
  · simp [hij]

/-- The winner of a round scores 0 in the map of `CalculateScores`. -/
theorem calculateScores_winner (g : GameState) (hw : g.WinnerID ≠ "")
    (hid : (g.Players.map Player.ID).Nodup) (p : Player) (hp : p ∈ g.Players)
    (hwin : p.ID = g.WinnerID) : mapGet (CalculateScores g) p.ID = some 0 := by
  rw [calculateScores_eq_map g hw hid, mapGet_map_of_nodup _ _ hid p hp]
  simp [playerScore, hwin]

/-- An accepted play after which the actor holds no card ends the round. -/
theorem play_emptied (game : GameState) (actor : Nat) (msg : Option Deck) (q : Player)
    (hacc : (processPlayCardsAction game actor msg).2.2 = true)
    (hq : (processPlayCardsAction game actor msg).1.Players[actor]? = some q)
    (hempty : q.Hand = []) :
    ∃ p gm, game.Players[actor]? = some p ∧ q.ID = p.ID ∧
      (processPlayCardsAction game actor msg).1 = endRound gm q ∧
      gm.Players = game.Players.set actor q ∧
      gm.CurrentTurnPlayerIndex = game.CurrentTurnPlayerIndex ∧
      gm.Scores = game.Scores ∧ gm.TargetScore = game.TargetScore ∧
      gm.IsMatchOver = game.IsMatchOver ∧ gm.OverallWinnerID = game.OverallWinnerID ∧
      gm.RoundScoresHistory = game.RoundScoresHistory := by
  obtain ⟨p, data, hand, hp, hgo, hturn, hmsg, hsub, hd, hb, hperm, hid, hres⟩ :=
    play_accepted game actor msg hacc
  rw [hres] at hq ⊢
  rw [acceptPlay_eq] at hq ⊢
  have hlt : actor < game.Players.length := (List.getElem?_eq_some_iff.1 hp).1
  have hset : (game.Players.set actor
      { (p.RemoveCards (Deck.Sort data)).1 with HasPassed := false })[actor]? =
      some { (p.RemoveCards (Deck.Sort data)).1 with HasPassed := false } :=
    getElem?_set_self_of_some _ hp
  by_cases hz : (p.RemoveCards (Deck.Sort data)).1.Hand.length = 0
  · rw [if_pos hz] at hq ⊢
    rw [(endRound_fields _ _).1] at hq
    dsimp only at hq
    rw [hset] at hq
    cases hq
    exact ⟨p, _, hp, hid, rfl, rfl, rfl, rfl, rfl, rfl, rfl, rfl⟩
  · exfalso
    rw [if_neg hz] at hq
    have P := advanceTurn_players { game with
      Players := game.Players.set actor
        { (p.RemoveCards (Deck.Sort data)).1 with HasPassed := false },
      LastPlayedHand := some (stampHand hand p), PassCount := 0 }
    rw [P] at hq
    dsimp only at hq
    have hqh : q.Hand = (p.RemoveCards (Deck.Sort data)).1.Hand := by
      split at hq
      · rw [updatePlayer_getElem?, hset] at hq
        split at hq <;> · cases hq; rfl
      · rw [hset] at hq
        cases hq; rfl
    rw [hempty] at hqh
    exact hz (by rw [← hqh]; rfl)

/-- A pass by the player at the turn index is accepted while the round is on and a hand
stands. -/
theorem pass_accepted (g : GameState) (actor : Nat) (hactor : actor < g.Players.length)
    (hturn : (actor : Int) = g.CurrentTurnPlayerIndex) (hgo : g.IsGameOver = false)
    (hl : g.LastPlayedHand ≠ none) :
    processPassTurnAction g actor = (acceptPass g actor (g.Players[actor]), false, true) := by
  unfold processPassTurnAction
  rw [List.getElem?_eq_getElem hactor]
  simp [hgo, hturn, hl]

theorem updatePlayer_flags (ps : List Player) (i : Nat)
    (h : ∀ x ∈ ps, x.HasPassed = false) :
    ∀ r ∈ updatePlayer ps i (fun p => { p with HasPassed := false }), r.HasPassed = false := by
  intro r hr
  unfold updatePlayer at hr
  split at hr
  · rcases List.mem_or_eq_of_mem_set hr with h1 | h1
    · exact h r h1
    · rw [h1]
  · exact h r hr

/-- The pass that completes the round of passes clears every pass flag. -/
theorem acceptPass_flags (g : GameState) (actor : Nat) (p : Player)
    (h : g.PassCount + 1 ≥ (g.Players.length : Int) - 1) :
    ∀ r ∈ (acceptPass g actor p).Players, r.HasPassed = false := by
  intro r hr
  unfold acceptPass at hr
  simp only [List.length_set] at hr
  rw [if_pos h] at hr
  dsimp only at hr
  refine updatePlayer_flags _ _ ?_ r hr
  intro x hx
  obtain ⟨y, _, rfl⟩ := List.mem_map.1 hx
  rfl

/-- The state after `k` passes, while fewer than all other players have passed. -/
theorem passes_before_reset (g : GameState) (h : PlayedHand)
    (h0 : 0 ≤ g.CurrentTurnPlayerIndex)
    (h1 : g.CurrentTurnPlayerIndex < (g.Players.length : Int))
    (hgo : g.IsGameOver = false) (hl : g.LastPlayedHand = some h) (hpc : g.PassCount = 0) :
    ∀ k : Nat, (k : Int) + 1 < (g.Players.length : Int) →
      (passes k g).Players.length = g.Players.length ∧
      (passes k g).IsGameOver = false ∧
      (passes k g).LastPlayedHand = some h ∧
      (passes k g).PassCount = (k : Int) ∧
      (passes k g).CurrentTurnPlayerIndex =
        (g.CurrentTurnPlayerIndex + (k : Int)) % (g.Players.length : Int) := by
  intro k
  induction k with
  | zero =>
    intro _
    refine ⟨rfl, hgo, hl, hpc, ?_⟩
    show g.CurrentTurnPlayerIndex = _
    rw [Int.Nat.cast_ofNat_Int, Int.add_zero, Int.emod_eq_of_lt h0 h1]
  | succ k ih =>
    intro hk
    obtain ⟨e1, e2, e3, e4, e5⟩ := ih (by omega)
    have hpos : (0 : Int) < (g.Players.length : Int) := by omega
    have i0 : 0 ≤ (passes k g).CurrentTurnPlayerIndex := by
      rw [e5]; exact Int.emod_nonneg _ (by omega)
    have i1 : (passes k g).CurrentTurnPlayerIndex < (g.Players.length : Int) := by
      rw [e5]; exact Int.emod_lt_of_pos _ hpos
    have hact : (passes k g).CurrentTurnPlayerIndex.toNat < (passes k g).Players.length := by
      rw [e1]; omega
    have hacc := pass_accepted (passes k g) _ hact (Int.toNat_of_nonneg i0) e2
      (by rw [e3]; exact fun hc => by cases hc)
    obtain ⟨f1, f2, f3, f4, f5, _⟩ := acceptPass_fields (passes k g)
      (passes k g).CurrentTurnPlayerIndex.toNat
      ((passes k g).Players[(passes k g).CurrentTurnPlayerIndex.toNat])
    have hlt : ¬ ((passes k g).PassCount + 1 ≥ ((passes k g).Players.length : Int) - 1) := by
      rw [e1, e4]; push_cast at hk; omega
    rw [if_neg hlt] at f3 f4
    show (passOnTurn (passes k g)).Players.length = _ ∧ (passOnTurn (passes k g)).IsGameOver = _ ∧
      (passOnTurn (passes k g)).LastPlayedHand = _ ∧ (passOnTurn (passes k g)).PassCount = _ ∧
      (passOnTurn (passes k g)).CurrentTurnPlayerIndex = _
    unfold passOnTurn
    rw [hacc]
    dsimp only
    refine ⟨f1.trans e1, f5.trans e2, f3.trans e3, ?_, ?_⟩
    · rw [f4, e4]; push_cast; rfl
    · rw [f2, e1, Int.tmod_eq_emod (by omega) (by omega), e5, Int.emod_add_emod]
      push_cast
      rw [Int.add_assoc]

/-- Every pass before the reset is accepted. -/
theorem passes_accepted (g : GameState) (h : PlayedHand)
    (h0 : 0 ≤ g.CurrentTurnPlayerIndex)
    (h1 : g.CurrentTurnPlayerIndex < (g.Players.length : Int))
    (hgo : g.IsGameOver = false) (hl : g.LastPlayedHand = some h) (hpc : g.PassCount = 0)
    (k : Nat) (hk : (k : Int) + 1 < (g.Players.length : Int)) :
    processPassTurnAction (passes k g) (passes k g).CurrentTurnPlayerIndex.toNat =
      (acceptPass (passes k g) (passes k g).CurrentTurnPlayerIndex.toNat
        ((passes k g).Players.getD (passes k g).CurrentTurnPlayerIndex.toNat
          (NewPlayer 0 "")), false, true) := by
  obtain ⟨e1, e2, e3, e4, e5⟩ := passes_before_reset g h h0 h1 hgo hl hpc k hk
  have hpos : (0 : Int) < (g.Players.length : Int) := by omega
  have i0 : 0 ≤ (passes k g).CurrentTurnPlayerIndex := by
    rw [e5]; exact Int.emod_nonneg _ (by omega)
  have i1 : (passes k g).CurrentTurnPlayerIndex < (g.Players.length : Int) := by
    rw [e5]; exact Int.emod_lt_of_pos _ hpos
  have hact : (passes k g).CurrentTurnPlayerIndex.toNat < (passes k g).Players.length := by
    rw [e1]; omega
  rw [pass_accepted (passes k g) _ hact (Int.toNat_of_nonneg i0) e2
    (by rw [e3]; exact fun hc => by cases hc)]
  rw [List.getD_eq_getElem _ _ hact]

/-- The pass of the last of the other players resets the trick. -/
theorem passes_reset (g : GameState) (h : PlayedHand) (hn : 2 ≤ g.Players.length)
    (h0 : 0 ≤ g.CurrentTurnPlayerIndex)
    (h1 : g.CurrentTurnPlayerIndex < (g.Players.length : Int))
    (hgo : g.IsGameOver = false) (hl : g.LastPlayedHand = some h) (hpc : g.PassCount = 0) :
    (passes (g.Players.length - 1) g).LastPlayedHand = none ∧
    (passes (g.Players.length - 1) g).PassCount = 0 ∧
    (∀ r ∈ (passes (g.Players.length - 1) g).Players, r.HasPassed = false) ∧
    (passes (g.Players.length - 1) g).CurrentTurnPlayerIndex =
      (g.CurrentTurnPlayerIndex + ((g.Players.length : Int) - 1)) % (g.Players.length : Int) := by
  obtain ⟨m, hm⟩ : ∃ m, g.Players.length = m + 2 := ⟨g.Players.length - 2, by omega⟩
  have hk : (m : Int) + 1 < (g.Players.length : Int) := by rw [hm]; push_cast; omega
  obtain ⟨e1, e2, e3, e4, e5⟩ := passes_before_reset g h h0 h1 hgo hl hpc m hk
  have hacc := passes_accepted g h h0 h1 hgo hl hpc m hk
  have hsub : g.Players.length - 1 = m + 1 := by omega
  rw [hsub]
  show (passOnTurn (passes m g)).LastPlayedHand = _ ∧ (passOnTurn (passes m g)).PassCount = _ ∧
    (∀ r ∈ (passOnTurn (passes m g)).Players, r.HasPassed = false) ∧
    (passOnTurn (passes m g)).CurrentTurnPlayerIndex = _
  unfold passOnTurn
  rw [hacc]
  dsimp only
  have hge : (passes m g).PassCount + 1 ≥ ((passes m g).Players.length : Int) - 1 := by
    rw [e1, e4, hm]; push_cast; omega
  obtain ⟨f1, f2, f3, f4, _, _⟩ := acceptPass_fields (passes m g)
    (passes m g).CurrentTurnPlayerIndex.toNat
    ((passes m g).Players.getD (passes m g).CurrentTurnPlayerIndex.toNat (NewPlayer 0 ""))
  rw [if_pos hge] at f3 f4
  refine ⟨f3, f4, acceptPass_flags _ _ _ hge, ?_⟩
  have hpos : (0 : Int) < (g.Players.length : Int) := by omega
  have i0 : 0 ≤ (passes m g).CurrentTurnPlayerIndex := by
    rw [e5]; exact Int.emod_nonneg _ (by omega)
  rw [f2, e1, Int.tmod_eq_emod (by omega) (by omega), e5, Int.emod_add_emod]
  congr 1
  rw [hm]; push_cast; omega

/-- An accepted play that does not end the round: the played hand stands, the pass counter
is 0 and the turn has moved to the next player. -/
theorem play_advanced (game : GameState) (actor : Nat) (msg : Option Deck)
    (hacc : (processPlayCardsAction game actor msg).2.2 = true)
    (hno : (processPlayCardsAction game actor msg).1.IsGameOver = false) :
    actor < game.Players.length ∧
    (∃ h, (processPlayCardsAction game actor msg).1.LastPlayedHand = some h) ∧
    (processPlayCardsAction game actor msg).1.PassCount = 0 ∧
    (processPlayCardsAction game actor msg).1.Players.length = game.Players.length ∧
    (processPlayCardsAction game actor msg).1.CurrentTurnPlayerIndex =
      ((actor : Int) + 1) % (game.Players.length : Int) := by
  obtain ⟨p, data, hand, hp, hgo, hturn, hmsg, hsub, hd, hb, hperm, hid, hres⟩ :=
    play_accepted game actor msg hacc
  have hlt : actor < game.Players.length := (List.getElem?_eq_some_iff.1 hp).1
  rw [hres] at hno ⊢
  rw [acceptPlay_eq] at hno ⊢
  by_cases hz : (p.RemoveCards (Deck.Sort data)).1.Hand.length = 0
  · rw [if_pos hz, (endRound_fields _ _).2.2.2.2.1] at hno
    cases hno
  · rw [if_neg hz]
    have F := advanceTurn_fields { game with
      Players := game.Players.set actor
        { (p.RemoveCards (Deck.Sort data)).1 with HasPassed := false },
      LastPlayedHand := some (stampHand hand p), PassCount := 0 }
    dsimp only at F
    rw [List.length_set] at F
    obtain ⟨f1, f2, f3, f4, _⟩ := F
    refine ⟨hlt, ⟨_, f3⟩, f4, f1, ?_⟩
    rw [f2, ← hturn, Int.tmod_eq_emod (by omega) (by omega)]

theorem newDeck_length : NewDeck.length = 52 := by decide

theorem exists_four_of_length (ps : List Player) (h : ps.length = 4) :
    ∃ p0 p1 p2 p3, ps = [p0, p1, p2, p3] := by
  match ps, h with
  | [p0, p1, p2, p3], _ => exact ⟨p0, p1, p2, p3, rfl⟩

/-! ## Auxiliary lemmas: the deck, the hands and the cards in play -/

theorem newDeck_nodup : NewDeck.Nodup := by decide

theorem newDeck_mem_iff (c : Card) : c ∈ NewDeck ↔ c.valid := by
  constructor
  · revert c
    decide
  · intro h
    obtain ⟨r, s⟩ := c
    obtain ⟨⟨h1, h2⟩, h3, h4⟩ := h
    dsimp only [Rank, Suit, Rank3, Two, Diamonds, Spades] at *
    interval_cases r <;> interval_cases s <;> decide

/-- The cards `removeLoop` removes are cards of the hand and cards asked for. -/
theorem removeLoop_taken : ∀ (hand rem : Deck) (m : Card → Int),
    (∀ x, m x = (rem.count x : Int)) →
    ∃ taken : Deck, taken.length = (removeLoop m hand).2 ∧ taken.Subperm rem ∧
      taken.Subperm hand := by
  intro hand
  induction hand with
  | nil => intro rem m _; exact ⟨[], rfl, List.nil_subperm, List.nil_subperm⟩
  | cons c rest ih =>
    intro rem m hm
    unfold removeLoop
    by_cases hc : c ∈ rem
    · have hpos : m c > 0 := by
        have := List.count_pos_iff.2 hc
        rw [hm]; omega
      rw [if_pos hpos]
      obtain ⟨taken, h1, h2, h3⟩ := ih (rem.erase c) _ (counts_erase m rem c hc hm)
      refine ⟨c :: taken, by simp [h1], ?_, (List.subperm_cons c).2 h3⟩
      exact ((List.subperm_cons c).2 h2).trans (List.perm_cons_erase hc).symm.subperm
    · have hnpos : ¬ m c > 0 := by
        rw [hm, List.count_eq_zero_of_not_mem hc]; simp
      rw [if_neg hnpos]
      obtain ⟨taken, h1, h2, h3⟩ := ih rem m hm
      exact ⟨taken, h1, h2, h3.trans (List.sublist_cons_self c rest).subperm⟩

/-- `RemoveCards` returns true only when the cards are a sub-multiset of the hand. -/
theorem subperm_of_removeCards (p : Player) (cards : Deck)
    (h : (p.RemoveCards cards).2 = true) : cards.Subperm p.Hand := by
  unfold Player.RemoveCards at h
  by_cases hl : cards.length = 0
  · rw [List.length_eq_zero.1 hl]; exact List.nil_subperm
  · rw [if_neg hl] at h
    dsimp only at h
    split at h
    · next hc =>
      obtain ⟨taken, h1, h2, h3⟩ := removeLoop_taken p.Hand cards _ (cardCounts_eq cards)
      have hperm : taken.Perm cards := h2.perm_of_length_le (by rw [h1, hc.1])
      exact hperm.symm.subperm.trans h3
    · cases h

/-- A failed `RemoveCards` leaves the player as it was. -/
theorem removeCards_false (p : Player) (cards : Deck)
    (h : (p.RemoveCards cards).2 = false) : (p.RemoveCards cards).1 = p := by
  unfold Player.RemoveCards at h ⊢
  by_cases hl : cards.length = 0
  · rw [if_pos hl]
  · rw [if_neg hl] at h ⊢
    dsimp only at h ⊢
    split
    · next hc => rw [if_pos hc] at h; cases h
    · rfl

/-- `RemoveCards` keeps a sorted hand sorted. -/
theorem removeCards_sorted (p : Player) (cards : Deck) (hs : p.Hand.IsSorted) :
    (p.RemoveCards cards).1.Hand.IsSorted := by
  unfold Player.RemoveCards
  by_cases hl : cards.length = 0
  · rw [if_pos hl]; exact hs
  · rw [if_neg hl]
    dsimp only
    split
    · exact sort_isSorted _
    · exact hs

theorem any3D_iff (p : Player) :
    p.Hand.any (fun card => decide (card.Rank = Rank3 ∧ card.Suit = Diamonds)) = true ↔
      holds3D p := by
  unfold holds3D
  rw [List.any_eq_true]
  constructor
  · rintro ⟨⟨r, s⟩, hx, h⟩
    simp only [decide_eq_true_eq] at h
    have e : (⟨r, s⟩ : Card) = ⟨Rank3, Diamonds⟩ := by
      rw [Card.mk.injEq]; exact h
    rw [← e]
    exact hx
  · intro h
    exact ⟨_, h, by simp⟩

theorem contains3D_iff (p : Player) :
    p.Hand.contains { Rank := Rank3, Suit := Diamonds } = true ↔ holds3D p := by
  unfold holds3D
  simp

/-- The loop of `FindPlayerWith3D` and the search of `resetRoundState` find the same player. -/
theorem findPlayerWith3DLoop_eq : ∀ (ps : List Player) (k : Nat),
    findPlayerWith3DLoop k ps = (match firstWith3D ps with
      | some i => k + i
      | none => 0) := by
  intro ps
  induction ps with
  | nil => intro k; rfl
  | cons p rest ih =>
    intro k
    unfold findPlayerWith3DLoop firstWith3D
    by_cases h : holds3D p
    · rw [if_pos ((any3D_iff p).2 h), if_pos ((contains3D_iff p).2 h)]
      rfl
    · rw [if_neg (fun hc => h ((any3D_iff p).1 hc)),
        if_neg (fun hc => h ((contains3D_iff p).1 hc)), ih]
      cases firstWith3D rest with
      | none => rfl
      | some i =>
        show k + 1 + i = k + (i + 1)
        omega

theorem findPlayerWith3D_eq (ps : List Player) :
    FindPlayerWith3D ps = (firstWith3D ps).getD 0 := by
  unfold FindPlayerWith3D
  rw [findPlayerWith3DLoop_eq]
  cases firstWith3D ps with
  | none => rfl
  | some i => simp

theorem findPlayerWith3DLoop_first : ∀ (ps : List Player) (k i : Nat) (p : Player),
    ps[i]? = some p → holds3D p →
    (∀ j q, j < i → ps[j]? = some q → ¬ holds3D q) → findPlayerWith3DLoop k ps = k + i := by
  intro ps
  induction ps with
  | nil => intro k i p hp; simp at hp
  | cons a rest ih =>
    intro k i p hp h3 hbefore
    unfold findPlayerWith3DLoop
    cases i with
    | zero =>
      simp only [List.getElem?_cons_zero, Option.some.injEq] at hp
      subst hp
      rw [if_pos ((any3D_iff a).2 h3)]
      rfl
    | succ i =>
      have ha : ¬ holds3D a := hbefore 0 a (by omega) (by simp)
      rw [if_neg (fun hc => ha ((any3D_iff a).1 hc))]
      rw [List.getElem?_cons_succ] at hp
      rw [ih (k + 1) i p hp h3 (fun j q hj hq => hbefore (j + 1) q (by omega)
        (by rw [List.getElem?_cons_succ]; exact hq))]
      omega

theorem findPlayerWith3DLoop_none : ∀ (ps : List Player) (k : Nat),
    (∀ p ∈ ps, ¬ holds3D p) → findPlayerWith3DLoop k ps = 0 := by
  intro ps
  induction ps with
  | nil => intro k _; rfl
  | cons a rest ih =>
    intro k h
    unfold findPlayerWith3DLoop
    rw [if_neg (fun hc => h a (List.mem_cons_self _ _) ((any3D_iff a).1 hc))]
    exact ih (k + 1) (fun p hp => h p (List.mem_cons_of_mem _ hp))

/-- The turn index after `resetRoundState`. -/
theorem resetRoundState_turn (game : GameState) (deck : Deck) (hne : game.Players ≠ []) :
    (resetRoundState game deck).CurrentTurnPlayerIndex =
      (FindPlayerWith3D (resetRoundState game deck).Players : Int) := by
  have he : game.Players.isEmpty = false := by
    cases hp : game.Players with
    | nil => exact absurd hp hne
    | cons a l => rfl
  unfold resetRoundState
  simp only [he, Bool.false_eq_true, if_false]
  generalize dealRound (if game.Players.length = 4 then 13
    else deck.length / game.Players.length) deck game.Players = ps
  rw [findPlayerWith3D_eq]
  congr 1
  by_cases h1 : ps.length = 1
  · rw [if_pos h1]
    cases hf : firstWith3D ps with
    | none => rfl
    | some i =>
      have hlt := firstWith3D_lt _ _ hf
      rw [h1] at hlt
      have hi : i = 0 := by omega
      subst hi
      rfl
  · rw [if_neg h1]

/-- The comparison `BeatsLastHand` against a standing hand, as a formula in the category,
the number of cards, the effective rank and the effective suit of the two hands. -/
theorem beatsLastHand_iff (c t : PlayedHand) :
    BeatsLastHand c (some t) = true ↔
      (((c.HandType = FourOfAKindPlusOne ∨ c.HandType = StraightFlush) ∧
        (¬ (t.HandType = FourOfAKindPlusOne ∨ t.HandType = StraightFlush) ∨
          (c.HandType = StraightFlush ∧ t.HandType = FourOfAKindPlusOne) ∨
          (c.HandType = t.HandType ∧ (t.EffectiveRank < c.EffectiveRank ∨
            (c.EffectiveRank = t.EffectiveRank ∧ c.HandType = StraightFlush ∧
              t.EffectiveSuit < c.EffectiveSuit))))) ∨
       (¬ (c.HandType = FourOfAKindPlusOne ∨ c.HandType = StraightFlush) ∧
        ¬ (t.HandType = FourOfAKindPlusOne ∨ t.HandType = StraightFlush) ∧
        c.Cards.length = t.Cards.length ∧
        ((c.HandType ≠ t.HandType ∧ c.Cards.length = 5 ∧ t.HandType < c.HandType) ∨
          (c.HandType = t.HandType ∧ (t.EffectiveRank < c.EffectiveRank ∨
            (c.EffectiveRank = t.EffectiveRank ∧
              (c.HandType = Single ∨ c.HandType = Pair ∨ c.HandType = Straight ∨
                c.HandType = Flush) ∧
              t.EffectiveSuit < c.EffectiveSuit)))))) := by
  by_cases hc : c.HandType = FourOfAKindPlusOne ∨ c.HandType = StraightFlush
  · by_cases ht : t.HandType = FourOfAKindPlusOne ∨ t.HandType = StraightFlush
    · simp only [BeatsLastHand, hc, ht, decide_True, Bool.not_true, Bool.false_eq_true,
        if_true, if_false, not_true_eq_false, false_or, true_and, false_and, or_false]
      dsimp only [HandType, Rank, Suit, InvalidHand, Single, Pair, Triple, Straight, Flush,
        FullHouse, FourOfAKindPlusOne, StraightFlush] at *
      split_ifs <;> simp only [decide_eq_true_eq, Bool.false_eq_true, false_iff, true_iff] <;>
        omega
    · simp [BeatsLastHand, hc, ht]
  · by_cases ht : t.HandType = FourOfAKindPlusOne ∨ t.HandType = StraightFlush
    · simp [BeatsLastHand, hc, ht]
    · simp only [BeatsLastHand, hc, ht, decide_False, Bool.false_eq_true, if_false,
        not_false_eq_true, true_and, false_and, false_or, ne_eq]
      dsimp only [HandType, Rank, Suit, InvalidHand, Single, Pair, Triple, Straight, Flush,
        FullHouse, FourOfAKindPlusOne, StraightFlush] at *
      split_ifs <;> simp only [decide_eq_true_eq, Bool.false_eq_true, false_iff, true_iff] <;>
        omega

/-- No hand beats a hand that beats it. -/
theorem beatsLastHand_asymm (a b : PlayedHand) (h : BeatsLastHand a (some b) = true) :
    BeatsLastHand b (some a) = false := by
  rw [← Bool.not_eq_true]
  rw [beatsLastHand_iff] at h ⊢
  dsimp only [HandType, Rank, Suit, InvalidHand, Single, Pair, Triple, Straight, Flush,
    FullHouse, FourOfAKindPlusOne, StraightFlush] at *
  omega

/-- The comparison `BeatsLastHand` is transitive. -/
theorem beatsLastHand_trans (a b c : PlayedHand) (hab : BeatsLastHand a (some b) = true)
    (hbc : BeatsLastHand b (some c) = true) : BeatsLastHand a (some c) = true := by
  rw [beatsLastHand_iff] at hab hbc ⊢
  dsimp only [HandType, Rank, Suit, InvalidHand, Single, Pair, Triple, Straight, Flush,
    FullHouse, FourOfAKindPlusOne, StraightFlush] at *
  rcases hab with ⟨ha, hab⟩ | ⟨ha, hb, hl, hab⟩
  · left
    refine ⟨ha, ?_⟩
    rcases hbc with ⟨hb, hbc⟩ | ⟨hb, hc, _, _⟩
    · rcases hab with hab | hab | hab
      · exact absurd hb hab
      · rcases hbc with hbc | hbc | hbc <;> omega
      · rcases hbc with hbc | hbc | hbc <;> omega
    · left; exact hc
  · right
    rcases hbc with ⟨hb', _⟩ | ⟨_, hc, hl', hbc⟩
    · exact absurd hb' hb
    · refine ⟨ha, hc, hl.trans hl', ?_⟩
      rcases hab with hab | hab <;> rcases hbc with hbc | hbc <;> omega

/-! ### The hands of the players under the handlers -/

theorem flatten_set_perm : ∀ (hs : List Deck) (i : Nat) (h h' d : Deck),
    hs[i]? = some h → (h' ++ d).Perm h → ((hs.set i h').flatten ++ d).Perm hs.flatten := by
  intro hs
  induction hs with
  | nil => intro i h h' d hi; simp at hi
  | cons a rest ih =>
    intro i h h' d hi hp
    cases i with
    | zero =>
      simp only [List.getElem?_cons_zero, Option.some.injEq] at hi
      subst hi
      simp only [List.set_cons_zero, List.flatten_cons]
      have h1 : (h' ++ rest.flatten ++ d).Perm (h' ++ d ++ rest.flatten) := by
        rw [List.append_assoc, List.append_assoc]
        exact List.Perm.append_left _ List.perm_append_comm
      exact h1.trans (hp.append_right _)
    | succ i =>
      rw [List.getElem?_cons_succ] at hi
      simp only [List.set_cons_succ, List.flatten_cons, List.append_assoc]
      exact List.Perm.append_left _ (ih i h h' d hi hp)

theorem map_hand_set_same {ps : List Player} {i : Nat} {p : Player} (q : Player)
    (hp : ps[i]? = some p) (hq : q.Hand = p.Hand) :
    (ps.set i q).map Player.Hand = ps.map Player.Hand := by
  apply List.ext_getElem?
  intro j
  rw [List.getElem?_map, List.getElem?_map, List.getElem?_set]
  by_cases hij : i = j
  · subst hij
    have hlt : i < ps.length := (List.getElem?_eq_some_iff.1 hp).1
    simp [hlt, hp, hq]
  · simp [hij]

theorem updatePlayer_map_hand (ps : List Player) (i : Nat) (f : Player → Player)
    (hf : ∀ p, (f p).Hand = p.Hand) :
    (updatePlayer ps i f).map Player.Hand = ps.map Player.Hand := by
  apply List.ext_getElem?
  intro j
  rw [List.getElem?_map, List.getElem?_map, updatePlayer_getElem?]
  split
  · cases ps[j]? with
    | none => rfl
    | some p => simp [hf]
  · rfl

theorem advanceTurn_hands (g : GameState) :
    (advanceTurn g).Players.map Player.Hand = g.Players.map Player.Hand := by
  rw [advanceTurn_players]
  split
  · exact updatePlayer_map_hand _ _ _ (fun _ => rfl)
  · rfl

theorem acceptPass_hands (g : GameState) (actor : Nat) (p : Player)
    (hp : g.Players[actor]? = some p) :
    (acceptPass g actor p).Players.map Player.Hand = g.Players.map Player.Hand := by
  unfold acceptPass
  dsimp only
  refine Eq.trans (updatePlayer_map_hand _ _ _ ?_) ?_
  · intro _; rfl
  · split
    · dsimp only
      rw [List.map_map]
      exact map_hand_set_same _ hp rfl
    · exact map_hand_set_same _ hp rfl

/-- The hands and the standing hand after a pass. -/
theorem pass_hands (g : GameState) (actor : Nat) :
    (processPassTurnAction g actor).1.Players.map Player.Hand = g.Players.map Player.Hand ∧
    ((processPassTurnAction g actor).1.LastPlayedHand = g.LastPlayedHand ∨
      (processPassTurnAction g actor).1.LastPlayedHand = none) := by
  rcases pass_cases g actor with hrej | ⟨p, hp, _, _, _, hres⟩
  · rw [hrej]; exact ⟨rfl, Or.inl rfl⟩
  · rw [hres]
    refine ⟨acceptPass_hands g actor p hp, ?_⟩
    rw [(acceptPass_fields g actor p).2.2.1]
    split
    · exact Or.inr rfl
    · exact Or.inl rfl

/-- The hands and the standing hand after an accepted play. -/
theorem play_hands (game : GameState) (actor : Nat) (msg : Option Deck)
    (hacc : (processPlayCardsAction game actor msg).2.2 = true) :
    ∃ p data hand, game.Players[actor]? = some p ∧
      ((p.RemoveCards (Deck.Sort data)).1.Hand ++ data).Perm p.Hand ∧
      hand.Cards.Perm data ∧
      (processPlayCardsAction game actor msg).1.Players.map Player.Hand =
        (game.Players.map Player.Hand).set actor (p.RemoveCards (Deck.Sort data)).1.Hand ∧
      (processPlayCardsAction game actor msg).1.LastPlayedHand = some (stampHand hand p) := by
  obtain ⟨p, data, hand, hp, _, _, _, _, hd, _, hperm, _, hres⟩ :=
    play_accepted game actor msg hacc
  have hc : hand.Cards.Perm data := by
    rw [(determinePlayedHand_ok hd).1]
    exact (sort_perm _).trans (sort_perm _)
  refine ⟨p, data, hand, hp, hperm, hc, ?_⟩
  rw [hres, acceptPlay_eq]
  split
  · rw [(endRound_fields _ _).1, (endRound_fields _ _).2.2.1]
    exact ⟨List.map_set, rfl⟩
  · rw [advanceTurn_hands, (advanceTurn_fields _).2.2.1]
    exact ⟨List.map_set, rfl⟩

/-! ### The hands after a deal -/

theorem dealRound_hands (cpp : Nat) : ∀ (ps : List Player) (deck : Deck),
    ((dealRound cpp deck ps).map Player.Hand).flatten.Subperm deck ∧
    (∀ p ∈ dealRound cpp deck ps, p.Hand.IsSorted ∧ p.HasPassed = false) ∧
    (ps.length * cpp ≤ deck.length →
      ((dealRound cpp deck ps).map Player.Hand).flatten.Perm (deck.take (ps.length * cpp)) ∧
      ∀ p ∈ dealRound cpp deck ps, p.Hand.length = cpp) := by
  intro ps
  induction ps with
  | nil =>
    intro deck
    refine ⟨List.nil_subperm, ?_, ?_⟩
    · intro p hp; cases hp
    · intro _
      refine ⟨by simp [dealRound], ?_⟩
      intro p hp; cases hp
  | cons a rest ih =>
    intro deck
    unfold dealRound Deck.Deal
    by_cases hl : deck.length < cpp
    · obtain ⟨i1, i2, _⟩ := ih deck
      simp only [hl, if_true, Bool.false_eq_true, if_false, List.map_cons, List.flatten_cons,
        List.nil_append, List.mem_cons, forall_eq_or_imp]
      refine ⟨i1, ⟨⟨List.sorted_nil, trivial⟩, i2⟩, ?_⟩
      intro hle
      exfalso
      rw [List.length_cons, Nat.add_mul, Nat.one_mul] at hle
      omega
    · obtain ⟨i1, i2, i3⟩ := ih (deck.drop cpp)
      simp only [hl, if_false, if_true, List.map_cons, List.flatten_cons, List.mem_cons,
        forall_eq_or_imp]
      refine ⟨?_, ⟨⟨sort_isSorted _, trivial⟩, i2⟩, ?_⟩
      · have h1 : (Deck.Sort (deck.take cpp) ++ deck.drop cpp).Subperm deck := by
          have h2 := ((sort_perm (deck.take cpp)).append_right (deck.drop cpp)).subperm
          rwa [List.take_append_drop] at h2
        exact ((List.subperm_append_left _).2 i1).trans h1
      · intro hle
        rw [List.length_cons, Nat.add_mul, Nat.one_mul] at hle
        obtain ⟨j1, j2⟩ := i3 (by rw [List.length_drop]; omega)
        refine ⟨?_, ⟨?_, j2⟩⟩
        · rw [List.length_cons, Nat.add_mul, Nat.one_mul, Nat.add_comm (rest.length * cpp) cpp,
          List.take_add]
          exact (sort_perm _).append j1
        · rw [sort_length, List.length_take]
          omega

theorem dealInitial_hands (cpp : Nat) : ∀ (ps : List Player) (deck : Deck) (i : Nat),
    ((dealInitial cpp deck i ps).map Player.Hand).flatten.Subperm deck ∧
    (∀ p ∈ dealInitial cpp deck i ps, p.Hand.IsSorted) ∧
    (ps.length * cpp ≤ deck.length →
      ((dealInitial cpp deck i ps).map Player.Hand).flatten.Perm
        (deck.take (ps.length * cpp))) := by
  intro ps
  induction ps with
  | nil =>
    intro deck i
    refine ⟨List.nil_subperm, ?_, ?_⟩
    · intro p hp; cases hp
    · intro _
      simp [dealInitial]
  | cons a rest ih =>
    intro deck i
    unfold dealInitial Deck.Deal
    by_cases hl : deck.length < cpp
    · obtain ⟨i1, i2, _⟩ := ih deck (i + 1)
      simp only [hl, if_true, List.map_cons, List.flatten_cons, List.mem_cons,
        forall_eq_or_imp]
      refine ⟨?_, ⟨sort_isSorted _, i2⟩, ?_⟩
      · exact i1
      · intro hle
        exfalso
        rw [List.length_cons, Nat.add_mul, Nat.one_mul] at hle
        omega
    · obtain ⟨i1, i2, i3⟩ := ih (deck.drop cpp) (i + 1)
      simp only [hl, if_false, List.map_cons, List.flatten_cons, List.mem_cons,
        forall_eq_or_imp]
      refine ⟨?_, ⟨sort_isSorted _, i2⟩, ?_⟩
      · have h1 : (Deck.Sort (deck.take cpp) ++ deck.drop cpp).Subperm deck := by
          have h2 := ((sort_perm (deck.take cpp)).append_right (deck.drop cpp)).subperm
          rwa [List.take_append_drop] at h2
        exact ((List.subperm_append_left _).2 i1).trans h1
      · intro hle
        rw [List.length_cons, Nat.add_mul, Nat.one_mul] at hle
        have j1 := i3 (by rw [List.length_drop]; omega)
        rw [List.length_cons, Nat.add_mul, Nat.one_mul, Nat.add_comm (rest.length * cpp) cpp,
          List.take_add]
        exact (sort_perm _).append j1

/-! ### The cards in play -/

theorem allCards_eq (g : GameState) :
    allCards g = (g.Players.map Player.Hand).flatten ++ standingCards g := by
  unfold allCards
  rw [List.flatMap_def]

theorem cardTotal_eq (g : GameState) : cardTotal g = (allCards g).length := by
  unfold cardTotal allCards
  rw [List.length_append, List.length_flatMap]
  rfl

/-- After an accepted play the cards in play are the cards that were in the hands. -/
theorem play_cards (game : GameState) (actor : Nat) (msg : Option Deck)
    (hacc : (processPlayCardsAction game actor msg).2.2 = true) :
    (allCards (processPlayCardsAction game actor msg).1).Perm
      (game.Players.map Player.Hand).flatten := by
  obtain ⟨p, data, hand, hp, hperm, hc, hh, hl⟩ := play_hands game actor msg hacc
  rw [allCards_eq, hh]
  unfold standingCards
  rw [hl]
  dsimp only
  have hget : (game.Players.map Player.Hand)[actor]? = some p.Hand := by
    rw [List.getElem?_map, hp]; rfl
  exact (List.Perm.append_left _ hc).trans (flatten_set_perm _ actor _ _ _ hget hperm)

theorem play_cards_subperm (game : GameState) (actor : Nat) (msg : Option Deck) :
    (allCards (processPlayCardsAction game actor msg).1).Subperm (allCards game) := by
  rcases play_cases game actor msg with hrej | ⟨_, _, _, _, _, _, _, _, _, _, _, hres⟩
  · rw [hrej]
  · have hacc : (processPlayCardsAction game actor msg).2.2 = true := by rw [hres]
    refine (play_cards game actor msg hacc).subperm.trans ?_
    rw [allCards_eq]
    exact (List.sublist_append_left _ _).subperm

theorem pass_cards_subperm (game : GameState) (actor : Nat) :
    (allCards (processPassTurnAction game actor).1).Subperm (allCards game) := by
  obtain ⟨h1, h2⟩ := pass_hands game actor
  rw [allCards_eq, allCards_eq, h1]
  unfold standingCards
  rcases h2 with h2 | h2
  · rw [h2]
  · rw [h2]
    dsimp only
    rw [List.append_nil]
    exact (List.sublist_append_left _ _).subperm

theorem resetRoundState_cards (g : GameState) (deck : Deck) (hn : 0 < g.Players.length) :
    (allCards (resetRoundState g deck)).Subperm deck ∧
    ∀ p ∈ (resetRoundState g deck).Players, p.Hand.IsSorted := by
  have hne : g.Players.isEmpty = false := by
    cases hp : g.Players with
    | nil => simp [hp] at hn
    | cons a l => rfl
  unfold resetRoundState
  rw [if_neg (by simp [hne])]
  rw [allCards_eq]
  unfold standingCards
  dsimp only
  rw [List.append_nil]
  obtain ⟨h1, h2, _⟩ := dealRound_hands
    (if g.Players.length = 4 then 13 else deck.length / g.Players.length) g.Players deck
  exact ⟨h1, fun p hp => (h2 p hp).1⟩

theorem newGame_cards (g : GameState) (deck : Deck) (hn : 0 < g.Players.length) :
    (allCards (processNewGameAction g deck).1).Subperm deck ∧
    ∀ p ∈ (processNewGameAction g deck).1.Players, p.Hand.IsSorted := by
  unfold processNewGameAction
  split
  · exact resetRoundState_cards _ deck hn
  · split
    · exact resetRoundState_cards _ deck hn
    · exact resetRoundState_cards _ deck hn

theorem initialGameState_cards (n : Nat) (deck : Deck) :
    (allCards (initialGameState n deck)).Subperm deck ∧
    ∀ p ∈ (initialGameState n deck).Players, p.Hand.IsSorted := by
  rw [allCards_eq]
  unfold initialGameState standingCards
  dsimp only
  rw [List.append_nil]
  obtain ⟨h1, h2, _⟩ := dealInitial_hands (deck.length / n) (initPlayers n) deck 0
  exact ⟨h1, h2⟩

theorem sorted_of_map {ps qs : List Player}
    (h : ps.map Player.Hand = qs.map Player.Hand) (hq : ∀ p ∈ qs, p.Hand.IsSorted) :
    ∀ p ∈ ps, p.Hand.IsSorted := by
  intro p hp
  have hm : p.Hand ∈ qs.map Player.Hand := by
    rw [← h]; exact List.mem_map_of_mem _ hp
  obtain ⟨q, hq1, hq2⟩ := List.mem_map.1 hm
  rw [← hq2]
  exact hq q hq1

theorem play_sorted (game : GameState) (actor : Nat) (msg : Option Deck)
    (hs : ∀ p ∈ game.Players, p.Hand.IsSorted) :
    ∀ p ∈ (processPlayCardsAction game actor msg).1.Players, p.Hand.IsSorted := by
  rcases play_cases game actor msg with hrej | ⟨_, _, _, _, _, _, _, _, _, _, _, hres⟩
  · rw [hrej]; exact hs
  · have hacc : (processPlayCardsAction game actor msg).2.2 = true := by rw [hres]
    obtain ⟨p, data, hand, hp, _, _, hh, _⟩ := play_hands game actor msg hacc
    intro q hq
    have hm : q.Hand ∈ (game.Players.map Player.Hand).set actor
        (p.RemoveCards (Deck.Sort data)).1.Hand := by
      rw [← hh]; exact List.mem_map_of_mem _ hq
    rcases List.mem_or_eq_of_mem_set hm with h1 | h1
    · obtain ⟨r, hr1, hr2⟩ := List.mem_map.1 h1
      rw [← hr2]
      exact hs r hr1
    · rw [h1]
      exact removeCards_sorted p _ (hs p (List.getElem?_mem hp))

theorem pass_sorted (game : GameState) (actor : Nat)
    (hs : ∀ p ∈ game.Players, p.Hand.IsSorted) :
    ∀ p ∈ (processPassTurnAction game actor).1.Players, p.Hand.IsSorted :=
  sorted_of_map (pass_hands game actor).1 hs

/-- In every reachable state the cards in play are cards of the deck, each at most once,
and every hand is sorted. -/
theorem reachable_cards {g : GameState} (h : Reachable g) :
    (allCards g).Subperm NewDeck ∧ ∀ p ∈ g.Players, p.Hand.IsSorted := by
  induction h with
  | init n deck hn hd =>
    obtain ⟨h1, h2⟩ := initialGameState_cards n deck
    exact ⟨h1.trans hd.subperm, h2⟩
  | step game actor a hg hactor hdeck ih =>
    have hinv := reachable_inv hg
    unfold handleAction
    split
    · exact ih
    · cases a with
      | playCards msg =>
        exact ⟨(play_cards_subperm game actor msg).trans ih.1, play_sorted game actor msg ih.2⟩
      | passTurn =>
        exact ⟨(pass_cards_subperm game actor).trans ih.1, pass_sorted game actor ih.2⟩
      | newGame deck =>
        obtain ⟨h1, h2⟩ := newGame_cards game deck hinv.1
        exact ⟨h1.trans (hdeck deck rfl).subperm, h2⟩

theorem nodup_of_subperm {l₁ l₂ : Deck} (h : l₁.Subperm l₂) (hn : l₂.Nodup) : l₁.Nodup := by
  obtain ⟨l, hp, hs⟩ := h
  exact hp.nodup_iff.1 (hn.sublist hs)

/-- The deal of a whole deck of 52 cards to four players. -/
theorem initialGameState_total (deck : Deck) (hd : deck.Perm NewDeck) :
    cardTotal (initialGameState 4 deck) = 52 := by
  have hlen : deck.length = 52 := hd.length_eq.trans newDeck_length
  rw [cardTotal_eq, allCards_eq]
  unfold initialGameState standingCards
  dsimp only
  rw [List.append_nil]
  obtain ⟨_, _, h3⟩ := dealInitial_hands (deck.length / 4) (initPlayers 4) deck 0
  have h4 := (h3 (by rw [initPlayers_length, hlen])).length_eq
  rw [h4, initPlayers_length, hlen, List.length_take, hlen]
  rfl

/-! ### The match reset -/

theorem foldl_zero_scores : ∀ (ps : List Player) (acc : ScoreMap),
    (∀ p ∈ ps, mapGet (ps.foldl (fun scores p => mapSet scores p.ID 0) acc) p.ID = some 0) ∧
    (∀ k, mapGet acc k = some 0 →
      mapGet (ps.foldl (fun scores p => mapSet scores p.ID 0) acc) k = some 0) := by
  intro ps
  induction ps with
  | nil =>
    intro acc
    exact ⟨(by intro p hp; cases hp), fun k hk => hk⟩
  | cons a rest ih =>
    intro acc
    obtain ⟨i1, i2⟩ := ih (mapSet acc a.ID 0)
    rw [List.foldl_cons]
    refine ⟨?_, ?_⟩
    · intro p hp
      rcases List.mem_cons.1 hp with h | h
      · rw [h]
        exact i2 a.ID (mapGet_mapSet_self _ _ _)
      · exact i1 p h
    · intro k hk
      apply i2
      by_cases hka : k = a.ID
      · rw [hka]; exact mapGet_mapSet_self _ _ _
      · rw [mapGet_mapSet_ne _ _ _ _ hka]; exact hk

theorem dealRound_ids (cpp : Nat) : ∀ (ps : List Player) (deck : Deck),
    (dealRound cpp deck ps).map Player.ID = ps.map Player.ID := by
  intro ps
  induction ps with
  | nil => intro deck; rfl
  | cons p ps ih =>
    intro deck
    unfold dealRound
    dsimp only
    rw [List.map_cons, List.map_cons, ih]
    split <;> rfl

theorem resetRoundState_players (g : GameState) (deck : Deck) :
    (resetRoundState g deck).Players =
      dealRound (if g.Players.length = 4 then 13 else deck.length / g.Players.length) deck
        g.Players := by
  unfold resetRoundState
  split
  · next h =>
    have : g.Players = [] := by simpa using h
    rw [this]
    rfl
  · rfl

/-- The state after `resetMatchState`, field by field. -/
theorem resetMatchState_fields (g : GameState) (deck : Deck) :
    (resetMatchState g deck).RoundNumber = 1 ∧
    (resetMatchState g deck).IsGameOver = false ∧
    (resetMatchState g deck).IsMatchOver = false ∧
    (resetMatchState g deck).WinnerID = "" ∧
    (resetMatchState g deck).OverallWinnerID = "" ∧
    (resetMatchState g deck).LastPlayedHand = none ∧
    (resetMatchState g deck).PassCount = 0 ∧
    (resetMatchState g deck).RoundScoresHistory = [] ∧
    (resetMatchState g deck).TargetScore = g.TargetScore ∧
    (resetMatchState g deck).Scores =
      g.Players.foldl (fun scores p => mapSet scores p.ID 0) [] ∧
    (resetMatchState g deck).Players =
      dealRound (if g.Players.length = 4 then 13 else deck.length / g.Players.length) deck
        g.Players := by
  refine ⟨?_, ?_, ?_, ?_, ?_, ?_, ?_, ?_, ?_, ?_, ?_⟩
  all_goals first
    | (unfold resetMatchState; exact resetRoundState_players _ deck)
    | (unfold resetMatchState resetRoundState; dsimp only; split <;> rfl)

/-- The match reset of `processNewGameAction`. -/
theorem processNewGameAction_match (g : GameState) (deck : Deck)
    (h : g.IsMatchOver = true ∨ (g.IsGameOver = false ∧ g.IsMatchOver = false)) :
    (processNewGameAction g deck).1 = resetMatchState g deck := by
  unfold processNewGameAction
  rcases h with h | ⟨h1, h2⟩
  · rw [if_pos h]
  · rw [if_neg (by rw [h2]; exact Bool.false_ne_true), if_neg (by rw [h1]; exact Bool.false_ne_true)]

theorem processNewGameAction_flags (g : GameState) (deck : Deck) :
    (processNewGameAction g deck).2 = (false, true) := by
  unfold processNewGameAction
  split
  · rfl
  · split <;> rfl

/-- The deal of a deck of 52 cards by `resetRoundState`: every player gets as many cards as
the deck has per player. -/
theorem dealRound_full (ps : List Player) (deck : Deck) (hlen : deck.length = 52) :
    (∀ p ∈ dealRound (if ps.length = 4 then 13 else deck.length / ps.length) deck ps,
      p.HasPassed = false ∧ p.Hand.IsSorted ∧ p.Hand.length = 52 / ps.length) ∧
    ((dealRound (if ps.length = 4 then 13 else deck.length / ps.length) deck ps).flatMap
      Player.Hand).Subperm deck ∧
    (ps.length = 4 →
      ((dealRound (if ps.length = 4 then 13 else deck.length / ps.length) deck ps).flatMap
        Player.Hand).Perm deck) := by
  have hcpp : (if ps.length = 4 then 13 else deck.length / ps.length) = 52 / ps.length := by
    split
    · next h => rw [h]
    · rw [hlen]
  rw [hcpp]
  obtain ⟨h1, h2, h3⟩ := dealRound_hands (52 / ps.length) ps deck
  have hle : ps.length * (52 / ps.length) ≤ deck.length := by
    rw [hlen]; exact Nat.mul_div_le 52 ps.length
  obtain ⟨h4, h5⟩ := h3 hle
  rw [List.flatMap_def]
  refine ⟨fun p hp => ⟨(h2 p hp).2, (h2 p hp).1, h5 p hp⟩, h1, ?_⟩
  intro h4p
  rw [h4p] at h4
  have : List.take (4 * (52 / 4)) deck = deck := List.take_of_length_le (by rw [hlen])
  rw [this] at h4
  rw [h4p]
  exact h4

theorem cardTotal_hands (g : GameState) :
    cardTotal g = (g.Players.map Player.Hand).flatten.length + (standingCards g).length := by
  rw [cardTotal_eq, allCards_eq, List.length_append]

/-- An accepted play takes the cards of the standing hand it replaces out of the count. -/
theorem play_total (g : GameState) (actor : Nat) (msg : Option Deck)
    (hacc : (processPlayCardsAction g actor msg).2.2 = true) :
    cardTotal (processPlayCardsAction g actor msg).1 + (standingCards g).length =
      cardTotal g := by
  have h := (play_cards g actor msg hacc).length_eq
  rw [cardTotal_eq, h, cardTotal_hands]

/-- A pass leaves the count as it is, or clears the standing hand. -/
theorem pass_total (g : GameState) (actor : Nat) :
    cardTotal (processPassTurnAction g actor).1 = cardTotal g ∨
    ((processPassTurnAction g actor).1.LastPlayedHand = none ∧
      cardTotal (processPassTurnAction g actor).1 + (standingCards g).length =
        cardTotal g) := by
  obtain ⟨h1, h2⟩ := pass_hands g actor
  rcases h2 with h2 | h2
  · left
    rw [cardTotal_hands, cardTotal_hands, h1]
    unfold standingCards
    rw [h2]
  · right
    refine ⟨h2, ?_⟩
    rw [cardTotal_hands, cardTotal_hands, h1]
    have : standingCards (processPassTurnAction g actor).1 = [] := by
      unfold standingCards
      rw [h2]
    rw [this]
    rfl

/-- The players and the standing hand after `processNewGameAction`. -/
theorem newGame_deal (g : GameState) (deck : Deck) (hn : 0 < g.Players.length) :
    (processNewGameAction g deck).1.Players =
      dealRound (if g.Players.length = 4 then 13 else deck.length / g.Players.length) deck
        g.Players ∧
    (processNewGameAction g deck).1.LastPlayedHand = none := by
  have hne : g.Players.isEmpty = false := by
    cases hp : g.Players with
    | nil => simp [hp] at hn
    | cons a l => rfl
  unfold processNewGameAction
  split
  · exact ⟨(resetMatchState_fields g deck).2.2.2.2.2.2.2.2.2.2,
      (resetMatchState_fields g deck).2.2.2.2.2.1⟩
  · split
    · refine ⟨resetRoundState_players _ deck, ?_⟩
      unfold resetRoundState
      dsimp only
      rw [if_neg (by simp [hne])]
    · exact ⟨(resetMatchState_fields g deck).2.2.2.2.2.2.2.2.2.2,
        (resetMatchState_fields g deck).2.2.2.2.2.1⟩

/-- After a reset with four players all 52 cards are in the hands. -/
theorem newGame_total (g : GameState) (deck : Deck) (hd : deck.Perm NewDeck)
    (h4 : g.Players.length = 4) : cardTotal (processNewGameAction g deck).1 = 52 := by
  have hlen : deck.length = 52 := hd.length_eq.trans newDeck_length
  obtain ⟨h1, h2⟩ := newGame_deal g deck (by omega)
  obtain ⟨_, _, h3⟩ := dealRound_full g.Players deck hlen
  have h5 := (h3 h4).length_eq
  rw [cardTotal_eq]
  unfold allCards standingCards
  rw [h1, h2]
  dsimp only
  rw [List.append_nil, h5, hlen]

/-! ## Auxiliary lemmas: a match played to its end -/

theorem reachable_replay : ∀ (moves : List (Nat × Action)) (g : GameState),
    Reachable g → movesOk g moves = true → Reachable (replay g moves) := by
  intro moves
  induction moves with
  | nil => intro g hg _; exact hg
  | cons m rest ih =>
    intro g hg hok
    unfold movesOk at hok
    simp only [Bool.and_eq_true, decide_eq_true_eq] at hok
    obtain ⟨⟨h1, h2⟩, h3⟩ := hok
    unfold replay
    refine ih _ (Reachable.step g m.1 m.2 hg h1 ?_) h3
    intro d hd
    rw [hd] at h2
    simp only [decide_eq_true_eq] at h2
    rw [h2]

theorem matchOverExample_reachable : Reachable matchOverExample :=
  reachable_replay threeRounds (initialGameState 4 NewDeck)
    (Reachable.init 4 NewDeck (by decide) (List.Perm.refl _)) rfl

set_option maxRecDepth 100000 in
theorem matchOverExample_over : matchOverExample.IsMatchOver = true := rfl

/-! ## The classifier -/

/-- C1: for five cards of the game, `isStraight` reports a straight exactly when the ranks
are `r, r+1, r+2, r+3, r+4` for some `r` from 3 to Jack or are 3, 4, 5, Ace, Two; in the
first case the effective rank and suit are those of the last card, in the second those of
the 5 (the third card).  The statement needs no sortedness of the input. -/
theorem isStraight_spec (cards : Deck) (hlen : cards.length = 5) (hv : ∀ c ∈ cards, c.valid) :
    ((isStraight cards).1 = true ↔
      ((∃ r : Rank, Rank3 ≤ r ∧ r ≤ Jack ∧
          cards.map Card.Rank = [r, r + 1, r + 2, r + 3, r + 4]) ∨
        cards.map Card.Rank = [Rank3, Rank4, Rank5, Ace, Two])) ∧
    ((∃ r : Rank, Rank3 ≤ r ∧ r ≤ Jack ∧
          cards.map Card.Rank = [r, r + 1, r + 2, r + 3, r + 4]) →
      isStraight cards = (true, (cards.getD 4 default).Rank, (cards.getD 4 default).Suit)) ∧
    (cards.map Card.Rank = [Rank3, Rank4, Rank5, Ace, Two] →
      isStraight cards = (true, Rank5, (cards.getD 2 default).Suit) ∧
        (cards.getD 2 default).Rank = Rank5) := by
  obtain ⟨c0, c1, c2, c3, c4, rfl⟩ := exists_five_of_length cards hlen
  have w0 := wrapInt_rank_succ c0 (hv c0 (by simp))
  have w1 := wrapInt_rank_succ c1 (hv c1 (by simp))
  have w2 := wrapInt_rank_succ c2 (hv c2 (by simp))
  have w3 := wrapInt_rank_succ c3 (hv c3 (by simp))
  obtain ⟨⟨l0, _⟩, _⟩ := hv c0 (by simp)
  obtain ⟨⟨_, u4⟩, _⟩ := hv c4 (by simp)
  simp only [isStraight, isConsecutive_five, w0, w1, w2, w3, List.map, List.getD_cons_succ,
    List.getD_cons_zero, List.cons.injEq, and_true]
  dsimp only [Rank, Suit, Rank3, Rank4, Rank5, Rank10, Jack, Queen, King, Ace, Two] at *
  refine ⟨?_, ?_, ?_⟩
  · constructor
    · intro h
      split_ifs at h with h1 h2 h3 h4
      · exact Or.inl ⟨10, by omega⟩
      · exact Or.inl ⟨11, by omega⟩
      · exact Or.inr (by omega)
      · exact Or.inl ⟨c0.Rank, by omega⟩
    · rintro (⟨r, hr⟩ | h) <;> split_ifs <;> first | rfl | omega
  · rintro ⟨r, hr⟩
    split_ifs <;> first | rfl | omega
  · intro h
    refine ⟨?_, h.2.2.1⟩
    rw [← h.2.2.1]
    split_ifs <;> first | rfl | omega

/-- C1, at concrete inputs: 3♦ 4♣ 5♥ A♠ 2♦ is a straight ranked by its 5 of Hearts. -/
theorem isStraight_spec_witness :
    isStraight [⟨Rank3, Diamonds⟩, ⟨Rank4, Clubs⟩, ⟨Rank5, Hearts⟩, ⟨Ace, Spades⟩,
      ⟨Two, Diamonds⟩] = (true, Rank5, Hearts) :=
  ((isStraight_spec [⟨Rank3, Diamonds⟩, ⟨Rank4, Clubs⟩, ⟨Rank5, Hearts⟩, ⟨Ace, Spades⟩,
    ⟨Two, Diamonds⟩] rfl (by decide)).2.2 rfl).1

/-- C2, as stated, fails: the sorted cards 3♦ 4♦ 5♦ A♦ 2♦ are not classified as a Straight. -/
theorem aceLowDiamonds_not_straight :
    ¬ ∃ h, DeterminePlayedHand [⟨Rank3, Diamonds⟩, ⟨Rank4, Diamonds⟩, ⟨Rank5, Diamonds⟩,
      ⟨Ace, Diamonds⟩, ⟨Two, Diamonds⟩] = .ok h ∧ h.HandType = Straight := by
  rintro ⟨h, hh, ht⟩
  have e : DeterminePlayedHand [⟨Rank3, Diamonds⟩, ⟨Rank4, Diamonds⟩, ⟨Rank5, Diamonds⟩,
      ⟨Ace, Diamonds⟩, ⟨Two, Diamonds⟩] = .ok ⟨[⟨Rank3, Diamonds⟩, ⟨Rank4, Diamonds⟩,
      ⟨Rank5, Diamonds⟩, ⟨Ace, Diamonds⟩, ⟨Two, Diamonds⟩], "", StraightFlush, "", 0, Rank5,
      Diamonds⟩ := rfl
  rw [e] at hh
  cases hh
  exact absurd ht (by decide)

/-- C2, amended: the sorted cards 3♦ 4♦ 5♦ A♦ 2♦ are classified as a StraightFlush with
effective rank 5 and effective suit Diamonds. -/
theorem aceLowDiamonds_straightFlush :
    DeterminePlayedHand [⟨Rank3, Diamonds⟩, ⟨Rank4, Diamonds⟩, ⟨Rank5, Diamonds⟩,
      ⟨Ace, Diamonds⟩, ⟨Two, Diamonds⟩] =
    .ok { Cards := [⟨Rank3, Diamonds⟩, ⟨Rank4, Diamonds⟩, ⟨Rank5, Diamonds⟩,
            ⟨Ace, Diamonds⟩, ⟨Two, Diamonds⟩],
          PlayerID := "", HandType := StraightFlush, HandTypeString := "", Rank := 0,
          EffectiveRank := Rank5, EffectiveSuit := Diamonds } := rfl

/-- C3: the code does not return the error the two test rows expect.  A♥ 2♠ 3♦ 4♣ 5♥,
sorted before the call, comes back as a Straight of effective rank 5 and effective suit
Hearts, and A♥ 2♥ 3♥ 4♥ 5♥ as a StraightFlush of effective rank 5 and effective suit
Hearts. -/
theorem aceLowRun_not_rejected :
    DeterminePlayedHand (Deck.Sort [⟨Ace, Hearts⟩, ⟨Two, Spades⟩, ⟨Rank3, Diamonds⟩,
      ⟨Rank4, Clubs⟩, ⟨Rank5, Hearts⟩]) =
    .ok { Cards := [⟨Rank3, Diamonds⟩, ⟨Rank4, Clubs⟩, ⟨Rank5, Hearts⟩, ⟨Ace, Hearts⟩,
            ⟨Two, Spades⟩],
          PlayerID := "", HandType := Straight, HandTypeString := "", Rank := 0,
          EffectiveRank := Rank5, EffectiveSuit := Hearts } ∧
    DeterminePlayedHand (Deck.Sort [⟨Ace, Hearts⟩, ⟨Two, Hearts⟩, ⟨Rank3, Hearts⟩,
      ⟨Rank4, Hearts⟩, ⟨Rank5, Hearts⟩]) =
    .ok { Cards := [⟨Rank3, Hearts⟩, ⟨Rank4, Hearts⟩, ⟨Rank5, Hearts⟩, ⟨Ace, Hearts⟩,
            ⟨Two, Hearts⟩],
          PlayerID := "", HandType := StraightFlush, HandTypeString := "", Rank := 0,
          EffectiveRank := Rank5, EffectiveSuit := Hearts } :=
  ⟨rfl, rfl⟩

/-- What the code does on every Ace-low run: five cards whose ranks are exactly Ace, Two, 3,
4, 5, sorted before the call, are accepted, as a StraightFlush when the five suits are equal
and as a Straight otherwise, with effective rank 5 and the suit of the 5 as effective
suit. -/
theorem aceLowRun_classified (cards : Deck)
    (hr : (cards.map Card.Rank).Perm [Ace, Two, Rank3, Rank4, Rank5]) :
    ∃ h, DeterminePlayedHand (Deck.Sort cards) = .ok h ∧
      h.EffectiveRank = Rank5 ∧
      (∀ c ∈ cards, c.Rank = Rank5 → h.EffectiveSuit = c.Suit) ∧
      ((∃ s, allSuit cards s) → h.HandType = StraightFlush) ∧
      ((¬ ∃ s, allSuit cards s) → h.HandType = Straight) := by
  have hm : (Deck.Sort cards).map Card.Rank = [3, 4, 5, 14, 15] :=
    sort_ranks_eq cards _ (hr.trans (by decide)) (by decide)
  have hmem : ∀ c, c ∈ cards ↔ c ∈ Deck.Sort cards := fun c => (sort_perm cards).mem_iff.symm
  have hall : (∃ s, allSuit cards s) ↔ ∃ s, allSuit (Deck.Sort cards) s := by
    simp only [allSuit, hmem]
  rw [hall]
  simp only [hmem]
  generalize Deck.Sort cards = l at hm
  obtain ⟨c0, c1, c2, c3, c4, rfl⟩ := exists_five_of_length l (by simpa using congrArg List.length hm)
  simp only [List.map, List.cons.injEq, and_true] at hm
  obtain ⟨h0, h1, h2, h3, h4⟩ := hm
  have hst : isStraight [c0, c1, c2, c3, c4] = (true, 5, c2.Suit) := by
    simp [isStraight, h0, h1, h2, h3, h4]
  have hfoak : isFourOfAKindPlusOne [c0, c1, c2, c3, c4] = (false, -1) := by
    simp [isFourOfAKindPlusOne, h0, h1, h2, h3, h4]
  have hfh : isFullHouse [c0, c1, c2, c3, c4] = (false, -1) := by
    simp [isFullHouse, h0, h1, h2, h3, h4]
  have hsuit : ∀ c ∈ [c0, c1, c2, c3, c4], c.Rank = Rank5 → c2.Suit = c.Suit := by
    intro c hc h5
    simp only [List.mem_cons, List.mem_singleton, List.not_mem_nil, or_false] at hc
    dsimp only [Rank, Rank5] at *
    rcases hc with rfl | rfl | rfl | rfl | rfl <;> first | rfl | omega
  rw [determinePlayedHand_five, ← isFlush_iff_allSuit]
  by_cases hf : (isFlush [c0, c1, c2, c3, c4]).1 = true
  · refine ⟨⟨Deck.Sort [c0, c1, c2, c3, c4], "", StraightFlush, "", 0, 5, c2.Suit⟩,
      ?_, rfl, hsuit, fun _ => rfl, fun h => absurd hf h⟩
    simp [determineFive, isStraightFlush_five, hf, hst, mkPlayedHand]
  · refine ⟨⟨Deck.Sort [c0, c1, c2, c3, c4], "", Straight, "", 0, 5, c2.Suit⟩,
      ?_, rfl, hsuit, fun h => absurd h hf, fun _ => rfl⟩
    simp [determineFive, isStraightFlush_five, hf, hst, hfoak, hfh, mkPlayedHand]

/-- The two Ace-low hands of the test table are accepted with effective rank 5. -/
theorem aceLowRun_classified_witness :
    (∃ h, DeterminePlayedHand (Deck.Sort [⟨Ace, Hearts⟩, ⟨Two, Spades⟩, ⟨Rank3, Diamonds⟩,
        ⟨Rank4, Clubs⟩, ⟨Rank5, Hearts⟩]) = .ok h ∧ h.EffectiveRank = Rank5) ∧
    (∃ h, DeterminePlayedHand (Deck.Sort [⟨Ace, Hearts⟩, ⟨Two, Hearts⟩, ⟨Rank3, Hearts⟩,
        ⟨Rank4, Hearts⟩, ⟨Rank5, Hearts⟩]) = .ok h ∧ h.EffectiveRank = Rank5) :=
  ⟨(aceLowRun_classified [⟨Ace, Hearts⟩, ⟨Two, Spades⟩, ⟨Rank3, Diamonds⟩,
      ⟨Rank4, Clubs⟩, ⟨Rank5, Hearts⟩] (List.Perm.refl _)).imp fun _ hh => ⟨hh.1, hh.2.1⟩,
   (aceLowRun_classified [⟨Ace, Hearts⟩, ⟨Two, Hearts⟩, ⟨Rank3, Hearts⟩,
      ⟨Rank4, Hearts⟩, ⟨Rank5, Hearts⟩] (List.Perm.refl _)).imp fun _ hh => ⟨hh.1, hh.2.1⟩⟩

/-- C4: a five-card input is classified StraightFlush exactly when its five suits are equal
and `isStraight` holds, and the effective rank and suit are then those `isStraight` reports;
so neither a flush that is no straight nor a straight that is no flush is a StraightFlush. -/
theorem straightFlush_iff (cards : Deck) (hlen : cards.length = 5) :
    ((∃ h, DeterminePlayedHand cards = .ok h ∧ h.HandType = StraightFlush) ↔
      ((∃ s, allSuit cards s) ∧ (isStraight cards).1 = true)) ∧
    (∀ h, DeterminePlayedHand cards = .ok h → h.HandType = StraightFlush →
      h.EffectiveRank = (isStraight cards).2.1 ∧ h.EffectiveSuit = (isStraight cards).2.2) := by
  obtain ⟨c0, c1, c2, c3, c4, rfl⟩ := exists_five_of_length cards hlen
  rw [determinePlayedHand_five, ← isFlush_iff_allSuit]
  have hsf := isStraightFlush_five c0 c1 c2 c3 c4
  have inv : ∀ h, determineFive [c0, c1, c2, c3, c4] = .ok h → h.HandType = StraightFlush →
      (isStraightFlush [c0, c1, c2, c3, c4]).1 = true ∧
      h = ⟨Deck.Sort [c0, c1, c2, c3, c4], "", StraightFlush, "", 0,
        (isStraightFlush [c0, c1, c2, c3, c4]).2.1, (isStraightFlush [c0, c1, c2, c3, c4]).2.2⟩ := by
    intro h hh ht
    rcases determineFive_ok_cases hh with ⟨h1, rfl⟩ | ⟨_, _, rfl⟩ | ⟨_, _, _, rfl⟩ |
      ⟨_, _, _, _, rfl⟩ | ⟨_, _, _, _, _, rfl⟩
    · exact ⟨h1, rfl⟩
    all_goals simp [StraightFlush, FourOfAKindPlusOne, FullHouse, Flush, Straight] at ht
  by_cases hc : (isFlush [c0, c1, c2, c3, c4]).1 = true ∧
      (isStraight [c0, c1, c2, c3, c4]).1 = true
  · rw [if_pos hc] at hsf
    have hok := determineFive_eq [c0, c1, c2, c3, c4]
    rw [if_pos (by rw [hsf])] at hok
    refine ⟨⟨fun _ => hc, fun _ => ⟨_, hok, rfl⟩⟩, ?_⟩
    intro h hh ht
    obtain ⟨_, rfl⟩ := inv h hh ht
    rw [hsf]
    exact ⟨rfl, rfl⟩
  · rw [if_neg hc] at hsf
    have hno : ¬ (isStraightFlush [c0, c1, c2, c3, c4]).1 = true := by rw [hsf]; decide
    exact ⟨⟨fun ⟨h, hh, ht⟩ => absurd (inv h hh ht).1 hno, fun h => absurd h hc⟩,
      fun h hh ht => absurd (inv h hh ht).1 hno⟩

/-- C4, at concrete inputs: 10♠ J♠ Q♠ K♠ A♠ is a StraightFlush, and the flush
3♦ 5♦ 7♦ J♦ K♦ is not. -/
theorem straightFlush_iff_witness :
    (∃ h, DeterminePlayedHand [⟨Rank10, Spades⟩, ⟨Jack, Spades⟩, ⟨Queen, Spades⟩,
        ⟨King, Spades⟩, ⟨Ace, Spades⟩] = .ok h ∧ h.HandType = StraightFlush) ∧
    ¬ (∃ h, DeterminePlayedHand [⟨Rank3, Diamonds⟩, ⟨Rank5, Diamonds⟩, ⟨Rank7, Diamonds⟩,
        ⟨Jack, Diamonds⟩, ⟨King, Diamonds⟩] = .ok h ∧ h.HandType = StraightFlush) :=
  ⟨(straightFlush_iff [⟨Rank10, Spades⟩, ⟨Jack, Spades⟩, ⟨Queen, Spades⟩,
      ⟨King, Spades⟩, ⟨Ace, Spades⟩] rfl).1.2 ⟨⟨Spades, by decide⟩, rfl⟩,
   fun hex => absurd ((straightFlush_iff [⟨Rank3, Diamonds⟩, ⟨Rank5, Diamonds⟩,
      ⟨Rank7, Diamonds⟩, ⟨Jack, Diamonds⟩, ⟨King, Diamonds⟩] rfl).1.1 hex).2 (by decide)⟩

/-- C5: a sorted five-card input is classified FourOfAKindPlusOne exactly when four of its
cards share one rank; the effective rank is then the rank of the four and the effective
suit is -1.  (Distinctness of the cards is not needed.) -/
theorem fourOfAKind_iff (cards : Deck) (hlen : cards.length = 5) (hs : cards.IsSorted) :
    (∀ r, 4 ≤ rankCount cards r →
      DeterminePlayedHand cards =
        .ok ⟨Deck.Sort cards, "", FourOfAKindPlusOne, "", 0, r, -1⟩) ∧
    (∀ h, DeterminePlayedHand cards = .ok h → h.HandType = FourOfAKindPlusOne →
      4 ≤ rankCount cards h.EffectiveRank ∧ h.EffectiveSuit = -1) := by
  obtain ⟨c0, c1, c2, c3, c4, rfl⟩ := exists_five_of_length cards hlen
  obtain ⟨s01, s12, s23, s34⟩ := isSorted_five_ranks hs
  rw [determinePlayedHand_five]
  constructor
  · intro r hr
    exact determineFive_of_four hs r hr
  · intro h hh ht
    rcases determineFive_ok_cases hh with ⟨_, rfl⟩ | ⟨_, h2, rfl⟩ | ⟨_, _, _, rfl⟩ |
      ⟨_, _, _, _, rfl⟩ | ⟨_, _, _, _, _, rfl⟩
    · simp [StraightFlush, FourOfAKindPlusOne] at ht
    · refine ⟨?_, rfl⟩
      rw [rankCount_five]
      simp only [isFourOfAKindPlusOne] at h2 ⊢
      dsimp only [Rank] at *
      split_ifs at h2 ⊢ <;> omega
    all_goals simp [FourOfAKindPlusOne, FullHouse, Flush, Straight] at ht

/-- C5, at a concrete input: 3♦ 7♦ 7♣ 7♥ 7♠ is a FourOfAKindPlusOne of rank 7, not 3. -/
theorem fourOfAKind_iff_witness :
    DeterminePlayedHand [⟨Rank3, Diamonds⟩, ⟨Rank7, Diamonds⟩, ⟨Rank7, Clubs⟩,
      ⟨Rank7, Hearts⟩, ⟨Rank7, Spades⟩] =
    .ok ⟨Deck.Sort [⟨Rank3, Diamonds⟩, ⟨Rank7, Diamonds⟩, ⟨Rank7, Clubs⟩, ⟨Rank7, Hearts⟩,
      ⟨Rank7, Spades⟩], "", FourOfAKindPlusOne, "", 0, Rank7, -1⟩ :=
  (fourOfAKind_iff [⟨Rank3, Diamonds⟩, ⟨Rank7, Diamonds⟩, ⟨Rank7, Clubs⟩, ⟨Rank7, Hearts⟩,
    ⟨Rank7, Spades⟩] rfl (by decide)).1 Rank7 (by decide)

/-- C6: a sorted five-card input of distinct cards is classified FullHouse exactly when
three cards share one rank and the other two share a different rank; the effective rank
is the rank of the three, the effective suit is -1; two pairs (with any fifth card) are
rejected. -/
theorem fullHouse_iff (cards : Deck) (hlen : cards.length = 5) (hs : cards.IsSorted)
    (hnd : cards.Nodup) :
    (∀ t p, t ≠ p → rankCount cards t = 3 → rankCount cards p = 2 →
      DeterminePlayedHand cards = .ok ⟨Deck.Sort cards, "", FullHouse, "", 0, t, -1⟩) ∧
    (∀ h, DeterminePlayedHand cards = .ok h → h.HandType = FullHouse →
      rankCount cards h.EffectiveRank = 3 ∧
      (∃ p, p ≠ h.EffectiveRank ∧ rankCount cards p = 2) ∧ h.EffectiveSuit = -1) ∧
    (∀ p q, p ≠ q → rankCount cards p = 2 → rankCount cards q = 2 →
      isError (DeterminePlayedHand cards) = true) := by
  obtain ⟨c0, c1, c2, c3, c4, rfl⟩ := exists_five_of_length cards hlen
  obtain ⟨s01, s12, s23, s34⟩ := isSorted_five_ranks hs
  obtain ⟨n01, n12, n23, n34⟩ := nodup_five hnd
  rw [determinePlayedHand_five]
  refine ⟨?_, ?_, ?_⟩
  · intro t p htp ht hp
    exact determineFive_of_three_two hs t p htp ht hp
  · intro h hh ht
    rcases determineFive_ok_cases hh with ⟨_, rfl⟩ | ⟨_, _, rfl⟩ | ⟨_, _, h3, rfl⟩ |
      ⟨_, _, _, _, rfl⟩ | ⟨_, _, _, _, _, rfl⟩
    · simp [StraightFlush, FullHouse] at ht
    · simp [FourOfAKindPlusOne, FullHouse] at ht
    · simp only [isFullHouse] at h3 ⊢
      split_ifs at h3 ⊢ with f1 f2
      · have e3 : rankCount [c0, c1, c2, c3, c4] c0.Rank = 3 := by
          rw [rankCount_five]; dsimp only [Rank] at *; split_ifs <;> omega
        have e2 : rankCount [c0, c1, c2, c3, c4] c3.Rank = 2 := by
          rw [rankCount_five]; dsimp only [Rank] at *; split_ifs <;> omega
        have ne : c3.Rank ≠ c0.Rank := by dsimp only [Rank] at *; omega
        exact ⟨e3, ⟨c3.Rank, ne, e2⟩, trivial⟩
      · have e3 : rankCount [c0, c1, c2, c3, c4] c2.Rank = 3 := by
          rw [rankCount_five]; dsimp only [Rank] at *; split_ifs <;> omega
        have e2 : rankCount [c0, c1, c2, c3, c4] c0.Rank = 2 := by
          rw [rankCount_five]; dsimp only [Rank] at *; split_ifs <;> omega
        have ne : c0.Rank ≠ c2.Rank := by dsimp only [Rank] at *; omega
        exact ⟨e3, ⟨c0.Rank, ne, e2⟩, trivial⟩
    all_goals simp [FullHouse, Flush, Straight] at ht
  · intro p q hpq hp hq
    rw [rankCount_five] at hp hq
    have hpat : (c0.Rank = c1.Rank ∧ c2.Rank = c3.Rank ∧ c1.Rank ≠ c2.Rank ∧ c3.Rank ≠ c4.Rank) ∨
        (c0.Rank = c1.Rank ∧ c3.Rank = c4.Rank ∧ c1.Rank ≠ c2.Rank ∧ c2.Rank ≠ c3.Rank) ∨
        (c1.Rank = c2.Rank ∧ c3.Rank = c4.Rank ∧ c0.Rank ≠ c1.Rank ∧ c2.Rank ≠ c3.Rank) := by
      have cp := count_two_cases _ _ _ _ _ p s01 s12 s23 s34 hp
      have cq := count_two_cases _ _ _ _ _ q s01 s12 s23 s34 hq
      dsimp only [Rank] at *
      omega
    have hns : ¬ (isStraight [c0, c1, c2, c3, c4]).1 = true := by
      intro hst
      have := isStraight_ranks_ne hst
      dsimp only [Rank] at *
      omega
    have hnfoak : ¬ (isFourOfAKindPlusOne [c0, c1, c2, c3, c4]).1 = true := by
      simp only [isFourOfAKindPlusOne]
      dsimp only [Rank] at *
      split_ifs <;> first | omega | decide
    have hnfh : ¬ (isFullHouse [c0, c1, c2, c3, c4]).1 = true := by
      simp only [isFullHouse]
      dsimp only [Rank] at *
      split_ifs <;> first | omega | decide
    have hnf : ¬ (isFlush [c0, c1, c2, c3, c4]).1 = true := by
      rw [isFlush_five]
      dsimp only [Rank, Suit] at *
      split_ifs <;> first | omega | decide
    rw [determineFive_eq, if_neg (isStraightFlush_false_of_not_straight hns), if_neg hnfoak,
      if_neg hnfh, if_neg hnf, if_neg hns]
    rfl

/-- C6, at concrete inputs: K♦ K♣ K♠ A♥ A♠ is a FullHouse of rank King, and the two pairs
3♦ 3♣ 4♥ 4♠ 5♦ are rejected. -/
theorem fullHouse_iff_witness :
    DeterminePlayedHand [⟨King, Diamonds⟩, ⟨King, Clubs⟩, ⟨King, Spades⟩, ⟨Ace, Hearts⟩,
        ⟨Ace, Spades⟩] =
      .ok ⟨Deck.Sort [⟨King, Diamonds⟩, ⟨King, Clubs⟩, ⟨King, Spades⟩, ⟨Ace, Hearts⟩,
        ⟨Ace, Spades⟩], "", FullHouse, "", 0, King, -1⟩ ∧
    isError (DeterminePlayedHand [⟨Rank3, Diamonds⟩, ⟨Rank3, Clubs⟩, ⟨Rank4, Hearts⟩,
        ⟨Rank4, Spades⟩, ⟨Rank5, Diamonds⟩]) = true :=
  ⟨(fullHouse_iff [⟨King, Diamonds⟩, ⟨King, Clubs⟩, ⟨King, Spades⟩, ⟨Ace, Hearts⟩,
      ⟨Ace, Spades⟩] rfl (by decide) (by decide)).1 King Ace (by decide) (by decide) (by decide),
   (fullHouse_iff [⟨Rank3, Diamonds⟩, ⟨Rank3, Clubs⟩, ⟨Rank4, Hearts⟩,
      ⟨Rank4, Spades⟩, ⟨Rank5, Diamonds⟩] rfl (by decide) (by decide)).2.2 Rank3 Rank4
      (by decide) (by decide) (by decide)⟩

/-- C7, as stated, fails: the sorted input 3♦ 3♦ 3♦ 3♦ 4♦ has five equal suits and is no
straight, yet it is classified FourOfAKindPlusOne, not Flush. -/
theorem flush_needs_distinct_cards :
    Deck.IsSorted [⟨Rank3, Diamonds⟩, ⟨Rank3, Diamonds⟩, ⟨Rank3, Diamonds⟩, ⟨Rank3, Diamonds⟩,
      ⟨Rank4, Diamonds⟩] ∧
    allSuit [⟨Rank3, Diamonds⟩, ⟨Rank3, Diamonds⟩, ⟨Rank3, Diamonds⟩, ⟨Rank3, Diamonds⟩,
      ⟨Rank4, Diamonds⟩] Diamonds ∧
    (isStraight [⟨Rank3, Diamonds⟩, ⟨Rank3, Diamonds⟩, ⟨Rank3, Diamonds⟩, ⟨Rank3, Diamonds⟩,
      ⟨Rank4, Diamonds⟩]).1 = false ∧
    DeterminePlayedHand [⟨Rank3, Diamonds⟩, ⟨Rank3, Diamonds⟩, ⟨Rank3, Diamonds⟩,
      ⟨Rank3, Diamonds⟩, ⟨Rank4, Diamonds⟩] =
    .ok ⟨[⟨Rank3, Diamonds⟩, ⟨Rank3, Diamonds⟩, ⟨Rank3, Diamonds⟩, ⟨Rank3, Diamonds⟩,
      ⟨Rank4, Diamonds⟩], "", FourOfAKindPlusOne, "", 0, Rank3, -1⟩ :=
  ⟨by decide, by decide, rfl, rfl⟩

/-- C7, amended: a sorted five-card input of distinct cards whose suits are all equal and
that is not a straight is classified Flush, with the common suit as effective suit and the
greatest rank among the five cards as effective rank; an input whose suits are not all
equal is never classified Flush. -/
theorem flush_spec (cards : Deck) (hlen : cards.length = 5) (hs : cards.IsSorted)
    (hnd : cards.Nodup) :
    (∀ s, allSuit cards s → (isStraight cards).1 = false →
      ∃ h, DeterminePlayedHand cards = .ok h ∧ h.HandType = Flush ∧ h.EffectiveSuit = s ∧
        (∀ c ∈ cards, c.Rank ≤ h.EffectiveRank) ∧ (∃ c ∈ cards, c.Rank = h.EffectiveRank)) ∧
    ((¬ ∃ s, allSuit cards s) →
      ∀ h, DeterminePlayedHand cards = .ok h → h.HandType ≠ Flush) := by
  obtain ⟨c0, c1, c2, c3, c4, rfl⟩ := exists_five_of_length cards hlen
  obtain ⟨s01, s12, s23, s34⟩ := isSorted_five_ranks hs
  obtain ⟨n01, n12, n23, n34⟩ := nodup_five hnd
  rw [determinePlayedHand_five]
  constructor
  · intro s hsuit hst
    have hf : (isFlush [c0, c1, c2, c3, c4]).1 = true :=
      (isFlush_iff_allSuit c0 c1 c2 c3 c4).2 ⟨s, hsuit⟩
    have hns : ¬ (isStraight [c0, c1, c2, c3, c4]).1 = true := by simp [hst]
    simp only [allSuit, List.mem_cons, List.mem_singleton, forall_eq_or_imp, forall_eq,
      List.not_mem_nil, false_imp_iff, implies_true, and_true] at hsuit
    obtain ⟨e0, e1, e2, e3, e4⟩ := hsuit
    have hnfoak : ¬ (isFourOfAKindPlusOne [c0, c1, c2, c3, c4]).1 = true := by
      simp only [isFourOfAKindPlusOne]
      dsimp only [Rank, Suit] at *
      split_ifs <;> first | omega | decide
    have hnfh : ¬ (isFullHouse [c0, c1, c2, c3, c4]).1 = true := by
      simp only [isFullHouse]
      dsimp only [Rank, Suit] at *
      split_ifs <;> first | omega | decide
    have hfl : isFlush [c0, c1, c2, c3, c4] = (true, c4.Suit, c4.Rank) := by
      rw [isFlush_five, if_pos ⟨by rw [e1, e0], by rw [e2, e0], by rw [e3, e0], by rw [e4, e0]⟩]
    refine ⟨⟨Deck.Sort [c0, c1, c2, c3, c4], "", Flush, "", 0, c4.Rank, c4.Suit⟩, ?_, rfl, e4,
      ?_, ⟨c4, by simp, rfl⟩⟩
    · rw [determineFive_eq, if_neg (isStraightFlush_false_of_not_straight hns), if_neg hnfoak,
        if_neg hnfh, if_pos hf, hfl]
    · intro c hc
      simp only [List.mem_cons, List.mem_singleton, List.not_mem_nil, or_false] at hc
      dsimp only [Rank, Suit] at *
      rcases hc with rfl | rfl | rfl | rfl | rfl <;> omega
  · intro hno h hh ht
    rw [← isFlush_iff_allSuit] at hno
    rcases determineFive_ok_cases hh with ⟨_, rfl⟩ | ⟨_, _, rfl⟩ | ⟨_, _, _, rfl⟩ |
      ⟨_, _, _, h4, rfl⟩ | ⟨_, _, _, _, _, rfl⟩
    · simp [StraightFlush, Flush] at ht
    · simp [FourOfAKindPlusOne, Flush] at ht
    · simp [FullHouse, Flush] at ht
    · exact hno h4
    · simp [Straight, Flush] at ht

/-- C7, amended, at a concrete input: 3♦ 5♦ 7♦ J♦ K♦ is a Flush of Diamonds. -/
theorem flush_spec_witness :
    ∃ h, DeterminePlayedHand [⟨Rank3, Diamonds⟩, ⟨Rank5, Diamonds⟩, ⟨Rank7, Diamonds⟩,
        ⟨Jack, Diamonds⟩, ⟨King, Diamonds⟩] = .ok h ∧ h.HandType = Flush ∧
      h.EffectiveSuit = Diamonds :=
  ((flush_spec [⟨Rank3, Diamonds⟩, ⟨Rank5, Diamonds⟩, ⟨Rank7, Diamonds⟩,
      ⟨Jack, Diamonds⟩, ⟨King, Diamonds⟩] rfl (by decide) (by decide)).1 Diamonds
    (by decide) rfl).imp fun _ hh => ⟨hh.1, hh.2.1, hh.2.2.1⟩

/-- C8: the code does not return what the test row expects: the five clubs 2♣ 3♣ 4♣ 5♣ 7♣,
sorted before the call, are not classified as a Flush of effective rank 7. -/
theorem clubsFlush_not_seven_high :
    ¬ ∃ h, DeterminePlayedHand (Deck.Sort [⟨Two, Clubs⟩, ⟨Rank3, Clubs⟩, ⟨Rank4, Clubs⟩,
      ⟨Rank5, Clubs⟩, ⟨Rank7, Clubs⟩]) = .ok h ∧ h.HandType = Flush ∧
      h.EffectiveRank = Rank7 ∧ h.EffectiveSuit = Clubs := by
  rintro ⟨h, hh, _, hr, _⟩
  have e : DeterminePlayedHand (Deck.Sort [⟨Two, Clubs⟩, ⟨Rank3, Clubs⟩, ⟨Rank4, Clubs⟩,
      ⟨Rank5, Clubs⟩, ⟨Rank7, Clubs⟩]) = .ok ⟨[⟨Rank3, Clubs⟩, ⟨Rank4, Clubs⟩,
      ⟨Rank5, Clubs⟩, ⟨Rank7, Clubs⟩, ⟨Two, Clubs⟩], "", Flush, "", 0, Two, Clubs⟩ := rfl
  rw [e] at hh
  cases hh
  exact absurd hr (by decide)

/-- C8: what the code returns on the input of the test row: the five clubs 2♣ 3♣ 4♣ 5♣ 7♣,
sorted before the call, are classified as a Flush with effective rank Two and effective
suit Clubs. -/
theorem clubsFlush_two_high :
    DeterminePlayedHand (Deck.Sort [⟨Two, Clubs⟩, ⟨Rank3, Clubs⟩, ⟨Rank4, Clubs⟩,
      ⟨Rank5, Clubs⟩, ⟨Rank7, Clubs⟩]) =
    .ok { Cards := [⟨Rank3, Clubs⟩, ⟨Rank4, Clubs⟩, ⟨Rank5, Clubs⟩, ⟨Rank7, Clubs⟩,
            ⟨Two, Clubs⟩],
          PlayerID := "", HandType := Flush, HandTypeString := "", Rank := 0,
          EffectiveRank := Two, EffectiveSuit := Clubs } := rfl

/-- C9, as stated, fails: for 3♠ 3♦ given in this order the effective suit is not the higher
of the two suits. -/
theorem pair_unsorted_suit :
    ¬ ∃ h, DeterminePlayedHand [⟨Rank3, Spades⟩, ⟨Rank3, Diamonds⟩] = .ok h ∧
      h.EffectiveSuit = max Spades Diamonds := by
  rintro ⟨h, hh, hsuit⟩
  have e : DeterminePlayedHand [⟨Rank3, Spades⟩, ⟨Rank3, Diamonds⟩] =
      .ok ⟨[⟨Rank3, Diamonds⟩, ⟨Rank3, Spades⟩], "", Pair, "", 0, Rank3, Diamonds⟩ := rfl
  rw [e] at hh
  cases hh
  exact absurd hsuit (by decide)

/-- C9, amended: two cards in either order are classified Pair exactly when the two ranks
are equal, and rejected otherwise; the effective rank is that rank and the effective suit
is the suit of the second card, which is the higher of the two suits when the two cards
are given in canonical sorted order. -/
theorem pair_spec (a b : Card) :
    (a.Rank = b.Rank →
      DeterminePlayedHand [a, b] = .ok ⟨Deck.Sort [a, b], "", Pair, "", 0, a.Rank, b.Suit⟩) ∧
    (a.Rank ≠ b.Rank → isError (DeterminePlayedHand [a, b]) = true) ∧
    (a.Rank = b.Rank → Deck.IsSorted [a, b] → b.Suit = max a.Suit b.Suit) := by
  refine ⟨fun h => ?_, fun h => ?_, fun h hs => ?_⟩
  · simp [DeterminePlayedHand, mkPlayedHand, h]
  · simp [DeterminePlayedHand, h, isError]
  · have hle : cardLE a b := by
      simpa [Deck.IsSorted] using hs
    rw [cardLE_iff] at hle
    dsimp only [Rank, Suit] at *
    omega

/-- C9, amended, at concrete inputs: 3♦ 3♠ is a Pair of Spades, 3♦ 4♦ is rejected. -/
theorem pair_spec_witness :
    DeterminePlayedHand [⟨Rank3, Diamonds⟩, ⟨Rank3, Spades⟩] =
      .ok ⟨Deck.Sort [⟨Rank3, Diamonds⟩, ⟨Rank3, Spades⟩], "", Pair, "", 0, Rank3, Spades⟩ ∧
    isError (DeterminePlayedHand [⟨Rank3, Diamonds⟩, ⟨Rank4, Diamonds⟩]) = true ∧
    Spades = max Diamonds Spades :=
  ⟨(pair_spec ⟨Rank3, Diamonds⟩ ⟨Rank3, Spades⟩).1 rfl,
   (pair_spec ⟨Rank3, Diamonds⟩ ⟨Rank4, Diamonds⟩).2.1 (by decide),
   (pair_spec ⟨Rank3, Diamonds⟩ ⟨Rank3, Spades⟩).2.2 rfl (by decide)⟩

/-- C10: every input whose number of cards is not 1, 2, 3 or 5 is rejected, whatever the
cards are. -/
theorem wrong_count_rejected (cards : Deck) (h1 : cards.length ≠ 1) (h2 : cards.length ≠ 2)
    (h3 : cards.length ≠ 3) (h5 : cards.length ≠ 5) :
    isError (DeterminePlayedHand cards) = true := by
  match cards, h1, h2, h3, h5 with
  | [], _, _, _, _ => rfl
  | [_], h1, _, _, _ => exact absurd rfl h1
  | [_, _], _, h2, _, _ => exact absurd rfl h2
  | [_, _, _], _, _, h3, _ => exact absurd rfl h3
  | [_, _, _, _], _, _, _, _ => rfl
  | [_, _, _, _, _], _, _, _, h5 => exact absurd rfl h5
  | _ :: _ :: _ :: _ :: _ :: _ :: _, _, _, _, _ => rfl

/-- C10, at concrete inputs: the empty input and the four 4s are rejected. -/
theorem wrong_count_rejected_witness :
    isError (DeterminePlayedHand []) = true ∧
    isError (DeterminePlayedHand [⟨Rank4, Diamonds⟩, ⟨Rank4, Clubs⟩, ⟨Rank4, Hearts⟩,
      ⟨Rank4, Spades⟩]) = true :=
  ⟨wrong_count_rejected [] (by decide) (by decide) (by decide) (by decide),
   wrong_count_rejected [⟨Rank4, Diamonds⟩, ⟨Rank4, Clubs⟩, ⟨Rank4, Hearts⟩, ⟨Rank4, Spades⟩]
     (by decide) (by decide) (by decide) (by decide)⟩

/-- C11, as stated, fails: the unsorted flush K♦ 3♦ 5♦ 7♦ J♦ is classified with effective
rank Jack (its last card), and the cards of the returned hand with effective rank King. -/
theorem reclassify_unsorted_flush :
    ∃ h h', DeterminePlayedHand [⟨King, Diamonds⟩, ⟨Rank3, Diamonds⟩, ⟨Rank5, Diamonds⟩,
        ⟨Rank7, Diamonds⟩, ⟨Jack, Diamonds⟩] = .ok h ∧
      DeterminePlayedHand h.Cards = .ok h' ∧
      h.EffectiveRank = Jack ∧ h'.EffectiveRank = King :=
  ⟨_, _, rfl, rfl, rfl, rfl⟩

/-- C11, amended: for a five-card input in canonical sorted order on which
`DeterminePlayedHand` succeeds, classifying the cards of the returned hand returns the same
hand; for an input of cards of the game in any order it returns the same category,
effective rank and effective suit whenever the returned category is not Flush. -/
theorem reclassify_spec (cards : Deck) (h : PlayedHand) (hlen : cards.length = 5)
    (hh : DeterminePlayedHand cards = .ok h) :
    (cards.IsSorted → DeterminePlayedHand h.Cards = .ok h) ∧
    ((∀ c ∈ cards, c.valid) → h.HandType ≠ Flush →
      ∃ h', DeterminePlayedHand h.Cards = .ok h' ∧ h'.HandType = h.HandType ∧
        h'.EffectiveRank = h.EffectiveRank ∧ h'.EffectiveSuit = h.EffectiveSuit) := by
  have hc := (determinePlayedHand_ok hh).1
  have sorted_case : cards.IsSorted → DeterminePlayedHand h.Cards = .ok h := by
    intro hs
    rw [hc, sort_eq_of_isSorted hs]
    exact hh
  refine ⟨sorted_case, ?_⟩
  intro hv hnf
  obtain ⟨c0, c1, c2, c3, c4, rfl⟩ := exists_five_of_length cards hlen
  have hsf := isStraightFlush_five c0 c1 c2 c3 c4
  obtain ⟨d0, d1, d2, d3, d4, hd⟩ := exists_five_of_length (Deck.Sort [c0, c1, c2, c3, c4])
    (sort_length _)
  have hds : Deck.IsSorted [d0, d1, d2, d3, d4] := hd ▸ sort_isSorted _
  have hcnt : ∀ r, rankCount [d0, d1, d2, d3, d4] r = rankCount [c0, c1, c2, c3, c4] r :=
    fun r => hd ▸ rankCount_sort _ r
  have hss : Deck.Sort [d0, d1, d2, d3, d4] = [d0, d1, d2, d3, d4] := sort_eq_of_isSorted hds
  rw [determinePlayedHand_five] at hh
  rcases determineFive_ok_cases hh with ⟨h1, e⟩ | ⟨_, h2, e⟩ | ⟨_, _, h3, e⟩ |
    ⟨_, _, _, _, e⟩ | ⟨_, _, _, _, h5, e⟩
  · by_cases hcond : (isFlush [c0, c1, c2, c3, c4]).1 = true ∧
        (isStraight [c0, c1, c2, c3, c4]).1 = true
    · exact ⟨h, sorted_case (isSorted_of_isStraight hv hcond.2), rfl, rfl, rfl⟩
    · rw [hsf, if_neg hcond] at h1
      exact absurd h1 (by decide)
  · refine ⟨⟨[d0, d1, d2, d3, d4], "", FourOfAKindPlusOne, "", 0, h.EffectiveRank, -1⟩, ?_,
      by rw [e], rfl, by rw [e]⟩
    rw [hc, hd, determinePlayedHand_five, determineFive_of_four hds h.EffectiveRank, hss]
    rw [hcnt, e, rankCount_five]
    simp only [isFourOfAKindPlusOne] at h2 ⊢
    dsimp only [Rank] at *
    split_ifs at h2 ⊢ <;> omega
  · refine ⟨⟨[d0, d1, d2, d3, d4], "", FullHouse, "", 0, h.EffectiveRank, -1⟩, ?_,
      by rw [e], rfl, by rw [e]⟩
    rw [hc, hd, determinePlayedHand_five]
    simp only [isFullHouse] at h3
    split_ifs at h3 with f1 f2
    · have e3 : rankCount [c0, c1, c2, c3, c4] c0.Rank = 3 := by
        rw [rankCount_five]; dsimp only [Rank] at *; split_ifs <;> omega
      have e2 : rankCount [c0, c1, c2, c3, c4] c3.Rank = 2 := by
        rw [rankCount_five]; dsimp only [Rank] at *; split_ifs <;> omega
      have ne : c0.Rank ≠ c3.Rank := by dsimp only [Rank] at *; omega
      have er : h.EffectiveRank = c0.Rank := by
        rw [e]; simp only [isFullHouse]; rw [if_pos f1]
      rw [determineFive_of_three_two hds c0.Rank c3.Rank ne (by rw [hcnt, e3])
        (by rw [hcnt, e2]), hss, er]
    · have e3 : rankCount [c0, c1, c2, c3, c4] c2.Rank = 3 := by
        rw [rankCount_five]; dsimp only [Rank] at *; split_ifs <;> omega
      have e2 : rankCount [c0, c1, c2, c3, c4] c0.Rank = 2 := by
        rw [rankCount_five]; dsimp only [Rank] at *; split_ifs <;> omega
      have ne : c2.Rank ≠ c0.Rank := by dsimp only [Rank] at *; omega
      have er : h.EffectiveRank = c2.Rank := by
        rw [e]; simp only [isFullHouse]; rw [if_neg f1, if_pos f2]
      rw [determineFive_of_three_two hds c2.Rank c0.Rank ne (by rw [hcnt, e3])
        (by rw [hcnt, e2]), hss, er]
  · exact absurd (by rw [e]) hnf
  · exact ⟨h, sorted_case (isSorted_of_isStraight hv h5), rfl, rfl, rfl⟩

/-- C11, amended, at concrete inputs: the sorted flush 3♦ 5♦ 7♦ J♦ K♦ is classified
again as itself, and the unsorted full house K♠ K♦ K♣ 3♦ 3♣ again as a FullHouse of Kings. -/
theorem reclassify_spec_witness :
    DeterminePlayedHand [⟨Rank3, Diamonds⟩, ⟨Rank5, Diamonds⟩, ⟨Rank7, Diamonds⟩,
        ⟨Jack, Diamonds⟩, ⟨King, Diamonds⟩] =
      .ok ⟨[⟨Rank3, Diamonds⟩, ⟨Rank5, Diamonds⟩, ⟨Rank7, Diamonds⟩, ⟨Jack, Diamonds⟩,
        ⟨King, Diamonds⟩], "", Flush, "", 0, King, Diamonds⟩ ∧
    ∃ h', DeterminePlayedHand [⟨Rank3, Diamonds⟩, ⟨Rank3, Clubs⟩, ⟨King, Diamonds⟩,
        ⟨King, Clubs⟩, ⟨King, Spades⟩] = .ok h' ∧ h'.HandType = FullHouse ∧
      h'.EffectiveRank = King ∧ h'.EffectiveSuit = -1 :=
  ⟨(reclassify_spec [⟨Rank3, Diamonds⟩, ⟨Rank5, Diamonds⟩, ⟨Rank7, Diamonds⟩,
      ⟨Jack, Diamonds⟩, ⟨King, Diamonds⟩]
      ⟨[⟨Rank3, Diamonds⟩, ⟨Rank5, Diamonds⟩, ⟨Rank7, Diamonds⟩, ⟨Jack, Diamonds⟩,
        ⟨King, Diamonds⟩], "", Flush, "", 0, King, Diamonds⟩ rfl rfl).1 (by decide),
   (reclassify_spec [⟨King, Spades⟩, ⟨King, Diamonds⟩, ⟨King, Clubs⟩, ⟨Rank3, Diamonds⟩,
      ⟨Rank3, Clubs⟩]
      ⟨[⟨Rank3, Diamonds⟩, ⟨Rank3, Clubs⟩, ⟨King, Diamonds⟩, ⟨King, Clubs⟩, ⟨King, Spades⟩],
        "", FullHouse, "", 0, King, -1⟩ rfl rfl).2 (by decide) (by decide)⟩

/-- C12: the cards of a returned hand are a permutation of the input cards, of the same
length, in canonical order: rank ascending, equal ranks by ascending suit. -/
theorem returned_cards_sorted_perm (cards : Deck) (h : PlayedHand)
    (hh : DeterminePlayedHand cards = .ok h) :
    h.Cards.Perm cards ∧ h.Cards.length = cards.length ∧
    h.Cards.Pairwise (fun a b => a.Rank < b.Rank ∨ (a.Rank = b.Rank ∧ a.Suit ≤ b.Suit)) := by
  obtain ⟨hc, _⟩ := determinePlayedHand_ok hh
  rw [hc]
  refine ⟨sort_perm cards, sort_length cards, ?_⟩
  exact List.Pairwise.imp (fun hab => (cardLE_iff _ _).1 hab) (sort_isSorted cards)

/-- C12, at a concrete input: A♠ A♥ comes back as A♥ A♠. -/
theorem returned_cards_sorted_perm_witness :
    ∃ h, DeterminePlayedHand [⟨Ace, Spades⟩, ⟨Ace, Hearts⟩] = .ok h ∧
      h.Cards = [⟨Ace, Hearts⟩, ⟨Ace, Spades⟩] ∧
      h.Cards.Perm [⟨Ace, Spades⟩, ⟨Ace, Hearts⟩] :=
  ⟨_, rfl, rfl, (returned_cards_sorted_perm [⟨Ace, Spades⟩, ⟨Ace, Hearts⟩] _ rfl).1⟩

/-! ## The comparator -/

/-- C13: bomb dominance.  A hand of category FourOfAKindPlusOne or StraightFlush beats every
hand of any other category, and no hand of another category beats it, whatever the ranks,
suits and numbers of cards. -/
theorem bomb_dominance (Y X : PlayedHand) (hY : isBomb Y) (hX : ¬ isBomb X) :
    BeatsLastHand Y (some X) = true ∧ BeatsLastHand X (some Y) = false := by
  unfold isBomb at hY hX
  constructor
  · simp [BeatsLastHand, hY, hX]
  · simp [BeatsLastHand, hY, hX]

/-- C13, at concrete inputs: four 7s against the single 2♦. -/
theorem bomb_dominance_witness :
    BeatsLastHand ⟨[⟨Rank3, Diamonds⟩, ⟨Rank7, Diamonds⟩, ⟨Rank7, Clubs⟩, ⟨Rank7, Hearts⟩,
        ⟨Rank7, Spades⟩], "", FourOfAKindPlusOne, "", 0, Rank7, -1⟩
      (some ⟨[⟨Two, Diamonds⟩], "", Single, "", 0, Two, Diamonds⟩) = true ∧
    BeatsLastHand ⟨[⟨Two, Diamonds⟩], "", Single, "", 0, Two, Diamonds⟩
      (some ⟨[⟨Rank3, Diamonds⟩, ⟨Rank7, Diamonds⟩, ⟨Rank7, Clubs⟩, ⟨Rank7, Hearts⟩,
        ⟨Rank7, Spades⟩], "", FourOfAKindPlusOne, "", 0, Rank7, -1⟩) = false :=
  bomb_dominance _ _ (by decide) (by decide)

/-- C14: between two bombs the candidate wins exactly when it is a StraightFlush against a
FourOfAKindPlusOne, or the categories are equal and its effective rank is higher, or both
are StraightFlush of equal effective rank and its effective suit is higher. -/
theorem bomb_vs_bomb (c t : PlayedHand) (hc : isBomb c) (ht : isBomb t) :
    (BeatsLastHand c (some t) = true ↔
      ((c.HandType = StraightFlush ∧ t.HandType = FourOfAKindPlusOne) ∨
       (c.HandType = t.HandType ∧ t.EffectiveRank < c.EffectiveRank) ∨
       (c.HandType = StraightFlush ∧ t.HandType = StraightFlush ∧
         c.EffectiveRank = t.EffectiveRank ∧ t.EffectiveSuit < c.EffectiveSuit))) ∧
    (c.HandType = FourOfAKindPlusOne → t.HandType = StraightFlush →
      BeatsLastHand c (some t) = false) ∧
    (c.HandType = FourOfAKindPlusOne → t.HandType = FourOfAKindPlusOne →
      c.EffectiveRank = t.EffectiveRank → BeatsLastHand c (some t) = false) := by
  unfold isBomb at hc ht
  refine ⟨?_, ?_, ?_⟩
  · rcases hc with hc | hc <;> rcases ht with ht | ht <;>
      simp [BeatsLastHand, hc, ht, FourOfAKindPlusOne, StraightFlush]
  · intro h1 h2
    simp [BeatsLastHand, h1, h2, FourOfAKindPlusOne, StraightFlush]
  · intro h1 h2 h3
    simp [BeatsLastHand, h1, h2, h3, FourOfAKindPlusOne, StraightFlush]

/-- C14, at concrete inputs: a 7-high StraightFlush against four Aces, both ways. -/
theorem bomb_vs_bomb_witness :
    BeatsLastHand ⟨[], "", StraightFlush, "", 0, Rank7, Diamonds⟩
      (some ⟨[], "", FourOfAKindPlusOne, "", 0, Ace, -1⟩) = true ∧
    BeatsLastHand ⟨[], "", FourOfAKindPlusOne, "", 0, Ace, -1⟩
      (some ⟨[], "", StraightFlush, "", 0, Rank7, Diamonds⟩) = false :=
  ⟨(bomb_vs_bomb ⟨[], "", StraightFlush, "", 0, Rank7, Diamonds⟩
      ⟨[], "", FourOfAKindPlusOne, "", 0, Ace, -1⟩ (by decide) (by decide)).1.2
      (Or.inl ⟨rfl, rfl⟩),
   (bomb_vs_bomb ⟨[], "", FourOfAKindPlusOne, "", 0, Ace, -1⟩
      ⟨[], "", StraightFlush, "", 0, Rank7, Diamonds⟩ (by decide) (by decide)).2.1 rfl rfl⟩

/-- C15: between two valid non-bomb hands of different categories the candidate wins
exactly when both hands have five cards and the pair of categories is Flush over Straight,
FullHouse over Straight or FullHouse over Flush; different numbers of cards always lose. -/
theorem different_categories (c t : PlayedHand) (hcv : c.valid) (htv : t.valid)
    (hc : ¬ isBomb c) (ht : ¬ isBomb t) :
    (c.HandType ≠ t.HandType →
      (BeatsLastHand c (some t) = true ↔
        (c.Cards.length = 5 ∧ t.Cards.length = 5 ∧
          ((c.HandType = Flush ∧ t.HandType = Straight) ∨
           (c.HandType = FullHouse ∧ t.HandType = Straight) ∨
           (c.HandType = FullHouse ∧ t.HandType = Flush))))) ∧
    (c.Cards.length ≠ t.Cards.length → BeatsLastHand c (some t) = false) := by
  unfold isBomb at hc ht
  unfold PlayedHand.valid at hcv htv
  constructor
  · intro hne
    simp only [BeatsLastHand, hc, ht, decide_False, Bool.false_eq_true, if_false, hne,
      ne_eq, not_false_eq_true, if_true]
    dsimp only [HandType, InvalidHand, Single, Pair, Triple, Straight, Flush, FullHouse,
      FourOfAKindPlusOne, StraightFlush] at *
    split_ifs <;> simp only [decide_eq_true_eq, Bool.false_eq_true, false_iff] <;> omega
  · intro hne
    simp [BeatsLastHand, hc, ht, hne]

/-- C15, at concrete inputs: a Flush beats a Straight; a Pair does not beat a Single. -/
theorem different_categories_witness :
    BeatsLastHand ⟨[⟨Rank3, Diamonds⟩, ⟨Rank5, Diamonds⟩, ⟨Rank8, Diamonds⟩, ⟨Jack, Diamonds⟩,
        ⟨King, Diamonds⟩], "", Flush, "", 0, King, Diamonds⟩
      (some ⟨[⟨Rank3, Clubs⟩, ⟨Rank4, Hearts⟩, ⟨Rank5, Spades⟩, ⟨Rank6, Diamonds⟩,
        ⟨Rank7, Diamonds⟩], "", Straight, "", 0, Rank7, Diamonds⟩) = true ∧
    BeatsLastHand ⟨[⟨Rank4, Clubs⟩, ⟨Rank4, Hearts⟩], "", Pair, "", 0, Rank4, Hearts⟩
      (some ⟨[⟨King, Hearts⟩], "", Single, "", 0, King, Hearts⟩) = false :=
  ⟨((different_categories
      ⟨[⟨Rank3, Diamonds⟩, ⟨Rank5, Diamonds⟩, ⟨Rank8, Diamonds⟩, ⟨Jack, Diamonds⟩,
        ⟨King, Diamonds⟩], "", Flush, "", 0, King, Diamonds⟩
      ⟨[⟨Rank3, Clubs⟩, ⟨Rank4, Hearts⟩, ⟨Rank5, Spades⟩, ⟨Rank6, Diamonds⟩,
        ⟨Rank7, Diamonds⟩], "", Straight, "", 0, Rank7, Diamonds⟩
      (by decide) (by decide) (by decide) (by decide)).1 (by decide)).2
      ⟨rfl, rfl, Or.inl ⟨rfl, rfl⟩⟩,
   (different_categories
      ⟨[⟨Rank4, Clubs⟩, ⟨Rank4, Hearts⟩], "", Pair, "", 0, Rank4, Hearts⟩
      ⟨[⟨King, Hearts⟩], "", Single, "", 0, King, Hearts⟩
      (by decide) (by decide) (by decide) (by decide)).2 (by decide)⟩

/-- C16: between two non-bomb hands of the same category and number of cards the candidate
wins exactly when its effective rank is higher, or the ranks are equal, the category is
Single, Pair, Straight or Flush, and its effective suit is higher. -/
theorem same_category (c t : PlayedHand)
    (hc : ¬ isBomb c) (hty : c.HandType = t.HandType)
    (hlen : c.Cards.length = t.Cards.length) :
    (BeatsLastHand c (some t) = true ↔
      (t.EffectiveRank < c.EffectiveRank ∨
        (c.EffectiveRank = t.EffectiveRank ∧
          (c.HandType = Single ∨ c.HandType = Pair ∨ c.HandType = Straight ∨
            c.HandType = Flush) ∧
          t.EffectiveSuit < c.EffectiveSuit))) ∧
    ((c.HandType = Triple ∨ c.HandType = FullHouse) → c.EffectiveRank = t.EffectiveRank →
      BeatsLastHand c (some t) = false) := by
  unfold isBomb at hc
  have ht : ¬ (t.HandType = FourOfAKindPlusOne ∨ t.HandType = StraightFlush) := hty ▸ hc
  have key : BeatsLastHand c (some t) = true ↔
      (t.EffectiveRank < c.EffectiveRank ∨
        (c.EffectiveRank = t.EffectiveRank ∧
          (c.HandType = Single ∨ c.HandType = Pair ∨ c.HandType = Straight ∨
            c.HandType = Flush) ∧
          t.EffectiveSuit < c.EffectiveSuit)) := by
    simp only [BeatsLastHand, hc, ht, decide_False, Bool.false_eq_true, if_false, hlen, hty,
      ne_eq, not_true_eq_false]
    dsimp only [HandType, Rank, Suit, InvalidHand, Single, Pair, Triple, Straight, Flush,
      FullHouse, FourOfAKindPlusOne, StraightFlush] at *
    split_ifs <;> simp only [decide_eq_true_eq, Bool.false_eq_true, false_iff, true_iff] <;>
      omega
  refine ⟨key, ?_⟩
  intro h3 hr
  rw [← Bool.not_eq_true, key]
  dsimp only [HandType, Rank, Suit, InvalidHand, Single, Pair, Triple, Straight, Flush,
    FullHouse, FourOfAKindPlusOne, StraightFlush] at *
  omega

/-- C16, at concrete inputs: the pair A♥ A♠ beats A♦ A♣; three Queens do not beat three
Queens. -/
theorem same_category_witness :
    BeatsLastHand ⟨[⟨Ace, Hearts⟩, ⟨Ace, Spades⟩], "", Pair, "", 0, Ace, Spades⟩
      (some ⟨[⟨Ace, Diamonds⟩, ⟨Ace, Clubs⟩], "", Pair, "", 0, Ace, Clubs⟩) = true ∧
    BeatsLastHand ⟨[⟨Queen, Diamonds⟩, ⟨Queen, Hearts⟩, ⟨Queen, Spades⟩], "", Triple, "", 0,
        Queen, -1⟩
      (some ⟨[⟨Queen, Diamonds⟩, ⟨Queen, Hearts⟩, ⟨Queen, Spades⟩], "", Triple, "", 0,
        Queen, -1⟩) = false :=
  ⟨(same_category ⟨[⟨Ace, Hearts⟩, ⟨Ace, Spades⟩], "", Pair, "", 0, Ace, Spades⟩
      ⟨[⟨Ace, Diamonds⟩, ⟨Ace, Clubs⟩], "", Pair, "", 0, Ace, Clubs⟩
      (by decide) rfl rfl).1.2 (Or.inr ⟨rfl, Or.inr (Or.inl rfl), by decide⟩),
   (same_category
      ⟨[⟨Queen, Diamonds⟩, ⟨Queen, Hearts⟩, ⟨Queen, Spades⟩], "", Triple, "", 0, Queen, -1⟩
      ⟨[⟨Queen, Diamonds⟩, ⟨Queen, Hearts⟩, ⟨Queen, Spades⟩], "", Triple, "", 0, Queen, -1⟩
      (by decide) rfl rfl).2 (Or.inl rfl) rfl⟩

/-- C17: of two hands of the same category and the same number of cards, bombs included,
the one of strictly higher effective rank beats the other and is not beaten by it. -/
theorem higher_rank_wins (A B : PlayedHand) (hty : A.HandType = B.HandType)
    (hlen : A.Cards.length = B.Cards.length) (hr : B.EffectiveRank < A.EffectiveRank) :
    BeatsLastHand A (some B) = true ∧ BeatsLastHand B (some A) = false := by
  have hr1 : ¬ A.EffectiveRank < B.EffectiveRank := by dsimp only [Rank] at *; omega
  have hr2 : ¬ B.EffectiveRank = A.EffectiveRank := by dsimp only [Rank] at *; omega
  have hsf : ∀ x : HandType, ¬ (x = StraightFlush ∧ x = FourOfAKindPlusOne) := by
    intro x; dsimp only [HandType, FourOfAKindPlusOne, StraightFlush]; omega
  have hfs : ∀ x : HandType, ¬ (x = FourOfAKindPlusOne ∧ x = StraightFlush) := by
    intro x; dsimp only [HandType, FourOfAKindPlusOne, StraightFlush]; omega
  constructor
  · by_cases hb : B.HandType = FourOfAKindPlusOne ∨ B.HandType = StraightFlush
    · simp [BeatsLastHand, hty, hb, hsf, hfs, hr]
    · simp [BeatsLastHand, hty, hb, hlen, hr]
  · by_cases hb : B.HandType = FourOfAKindPlusOne ∨ B.HandType = StraightFlush
    · simp [BeatsLastHand, hty, hb, hsf, hfs, hr1, hr2, GT.gt]
    · simp [BeatsLastHand, hty, hb, hlen, hr1, hr, GT.gt]

/-- C17, at concrete inputs: the single 4♣ against the single 3♦, both ways. -/
theorem higher_rank_wins_witness :
    BeatsLastHand ⟨[⟨Rank4, Clubs⟩], "", Single, "", 0, Rank4, Clubs⟩
      (some ⟨[⟨Rank3, Diamonds⟩], "", Single, "", 0, Rank3, Diamonds⟩) = true ∧
    BeatsLastHand ⟨[⟨Rank3, Diamonds⟩], "", Single, "", 0, Rank3, Diamonds⟩
      (some ⟨[⟨Rank4, Clubs⟩], "", Single, "", 0, Rank4, Clubs⟩) = false :=
  higher_rank_wins ⟨[⟨Rank4, Clubs⟩], "", Single, "", 0, Rank4, Clubs⟩
    ⟨[⟨Rank3, Diamonds⟩], "", Single, "", 0, Rank3, Diamonds⟩ rfl rfl (by decide)

/-- C18: with no hand on the table the candidate wins exactly when its category is not
InvalidHand, hence every hand returned by `DeterminePlayedHand` wins. -/
theorem empty_table (c : PlayedHand) :
    (BeatsLastHand c none = true ↔ c.HandType ≠ InvalidHand) ∧
    (∀ cards, DeterminePlayedHand cards = .ok c → BeatsLastHand c none = true) := by
  have key : BeatsLastHand c none = true ↔ c.HandType ≠ InvalidHand := by
    simp [BeatsLastHand]
  exact ⟨key, fun cards hh => key.2 (valid_ne_invalid (determinePlayedHand_ok hh).2)⟩

/-- C18, at a concrete input: the single 3♦ opens a trick. -/
theorem empty_table_witness :
    BeatsLastHand ⟨[⟨Rank3, Diamonds⟩], "", Single, "", 0, Rank3, Diamonds⟩ none = true :=
  (empty_table ⟨[⟨Rank3, Diamonds⟩], "", Single, "", 0, Rank3, Diamonds⟩).2
    [⟨Rank3, Diamonds⟩] rfl

/-- C19, as stated, fails: an InvalidHand candidate of effective rank 5 beats a table hand
that is itself an InvalidHand of effective rank 3 with the same number of cards. -/
theorem invalid_beats_invalid :
    BeatsLastHand ⟨[⟨Rank5, Diamonds⟩], "", InvalidHand, "", 0, Rank5, Diamonds⟩
      (some ⟨[⟨Rank3, Diamonds⟩], "", InvalidHand, "", 0, Rank3, Diamonds⟩) = true := rfl

/-- C19, amended: a candidate whose category is InvalidHand loses against an empty table
and against every table hand whose category is above InvalidHand, in particular against
every hand of one of the eight categories of a legal play. -/
theorem invalid_candidate_loses (c : PlayedHand) (hc : c.HandType = InvalidHand) :
    BeatsLastHand c none = false ∧
    (∀ t : PlayedHand, InvalidHand < t.HandType → BeatsLastHand c (some t) = false) := by
  constructor
  · simp [BeatsLastHand, hc]
  · intro t ht
    have h1 : ¬ (InvalidHand = FourOfAKindPlusOne ∨ InvalidHand = StraightFlush) := by decide
    have h2 : InvalidHand ≠ t.HandType := by
      dsimp only [HandType, InvalidHand] at *; omega
    have h3 : ¬ (InvalidHand > t.HandType) := by
      dsimp only [HandType, InvalidHand] at *; omega
    simp only [BeatsLastHand, hc, h1, decide_False, Bool.false_eq_true, if_false, h2, ne_eq,
      not_false_eq_true, if_true, h3]
    split_ifs <;> rfl

/-- C19, amended, at concrete inputs: an InvalidHand 5♦ loses to the empty table and to the
single 3♦. -/
theorem invalid_candidate_loses_witness :
    BeatsLastHand ⟨[⟨Rank5, Diamonds⟩], "", InvalidHand, "", 0, Rank5, Diamonds⟩ none = false ∧
    BeatsLastHand ⟨[⟨Rank5, Diamonds⟩], "", InvalidHand, "", 0, Rank5, Diamonds⟩
      (some ⟨[⟨Rank3, Diamonds⟩], "", Single, "", 0, Rank3, Diamonds⟩) = false :=
  ⟨(invalid_candidate_loses ⟨[⟨Rank5, Diamonds⟩], "", InvalidHand, "", 0, Rank5, Diamonds⟩
      rfl).1,
   (invalid_candidate_loses ⟨[⟨Rank5, Diamonds⟩], "", InvalidHand, "", 0, Rank5, Diamonds⟩
      rfl).2 ⟨[⟨Rank3, Diamonds⟩], "", Single, "", 0, Rank3, Diamonds⟩ (by decide)⟩

/-! ## The scorer -/

/-- C20: for a game with a non-empty `WinnerID` and players of distinct IDs,
`CalculateScores` returns one entry per player, keyed by the player IDs: 0 for the winner,
and for another player holding n cards n if n < 10, 2n if 10 ≤ n ≤ 12, 39 if n = 13. -/
theorem calculateScores_spec (game : GameState) (hw : game.WinnerID ≠ "")
    (hid : (game.Players.map Player.ID).Nodup) :
    (CalculateScores game).length = game.Players.length ∧
    (CalculateScores game).map Prod.fst = game.Players.map Player.ID ∧
    (∀ p ∈ game.Players, p.ID = game.WinnerID →
      mapGet (CalculateScores game) p.ID = some 0) ∧
    (∀ p ∈ game.Players, p.ID ≠ game.WinnerID →
      (p.Hand.length < 10 →
        mapGet (CalculateScores game) p.ID = some (p.Hand.length : Int)) ∧
      (10 ≤ p.Hand.length → p.Hand.length ≤ 12 →
        mapGet (CalculateScores game) p.ID = some (2 * (p.Hand.length : Int))) ∧
      (p.Hand.length = 13 → mapGet (CalculateScores game) p.ID = some 39)) := by
  rw [calculateScores_eq_map game hw hid]
  refine ⟨by simp, by simp [Function.comp_def], ?_, ?_⟩
  · intro p hp hwin
    rw [mapGet_map_of_nodup _ _ hid p hp]
    simp [playerScore, hwin]
  · intro p hp hne
    rw [mapGet_map_of_nodup _ _ hid p hp]
    simp only [playerScore, hne, if_false, Option.some.injEq]
    refine ⟨fun h => ?_, fun h1 h2 => ?_, fun h => ?_⟩
    · split_ifs <;> omega
    · split_ifs <;> omega
    · split_ifs <;> omega

/-- C20, at a concrete input: the winner scores 0, 13 cards score 39, 11 cards 22 and
5 cards 5. -/
theorem calculateScores_spec_witness :
    mapGet (CalculateScores roundEndExample) "player1" = some 0 ∧
    mapGet (CalculateScores roundEndExample) "player2" = some 39 ∧
    mapGet (CalculateScores roundEndExample) "player3" = some 22 ∧
    mapGet (CalculateScores roundEndExample) "player4" = some 5 :=
  have H := calculateScores_spec roundEndExample (by decide) (by decide)
  ⟨H.2.2.1 ⟨"player1", "Ann", [], true, 0, 0, false⟩ (by decide) rfl,
   (H.2.2.2 ⟨"player2", "Bob", List.replicate 13 ⟨Rank3, Diamonds⟩, true, 0, 1, false⟩
      (by decide) (by decide)).2.2 rfl,
   (H.2.2.2 ⟨"player3", "Cid", List.replicate 11 ⟨Rank3, Diamonds⟩, true, 0, 2, false⟩
      (by decide) (by decide)).2.1 (by decide) (by decide),
   (H.2.2.2 ⟨"player4", "Dee", List.replicate 5 ⟨Rank3, Diamonds⟩, true, 0, 3, false⟩
      (by decide) (by decide)).1 (by decide)⟩

/-! ## The handlers -/

/-- C21, as stated, fails: in a match of two players the loser who still holds the 26 cards
dealt is scored 26, not 78. -/
theorem full_hand_of_26_not_tripled :
    twoPlayerExample.Players.length = 2 ∧
    mapGet (CalculateScores twoPlayerExample) "player2" = some 26 := by
  decide

/-- C21, amended: whatever the number of players, a non-winning player who holds exactly 13
cards at round end is scored 39, and one who holds more than 13 cards (such as the full
hand of 26 in a deal to two players) is scored the number of cards held. -/
theorem full_hand_score (game : GameState) (hw : game.WinnerID ≠ "")
    (hid : (game.Players.map Player.ID).Nodup) (p : Player) (hp : p ∈ game.Players)
    (hne : p.ID ≠ game.WinnerID) :
    (p.Hand.length = 13 → mapGet (CalculateScores game) p.ID = some 39) ∧
    (13 < p.Hand.length →
      mapGet (CalculateScores game) p.ID = some (p.Hand.length : Int)) := by
  rw [calculateScores_eq_map game hw hid, mapGet_map_of_nodup _ _ hid p hp]
  simp only [playerScore, hne, if_false, Option.some.injEq]
  constructor
  · intro h; split_ifs <;> omega
  · intro h; split_ifs <;> omega

/-- C21, amended, at a concrete input: 26 cards held against one opponent score 26. -/
theorem full_hand_score_witness :
    mapGet (CalculateScores twoPlayerExample) "player2" = some 26 :=
  (full_hand_score twoPlayerExample (by decide) (by decide)
    ⟨"player2", "P2", List.replicate 26 ⟨Rank4, Diamonds⟩, true, 0, 1, false⟩
    (by decide) (by decide)).2 (by decide)

/-- C22, as stated, fails: in `overflowExample` the match total of `player4` is the largest
64-bit integer; `player3` plays its last card, the play is accepted, `player4` holds two
cards and has the round score 2, and its match total afterwards is not the old total plus
2 but the sum wrapped around, a negative number. -/
theorem total_wraps_around :
    (processPlayCardsAction overflowExample 2 (some [⟨Rank7, Hearts⟩])).2.2 = true ∧
    (processPlayCardsAction overflowExample 2 (some [⟨Rank7, Hearts⟩])).1.Players[2]? =
      some ⟨"player3", "Cid", [], true, 0, 2, false⟩ ∧
    matchTotal overflowExample
      ⟨"player4", "Dee", [⟨Rank8, Spades⟩, ⟨Two, Spades⟩], true, 0, 3, false⟩ =
        9223372036854775807 ∧
    mapGetD (CalculateScores
      (processPlayCardsAction overflowExample 2 (some [⟨Rank7, Hearts⟩])).1) "player4" = 2 ∧
    matchTotal (processPlayCardsAction overflowExample 2 (some [⟨Rank7, Hearts⟩])).1
      ⟨"player4", "Dee", [⟨Rank8, Spades⟩, ⟨Two, Spades⟩], true, 0, 3, false⟩ =
        -9223372036854775807 := by
  refine ⟨?_, ?_, ?_, ?_, ?_⟩ <;> rfl

/-- C22, amended: after an accepted play that empties the hand of the actor, with distinct
player IDs and provided that for every player the old match total plus the round score lies
in the range of a 64-bit integer: the match total of every player is the old total plus the
round score of that player; if some total has reached the target score, the match is over
and the overall winner is the first player in player order whose total is minimal (strictly
less than the total of every player before, at most the total of every player after); if no
total has reached the target, the match flag and the overall winner are unchanged. -/
theorem match_totals_after_round (game : GameState) (actor : Nat) (msg : Option Deck)
    (q : Player)
    (hacc : (processPlayCardsAction game actor msg).2.2 = true)
    (hq : (processPlayCardsAction game actor msg).1.Players[actor]? = some q)
    (hempty : q.Hand = [])
    (hnd : (game.Players.map Player.ID).Nodup)
    (hb : ∀ r ∈ (processPlayCardsAction game actor msg).1.Players,
      -9223372036854775808 ≤ matchTotal game r +
        mapGetD (CalculateScores (processPlayCardsAction game actor msg).1) r.ID ∧
      matchTotal game r +
        mapGetD (CalculateScores (processPlayCardsAction game actor msg).1) r.ID ≤
          9223372036854775807) :
    (∀ r ∈ (processPlayCardsAction game actor msg).1.Players,
      matchTotal (processPlayCardsAction game actor msg).1 r =
        matchTotal game r +
          mapGetD (CalculateScores (processPlayCardsAction game actor msg).1) r.ID) ∧
    ((∃ r ∈ (processPlayCardsAction game actor msg).1.Players,
        (processPlayCardsAction game actor msg).1.TargetScore ≤
          matchTotal (processPlayCardsAction game actor msg).1 r) →
      (processPlayCardsAction game actor msg).1.IsMatchOver = true ∧
      ∃ w pre post, (processPlayCardsAction game actor msg).1.Players = pre ++ w :: post ∧
        (processPlayCardsAction game actor msg).1.OverallWinnerID = w.ID ∧
        (∀ r ∈ pre, matchTotal (processPlayCardsAction game actor msg).1 w <
          matchTotal (processPlayCardsAction game actor msg).1 r) ∧
        (∀ r ∈ post, matchTotal (processPlayCardsAction game actor msg).1 w ≤
          matchTotal (processPlayCardsAction game actor msg).1 r)) ∧
    ((¬ ∃ r ∈ (processPlayCardsAction game actor msg).1.Players,
        (processPlayCardsAction game actor msg).1.TargetScore ≤
          matchTotal (processPlayCardsAction game actor msg).1 r) →
      (processPlayCardsAction game actor msg).1.IsMatchOver = game.IsMatchOver ∧
      (processPlayCardsAction game actor msg).1.OverallWinnerID = game.OverallWinnerID) := by
  obtain ⟨p, gm, hp, hid, hres, g1, _, g3, g4, g5, g6, _⟩ :=
    play_emptied game actor msg q hacc hq hempty
  rw [hres] at hb ⊢
  obtain ⟨f1, _, _, _, _, f6, _, f8, _⟩ := endRound_fields gm q
  obtain ⟨m1, m2, m3⟩ := endRound_match gm q
  have hcs : CalculateScores (endRound gm q) =
      CalculateScores { gm with IsGameOver := true, WinnerID := q.ID } :=
    calculateScores_congr _ _ f1 f6
  have hnd' : (gm.Players.map Player.ID).Nodup := by
    rw [g1, map_ID_set q hp hid]; exact hnd
  simp only [matchTotal] at hb
  rw [f1, hcs, ← g3] at hb
  obtain ⟨u1, u2⟩ := updateMatchScores_spec gm.TargetScore
    (CalculateScores { gm with IsGameOver := true, WinnerID := q.ID })
    gm.Players gm.Scores hnd' (fun r hr => ⟨(hb r hr).1, by have := (hb r hr).2; omega⟩)
  simp only [matchTotal]
  rw [f1, f8, hcs, m1, ← g3, ← g5, ← g6]
  refine ⟨u1, ?_, ?_⟩
  · intro hreach
    have hb := u2.2 hreach
    obtain ⟨e1, e2⟩ := m3 hb
    have hne : gm.Players ≠ [] := by
      intro h
      have hl := congrArg List.length h
      rw [g1, List.length_set, List.length_nil] at hl
      have hlt : actor < game.Players.length := (List.getElem?_eq_some_iff.1 hp).1
      omega
    obtain ⟨w, pre, post, hw, hdec, hpre, hpost⟩ := findOverallWinner_spec
      (updateMatchScores gm.TargetScore
        (CalculateScores { gm with IsGameOver := true, WinnerID := q.ID })
        gm.Players gm.Scores).1 gm.Players hne
    refine ⟨e1, w, pre, post, hdec, ?_, hpre, hpost⟩
    apply e2
    rw [m1]
    exact hw
  · intro hreach
    have hb : (updateMatchScores gm.TargetScore
        (CalculateScores { gm with IsGameOver := true, WinnerID := q.ID })
        gm.Players gm.Scores).2 = false := by
      rw [← Bool.not_eq_true, u2]
      exact hreach
    exact m2 hb

/-- C22, amended, at a concrete input: `player3` plays its last card; `player4`, with two
cards left, goes from 40 to 42, and the match goes on. -/
theorem match_totals_after_round_witness :
    matchTotal (processPlayCardsAction lastCardExample 2 (some [⟨Rank7, Hearts⟩])).1
        ⟨"player4", "Dee", [⟨Rank8, Spades⟩, ⟨Two, Spades⟩], true, 0, 3, false⟩ =
      matchTotal lastCardExample
        ⟨"player4", "Dee", [⟨Rank8, Spades⟩, ⟨Two, Spades⟩], true, 0, 3, false⟩ +
      mapGetD (CalculateScores
        (processPlayCardsAction lastCardExample 2 (some [⟨Rank7, Hearts⟩])).1) "player4" :=
  (match_totals_after_round lastCardExample 2 (some [⟨Rank7, Hearts⟩])
    ⟨"player3", "Cid", [], true, 0, 2, false⟩ rfl rfl rfl (by decide) (by decide)).1
    ⟨"player4", "Dee", [⟨Rank8, Spades⟩, ⟨Two, Spades⟩], true, 0, 3, false⟩ (by decide)

/-- C23: a play is rejected, with the game unchanged and no broadcast, when the round is
over, when the actor is not the player at the turn index, when the requested cards are not
a sub-multiset of the actor's hand, when their classification fails, and when the
classified hand does not beat the standing hand. -/
theorem play_rejected (game : GameState) (actor : Nat) (p : Player)
    (hp : game.Players[actor]? = some p) :
    (game.IsGameOver = true →
      ∀ msg, processPlayCardsAction game actor msg = (game, true, false)) ∧
    ((actor : Int) ≠ game.CurrentTurnPlayerIndex →
      ∀ msg, processPlayCardsAction game actor msg = (game, true, false)) ∧
    (∀ data : Deck, ¬ data.Subperm p.Hand →
      processPlayCardsAction game actor (some data) = (game, true, false)) ∧
    (∀ data : Deck, isError (DeterminePlayedHand (Deck.Sort data)) = true →
      processPlayCardsAction game actor (some data) = (game, true, false)) ∧
    (∀ (data : Deck) (hand : PlayedHand), DeterminePlayedHand (Deck.Sort data) = .ok hand →
      BeatsLastHand hand game.LastPlayedHand = false →
      processPlayCardsAction game actor (some data) = (game, true, false)) := by
  refine ⟨?_, ?_, ?_, ?_, ?_⟩
  · intro hgo msg
    rcases play_cases game actor msg with h | ⟨_, _, _, _, hgo', _⟩
    · exact h
    · rw [hgo] at hgo'; cases hgo'
  · intro hturn msg
    rcases play_cases game actor msg with h | ⟨_, _, _, _, _, hturn', _⟩
    · exact h
    · exact absurd hturn' hturn
  · intro data hsub
    rcases play_cases game actor (some data) with h | ⟨q, d, _, hq, _, _, hmsg, hcan, _⟩
    · exact h
    · rw [hp] at hq
      cases hq; cases hmsg
      exact absurd ((subperm_sort_iff _ _).1 ((canPlayCards_iff _ _).1 hcan)) hsub
  · intro data herr
    rcases play_cases game actor (some data) with h | ⟨_, d, _, _, _, _, hmsg, _, hd, _⟩
    · exact h
    · cases hmsg
      rw [hd] at herr
      cases herr
  · intro data hand hd hb
    rcases play_cases game actor (some data) with h | ⟨_, d, hand', _, _, _, hmsg, _, hd', hb', _⟩
    · exact h
    · cases hmsg
      rw [hd] at hd'
      cases hd'
      rw [hb] at hb'
      cases hb'

/-- C23, at a concrete input: once the round is over a play changes nothing. -/
theorem play_rejected_witness :
    processPlayCardsAction roundEndExample 0 (some [⟨Rank3, Diamonds⟩]) =
      (roundEndExample, true, false) :=
  (play_rejected roundEndExample 0 ⟨"player1", "Ann", [], true, 0, 0, false⟩ rfl).1 rfl _

/-- C24: when a play is accepted and the actor `q` still holds a card afterwards, the hand
of the actor together with the cards played is the old hand as a multiset, the standing
hand is the classified hand played, the pass counter is 0, the pass flag of the actor is
cleared, the turn index is the old one plus 1 modulo the number of players, the pass flag
of the player now at the turn index is cleared, the hand of every other player is
unchanged, and the round and match flags, the winners, the scores and the history are
unchanged. -/
theorem play_continues (game : GameState) (actor : Nat) (msg : Option Deck) (q : Player)
    (hacc : (processPlayCardsAction game actor msg).2.2 = true)
    (hq : (processPlayCardsAction game actor msg).1.Players[actor]? = some q)
    (hleft : q.Hand ≠ []) :
    ∃ p data hand, game.Players[actor]? = some p ∧ msg = some data ∧
      DeterminePlayedHand (Deck.Sort data) = .ok hand ∧
      (q.Hand ++ data).Perm p.Hand ∧
      (processPlayCardsAction game actor msg).1.LastPlayedHand = some (stampHand hand p) ∧
      (processPlayCardsAction game actor msg).1.PassCount = 0 ∧
      q.HasPassed = false ∧
      (processPlayCardsAction game actor msg).1.CurrentTurnPlayerIndex =
        (game.CurrentTurnPlayerIndex + 1) % (game.Players.length : Int) ∧
      (∀ r, (processPlayCardsAction game actor msg).1.Players[
          (processPlayCardsAction game actor msg).1.CurrentTurnPlayerIndex.toNat]? = some r →
        r.HasPassed = false) ∧
      (processPlayCardsAction game actor msg).1.Players.length = game.Players.length ∧
      (∀ j, j ≠ actor →
        ((processPlayCardsAction game actor msg).1.Players[j]?).map Player.Hand =
          (game.Players[j]?).map Player.Hand) ∧
      (processPlayCardsAction game actor msg).1.IsGameOver = game.IsGameOver ∧
      (processPlayCardsAction game actor msg).1.IsMatchOver = game.IsMatchOver ∧
      (processPlayCardsAction game actor msg).1.WinnerID = game.WinnerID ∧
      (processPlayCardsAction game actor msg).1.OverallWinnerID = game.OverallWinnerID ∧
      (processPlayCardsAction game actor msg).1.Scores = game.Scores ∧
      (processPlayCardsAction game actor msg).1.RoundScoresHistory =
        game.RoundScoresHistory := by
  obtain ⟨p, data, hand, hp, hgo, hturn, hmsg, hsub, hd, hb, hperm, hid, hres⟩ :=
    play_accepted game actor msg hacc
  rw [hres] at hq ⊢
  rw [acceptPlay_eq] at hq ⊢
  have hlt : actor < game.Players.length := (List.getElem?_eq_some_iff.1 hp).1
  have hset : (game.Players.set actor
      { (p.RemoveCards (Deck.Sort data)).1 with HasPassed := false })[actor]? =
      some { (p.RemoveCards (Deck.Sort data)).1 with HasPassed := false } :=
    getElem?_set_self_of_some _ hp
  by_cases hz : (p.RemoveCards (Deck.Sort data)).1.Hand.length = 0
  · rw [if_pos hz] at hq
    rw [(endRound_fields _ _).1] at hq
    dsimp only at hq
    rw [hset] at hq
    cases hq
    exact absurd (List.length_eq_zero.1 hz) hleft
  · rw [if_neg hz] at hq ⊢
    have F := advanceTurn_fields { game with
      Players := game.Players.set actor
        { (p.RemoveCards (Deck.Sort data)).1 with HasPassed := false },
      LastPlayedHand := some (stampHand hand p), PassCount := 0 }
    have P := advanceTurn_players { game with
      Players := game.Players.set actor
        { (p.RemoveCards (Deck.Sort data)).1 with HasPassed := false },
      LastPlayedHand := some (stampHand hand p), PassCount := 0 }
    dsimp only at F P
    rw [List.length_set] at F P
    obtain ⟨f1, f2, f3, f4, f5, f6, f7, _, _, f10, f11, f12⟩ := F
    have h0 : 0 ≤ game.CurrentTurnPlayerIndex := by omega
    have h1 : game.CurrentTurnPlayerIndex < (game.Players.length : Int) := by omega
    have hr := tmod_succ_range _ _ h0 h1
    rw [if_pos ⟨hr.2, hr.1⟩] at P
    have hmod : (game.CurrentTurnPlayerIndex + 1).tmod (game.Players.length : Int) =
        (game.CurrentTurnPlayerIndex + 1) % (game.Players.length : Int) :=
      Int.tmod_eq_emod (by omega) (by omega)
    rw [P, updatePlayer_getElem?] at hq
    have hqh : q.Hand = (p.RemoveCards (Deck.Sort data)).1.Hand ∧ q.HasPassed = false := by
      rw [hset] at hq
      split at hq <;> · cases hq; exact ⟨rfl, rfl⟩
    refine ⟨p, data, hand, hp, hmsg, hd, by rw [hqh.1]; exact hperm, f3, f4, hqh.2,
      by rw [f2, hmod], ?_, f1, ?_, f5, f10, f6, f11, f7, f12⟩
    · intro r hr'
      rw [f2, P, updatePlayer_getElem?, if_pos rfl] at hr'
      cases hx : (game.Players.set actor
          { (p.RemoveCards (Deck.Sort data)).1 with HasPassed := false })[
          ((game.CurrentTurnPlayerIndex + 1).tmod (game.Players.length : Int)).toNat]? with
      | none => rw [hx] at hr'; cases hr'
      | some x => rw [hx] at hr'; cases hr'; rfl
    · intro j hj
      rw [P, updatePlayer_getElem?, List.getElem?_set_ne (Ne.symm hj)]
      split
      · cases game.Players[j]? <;> rfl
      · rfl

/-- C24, at a concrete input: `player1` plays the 3 of Diamonds and keeps the 5 of Clubs;
the turn goes to `player2`. -/
theorem play_continues_witness :
    (processPlayCardsAction trickExample 0 (some [⟨Rank3, Diamonds⟩])).1.PassCount = 0 ∧
    (processPlayCardsAction trickExample 0
      (some [⟨Rank3, Diamonds⟩])).1.CurrentTurnPlayerIndex = 1 :=
  match play_continues trickExample 0 (some [⟨Rank3, Diamonds⟩])
    ⟨"player1", "Ann", [⟨Rank5, Clubs⟩], true, 0, 0, false⟩ rfl rfl (by decide) with
  | ⟨_, _, _, H⟩ => ⟨H.2.2.2.2.2.1, H.2.2.2.2.2.2.2.1.trans (by decide)⟩

/-- C25: when an accepted play empties the hand of the actor `q`, the round is over, the
winner is the actor, the turn index is not advanced, the map of `CalculateScores` is
appended as the last entry of the history of round scores, the actor scores 0 in that map
(the IDs of the players being distinct and the one of the actor not empty), and no other
player changes. -/
theorem play_ends_round (game : GameState) (actor : Nat) (msg : Option Deck) (q : Player)
    (hacc : (processPlayCardsAction game actor msg).2.2 = true)
    (hq : (processPlayCardsAction game actor msg).1.Players[actor]? = some q)
    (hempty : q.Hand = []) :
    (processPlayCardsAction game actor msg).1.IsGameOver = true ∧
    (processPlayCardsAction game actor msg).1.WinnerID = q.ID ∧
    (∃ p, game.Players[actor]? = some p ∧ p.ID = q.ID) ∧
    (processPlayCardsAction game actor msg).1.CurrentTurnPlayerIndex =
      game.CurrentTurnPlayerIndex ∧
    (processPlayCardsAction game actor msg).1.RoundScoresHistory =
      game.RoundScoresHistory ++
        [CalculateScores (processPlayCardsAction game actor msg).1] ∧
    (q.ID ≠ "" → ((processPlayCardsAction game actor msg).1.Players.map Player.ID).Nodup →
      mapGet (CalculateScores (processPlayCardsAction game actor msg).1) q.ID = some 0) ∧
    (∀ j, j ≠ actor →
      (processPlayCardsAction game actor msg).1.Players[j]? = game.Players[j]?) := by
  obtain ⟨p, gm, hp, hid, hres, g1, g2, _, _, _, _, g7⟩ :=
    play_emptied game actor msg q hacc hq hempty
  have hq' := hq
  rw [hres] at hq' ⊢
  obtain ⟨f1, f2, _, _, f5, f6, _, _, f9⟩ := endRound_fields gm q
  have hcs : CalculateScores (endRound gm q) =
      CalculateScores { gm with IsGameOver := true, WinnerID := q.ID } :=
    calculateScores_congr _ _ f1 f6
  refine ⟨f5, f6, ⟨p, hp, hid.symm⟩, by rw [f2, g2], by rw [f9, hcs, g7], ?_, ?_⟩
  · intro hne hnd
    refine calculateScores_winner _ (by rw [f6]; exact hne) hnd q ?_ (by rw [f6])
    exact List.getElem?_mem hq'
  · intro j hj
    rw [f1, g1]
    exact List.getElem?_set_ne (Ne.symm hj)

/-- C25, at a concrete input: `player3` plays its last card, the 7 of Hearts. -/
theorem play_ends_round_witness :
    (processPlayCardsAction lastCardExample 2 (some [⟨Rank7, Hearts⟩])).1.IsGameOver = true ∧
    (processPlayCardsAction lastCardExample 2 (some [⟨Rank7, Hearts⟩])).1.WinnerID =
      "player3" :=
  have H := play_ends_round lastCardExample 2 (some [⟨Rank7, Hearts⟩])
    ⟨"player3", "Cid", [], true, 0, 2, false⟩ rfl rfl rfl
  ⟨H.1, H.2.1⟩

/-- C26: in a reachable state a pass is rejected, with the state unchanged and no
broadcast, exactly when the round is over, or the actor is not the player at the turn
index, or no hand stands; in every other case it is accepted. -/
theorem pass_rejected_iff (game : GameState) (actor : Nat) (hr : Reachable game)
    (hactor : actor < game.Players.length) :
    (processPassTurnAction game actor = (game, true, false) ↔
      (game.IsGameOver = true ∨ (actor : Int) ≠ game.CurrentTurnPlayerIndex ∨
        game.LastPlayedHand = none)) ∧
    (¬ (game.IsGameOver = true ∨ (actor : Int) ≠ game.CurrentTurnPlayerIndex ∨
        game.LastPlayedHand = none) →
      (processPassTurnAction game actor).2 = (false, true)) := by
  have hinv := reachable_inv hr
  have hpc : game.LastPlayedHand = none → game.PassCount = 0 := hinv.2.2.2.2.2.1
  have key : (game.IsGameOver = true ∨ (actor : Int) ≠ game.CurrentTurnPlayerIndex ∨
        game.LastPlayedHand = none) →
      processPassTurnAction game actor = (game, true, false) := by
    intro hc
    rcases pass_cases game actor with h | ⟨p, _, hgo, hturn, hlead, _⟩
    · exact h
    · rcases hc with hc | hc | hc
      · rw [hgo] at hc; cases hc
      · exact absurd hturn hc
      · exact absurd ⟨hc, hpc hc⟩ hlead
  have acc : ¬ (game.IsGameOver = true ∨ (actor : Int) ≠ game.CurrentTurnPlayerIndex ∨
        game.LastPlayedHand = none) →
      (processPassTurnAction game actor).2 = (false, true) := by
    intro hc
    push_neg at hc
    obtain ⟨hgo, hturn, hl⟩ := hc
    have hp : game.Players[actor]? = some (game.Players[actor]) :=
      List.getElem?_eq_getElem hactor
    unfold processPassTurnAction
    rw [hp]
    simp [hgo, hturn, hl]
  refine ⟨⟨fun h => ?_, key⟩, acc⟩
  by_contra hc
  have := acc hc
  rw [h] at this
  cases this

/-- C26, at a concrete input: right after the deal nobody can pass. -/
theorem pass_rejected_iff_witness :
    processPassTurnAction (initialGameState 4 NewDeck) 0 =
      (initialGameState 4 NewDeck, true, false) :=
  ((pass_rejected_iff (initialGameState 4 NewDeck) 0
    (Reachable.init 4 NewDeck (by decide) (List.Perm.refl _))
    (by decide)).1).2
    (Or.inr (Or.inr rfl))

/-- C27: among `n ≥ 2` players, start from the state `g` right after an accepted play by
the player at index `p` that did not end the round.  Each of the next `n - 1` passes by the
player whose turn it is is accepted, and after fewer than `n - 1` of them the hand played
still stands; after `n - 1` of them no hand stands, the pass counter is 0, every pass flag
is cleared and the turn index is `p` again. -/
theorem trick_won_by_passes (game g : GameState) (p : Nat) (msg : Option Deck)
    (hn : 2 ≤ game.Players.length)
    (hacc : (processPlayCardsAction game p msg).2.2 = true)
    (hg : g = (processPlayCardsAction game p msg).1)
    (hno : g.IsGameOver = false) :
    g.LastPlayedHand ≠ none ∧
    (∀ k, k < game.Players.length - 1 →
      (processPassTurnAction (passes k g) (passes k g).CurrentTurnPlayerIndex.toNat).2.2 = true ∧
      (passes k g).LastPlayedHand = g.LastPlayedHand) ∧
    (passes (game.Players.length - 1) g).LastPlayedHand = none ∧
    (passes (game.Players.length - 1) g).PassCount = 0 ∧
    (∀ r ∈ (passes (game.Players.length - 1) g).Players, r.HasPassed = false) ∧
    (passes (game.Players.length - 1) g).CurrentTurnPlayerIndex = (p : Int) := by
  subst hg
  obtain ⟨hp, ⟨h, a1⟩, a2, a3, a4⟩ := play_advanced game p msg hacc hno
  have hpos : (0 : Int) < (game.Players.length : Int) := by omega
  have h0 : 0 ≤ (processPlayCardsAction game p msg).1.CurrentTurnPlayerIndex := by
    rw [a4]; exact Int.emod_nonneg _ (by omega)
  have h1 : (processPlayCardsAction game p msg).1.CurrentTurnPlayerIndex <
      ((processPlayCardsAction game p msg).1.Players.length : Int) := by
    rw [a4, a3]; exact Int.emod_lt_of_pos _ hpos
  refine ⟨(by rw [a1]; intro hc; cases hc), ?_, ?_⟩
  · intro k hk
    have hk' : (k : Int) + 1 < ((processPlayCardsAction game p msg).1.Players.length : Int) := by
      rw [a3]; omega
    refine ⟨?_, ?_⟩
    · rw [passes_accepted _ h h0 h1 hno a1 a2 k hk']
    · rw [(passes_before_reset _ h h0 h1 hno a1 a2 k hk').2.2.1, a1]
  · have R := passes_reset _ h (by rw [a3]; exact hn) h0 h1 hno a1 a2
    rw [a3] at R
    obtain ⟨r1, r2, r3, r4⟩ := R
    refine ⟨r1, r2, r3, ?_⟩
    rw [r4, a4, Int.emod_add_emod]
    have e : (p : Int) + 1 + ((game.Players.length : Int) - 1) =
        (p : Int) + (game.Players.length : Int) := by omega
    rw [e, Int.add_emod_self, Int.emod_eq_of_lt (by omega) (by omega)]

/-- C27, at a concrete input: `player1` plays the 3 of Diamonds and the three others pass. -/
theorem trick_won_by_passes_witness :
    (passes 3 (processPlayCardsAction trickExample 0
      (some [⟨Rank3, Diamonds⟩])).1).LastPlayedHand = none ∧
    (passes 3 (processPlayCardsAction trickExample 0
      (some [⟨Rank3, Diamonds⟩])).1).CurrentTurnPlayerIndex = 0 :=
  have H := trick_won_by_passes trickExample _ 0 (some [⟨Rank3, Diamonds⟩])
    (by decide) rfl rfl rfl
  ⟨H.2.2.1, H.2.2.2.2.2⟩

/-- C28: in every reachable state the pass counter lies between 0 and the number of players
minus one and the turn index is a valid index into the players; an accepted pass that
brings the counter to the number of players minus one resets it to 0 and clears the
standing hand. -/
theorem turn_state_bounds (game : GameState) (hr : Reachable game) :
    (0 ≤ game.PassCount ∧ game.PassCount ≤ (game.Players.length : Int) - 1 ∧
      0 ≤ game.CurrentTurnPlayerIndex ∧
      game.CurrentTurnPlayerIndex < (game.Players.length : Int)) ∧
    (∀ actor, (processPassTurnAction game actor).2.2 = true →
      game.PassCount + 1 ≥ (game.Players.length : Int) - 1 →
      (processPassTurnAction game actor).1.PassCount = 0 ∧
      (processPassTurnAction game actor).1.LastPlayedHand = none) := by
  obtain ⟨_, h2, h3, h4, h5, _, _⟩ := reachable_inv hr
  refine ⟨⟨h4, h5, h2, h3⟩, ?_⟩
  intro actor hacc hge
  rcases pass_cases game actor with h | ⟨p, _, _, _, _, hres⟩
  · rw [h] at hacc; cases hacc
  · obtain ⟨_, _, f3, f4, _, _⟩ := acceptPass_fields game actor p
    rw [hres]
    dsimp only
    rw [f3, f4, if_pos hge, if_pos hge]
    exact ⟨rfl, rfl⟩

/-- C28, at a concrete input: the state right after the deal of `NewDeck` to four players. -/
theorem turn_state_bounds_witness :
    0 ≤ (initialGameState 4 NewDeck).PassCount ∧
    (initialGameState 4 NewDeck).PassCount ≤
      ((initialGameState 4 NewDeck).Players.length : Int) - 1 ∧
    0 ≤ (initialGameState 4 NewDeck).CurrentTurnPlayerIndex ∧
    (initialGameState 4 NewDeck).CurrentTurnPlayerIndex <
      ((initialGameState 4 NewDeck).Players.length : Int) :=
  (turn_state_bounds (initialGameState 4 NewDeck)
    (Reachable.init 4 NewDeck (by decide) (List.Perm.refl _))).1

/-- C29: in every reachable state a finished match is a finished round, so that every play
and every pass is rejected once the match is over. -/
theorem matchOver_gameOver (game : GameState) (hr : Reachable game) :
    (game.IsMatchOver = true → game.IsGameOver = true) ∧
    (game.IsMatchOver = true → ∀ actor msg,
      processPlayCardsAction game actor msg = (game, true, false) ∧
      processPassTurnAction game actor = (game, true, false)) := by
  have h7 : game.IsMatchOver = true → game.IsGameOver = true := (reachable_inv hr).2.2.2.2.2.2
  refine ⟨h7, fun hm actor msg => ⟨?_, ?_⟩⟩
  · rcases play_cases game actor msg with h | ⟨_, _, _, _, hgo, _⟩
    · exact h
    · rw [h7 hm] at hgo; cases hgo
  · rcases pass_cases game actor with h | ⟨_, _, hgo, _⟩
    · exact h
    · rw [h7 hm] at hgo; cases hgo

/-- C29, at a concrete input: `matchOverExample`, the state after three rounds from the deal
of `NewDeck` to four players, in which the match is over: the round is over too, and a play
and a pass of the first player are rejected. -/
theorem matchOver_gameOver_witness :
    matchOverExample.IsMatchOver = true ∧ matchOverExample.IsGameOver = true ∧
    processPlayCardsAction matchOverExample 0 (some [⟨Rank3, Diamonds⟩]) =
      (matchOverExample, true, false) ∧
    processPassTurnAction matchOverExample 0 = (matchOverExample, true, false) :=
  have H := matchOver_gameOver matchOverExample matchOverExample_reachable
  ⟨matchOverExample_over, H.1 matchOverExample_over,
    H.2 matchOverExample_over 0 (some [⟨Rank3, Diamonds⟩])⟩

/-- C30, as stated, fails: in `lastRoundExample` the round is over, the match is not, and
the round number is the largest 64-bit integer; after the new-game action it is the
smallest one, not the old number plus 1. -/
theorem roundNumber_wraps_around :
    lastRoundExample.IsGameOver = true ∧ lastRoundExample.IsMatchOver = false ∧
    lastRoundExample.RoundNumber = 9223372036854775807 ∧
    (processNewGameAction lastRoundExample NewDeck).1.RoundNumber =
      -9223372036854775808 := by
  refine ⟨?_, ?_, ?_, ?_⟩ <;> rfl

/-- C30, amended: on a state of four players where the round is over and the match is not, the
new-game action, whatever the shuffled deck, requests a broadcast, increases the round
number by 1 when it is a 64-bit integer below the largest one (the largest one wraps around
to the smallest),
leaves the match totals (the score map and the IDs of the players), the target score, the
history of round scores and the match flag unchanged, sets the round flag to false, the
winner to the empty string, the standing hand to none and the pass counter to 0, and leaves
four players, each with a cleared pass flag and a sorted hand of 13 cards. -/
theorem next_round (game : GameState) (deck : Deck) (hgo : game.IsGameOver = true)
    (hmo : game.IsMatchOver = false) (hn : game.Players.length = 4)
    (hd : deck.Perm NewDeck) :
    (processNewGameAction game deck).2 = (false, true) ∧
    (-9223372036854775808 ≤ game.RoundNumber → game.RoundNumber < 9223372036854775807 →
      (processNewGameAction game deck).1.RoundNumber = game.RoundNumber + 1) ∧
    (game.RoundNumber = 9223372036854775807 →
      (processNewGameAction game deck).1.RoundNumber = -9223372036854775808) ∧
    (processNewGameAction game deck).1.Scores = game.Scores ∧
    (processNewGameAction game deck).1.Players.map Player.ID = game.Players.map Player.ID ∧
    (processNewGameAction game deck).1.TargetScore = game.TargetScore ∧
    (processNewGameAction game deck).1.RoundScoresHistory = game.RoundScoresHistory ∧
    (processNewGameAction game deck).1.IsMatchOver = game.IsMatchOver ∧
    (processNewGameAction game deck).1.IsGameOver = false ∧
    (processNewGameAction game deck).1.WinnerID = "" ∧
    (processNewGameAction game deck).1.LastPlayedHand = none ∧
    (processNewGameAction game deck).1.PassCount = 0 ∧
    (processNewGameAction game deck).1.Players.length = 4 ∧
    (∀ p ∈ (processNewGameAction game deck).1.Players,
      p.HasPassed = false ∧ p.Hand.length = 13 ∧ p.Hand.IsSorted) := by
  have hlen : deck.length = 52 := hd.length_eq.trans newDeck_length
  obtain ⟨p0, p1, p2, p3, hps⟩ := exists_four_of_length game.Players hn
  have hne : game.Players.isEmpty = false := by rw [hps]; rfl
  have hdeal : dealRound 13 deck game.Players =
      [{ p0 with Hand := Deck.Sort (deck.take 13), HasPassed := false },
       { p1 with Hand := Deck.Sort ((deck.drop 13).take 13), HasPassed := false },
       { p2 with Hand := Deck.Sort (((deck.drop 13).drop 13).take 13), HasPassed := false },
       { p3 with Hand := Deck.Sort ((((deck.drop 13).drop 13).drop 13).take 13),
                 HasPassed := false }] := by
    rw [hps]
    simp [dealRound, Deck.Deal, hlen]
  have hres : (processNewGameAction game deck).1 =
      { game with
        RoundNumber := wrapInt (game.RoundNumber + 1),
        Players := dealRound 13 deck game.Players,
        CurrentTurnPlayerIndex :=
          (((firstWith3D (dealRound 13 deck game.Players)).getD 0 : Nat) : Int),
        LastPlayedHand := none, PassCount := 0, IsGameOver := false, WinnerID := "" } := by
    unfold processNewGameAction resetRoundState
    simp [hmo, hgo, hne, hn, dealRound_length]
  have hflag : (processNewGameAction game deck).2 = (false, true) := by
    unfold processNewGameAction
    simp [hmo, hgo]
  rw [hres]
  refine ⟨hflag, ?_, ?_, rfl, ?_, rfl, rfl, rfl, rfl, rfl, rfl, rfl, ?_, ?_⟩
  · intro hlo hhi
    exact wrapInt_of_small _ (by omega) (by omega)
  · intro hmax
    show wrapInt (game.RoundNumber + 1) = -9223372036854775808
    rw [hmax]
    rfl
  · rw [hdeal, hps]; rfl
  · rw [hdeal]; rfl
  · intro p hp
    dsimp only at hp
    rw [hdeal] at hp
    simp only [List.mem_cons, List.mem_singleton, List.not_mem_nil, or_false] at hp
    rcases hp with rfl | rfl | rfl | rfl
    · exact ⟨rfl, by simp [sort_length, hlen], sort_isSorted _⟩
    · exact ⟨rfl, by simp [sort_length, hlen], sort_isSorted _⟩
    · exact ⟨rfl, by simp [sort_length, hlen], sort_isSorted _⟩
    · exact ⟨rfl, by simp [sort_length, hlen], sort_isSorted _⟩

/-- C30, amended, at a concrete input: the next round after `roundEndExample`, dealt from
`NewDeck`. -/
theorem next_round_witness :
    (processNewGameAction roundEndExample NewDeck).1.RoundNumber = 2 ∧
    (processNewGameAction roundEndExample NewDeck).1.IsGameOver = false :=
  have H := next_round roundEndExample NewDeck rfl rfl rfl (List.Perm.refl _)
  ⟨H.2.1 (by decide) (by decide), H.2.2.2.2.2.2.2.2.1⟩

/-! ## The deck, the hands and the cards in play -/

/-- C31: on a state where the match is over, or where neither the round nor the match is
over, the new-game action resets the match, whatever the shuffled deck: the round number is
1, every player has the match total 0, the history of round scores is empty, the round and
match flags are false, the round winner and the overall winner are empty, no hand stands,
the pass counter is 0, and the same players hold freshly dealt hands: each hand is sorted,
has 52 divided by the number of players cards, the pass flag is cleared, all hands together
are cards of the shuffled deck (the whole deck with four players).  On every state and
every deck the action returns the flags `(false, true)`: it requests a broadcast. -/
theorem new_match (game r : GameState) (deck : Deck) (hd : deck.Perm NewDeck)
    (h : game.IsMatchOver = true ∨ (game.IsGameOver = false ∧ game.IsMatchOver = false))
    (hr : r = (processNewGameAction game deck).1) :
    r.RoundNumber = 1 ∧
    (∀ p ∈ r.Players, mapGet r.Scores p.ID = some 0 ∧ matchTotal r p = 0) ∧
    r.RoundScoresHistory = [] ∧ r.IsGameOver = false ∧ r.IsMatchOver = false ∧
    r.WinnerID = "" ∧ r.OverallWinnerID = "" ∧ r.LastPlayedHand = none ∧ r.PassCount = 0 ∧
    r.Players.map Player.ID = game.Players.map Player.ID ∧
    (∀ p ∈ r.Players, p.HasPassed = false ∧ p.Hand.IsSorted ∧
      p.Hand.length = 52 / game.Players.length) ∧
    (r.Players.flatMap Player.Hand).Subperm deck ∧
    (game.Players.length = 4 → (r.Players.flatMap Player.Hand).Perm deck) ∧
    (∀ (g : GameState) (d : Deck), (processNewGameAction g d).2 = (false, true)) := by
  have hlen : deck.length = 52 := hd.length_eq.trans newDeck_length
  rw [processNewGameAction_match game deck h] at hr
  subst hr
  obtain ⟨f1, f2, f3, f4, f5, f6, f7, f8, _, f10, f11⟩ := resetMatchState_fields game deck
  obtain ⟨d1, d2, d3⟩ := dealRound_full game.Players deck hlen
  have hids : (resetMatchState game deck).Players.map Player.ID =
      game.Players.map Player.ID := by
    rw [f11]; exact dealRound_ids _ _ _
  refine ⟨f1, ?_, f8, f2, f3, f4, f5, f6, f7, hids, ?_, ?_, ?_, processNewGameAction_flags⟩
  · intro p hp
    have hm : p.ID ∈ game.Players.map Player.ID := by
      rw [← hids]; exact List.mem_map_of_mem _ hp
    obtain ⟨q, hq1, hq2⟩ := List.mem_map.1 hm
    have hz : mapGet (resetMatchState game deck).Scores p.ID = some 0 := by
      rw [f10, ← hq2]
      exact (foldl_zero_scores game.Players []).1 q hq1
    refine ⟨hz, ?_⟩
    unfold matchTotal mapGetD
    rw [hz]
    rfl
  · rw [f11]; exact d1
  · rw [f11]; exact d2
  · rw [f11]; exact d3

/-- C31, at a concrete input: a new game in the middle of the round of `trickExample`. -/
theorem new_match_witness :
    (processNewGameAction trickExample NewDeck).1.RoundNumber = 1 ∧
    (processNewGameAction trickExample NewDeck).1.RoundScoresHistory = [] ∧
    (processNewGameAction trickExample NewDeck).1.LastPlayedHand = none :=
  have H := new_match trickExample _ NewDeck (List.Perm.refl _) (Or.inr ⟨rfl, rfl⟩) rfl
  ⟨H.1, H.2.2.1, H.2.2.2.2.2.2.2.1⟩

/-- C32, as stated, fails: after the deal of `NewDeck` to four players, the first player
plays the 3 of Diamonds and the second player beats it with the 3 of Clubs; both plays
are accepted, and the hands hold 50 cards and the standing hand 1 card, 51 in all. -/
theorem beaten_hand_leaves_count :
    (processPlayCardsAction (initialGameState 4 NewDeck) 0
      (some [⟨Rank3, Diamonds⟩])).2.2 = true ∧
    (processPlayCardsAction (processPlayCardsAction (initialGameState 4 NewDeck) 0
      (some [⟨Rank3, Diamonds⟩])).1 1 (some [⟨Rank3, Clubs⟩])).2.2 = true ∧
    cardTotal (processPlayCardsAction (processPlayCardsAction (initialGameState 4 NewDeck) 0
      (some [⟨Rank3, Diamonds⟩])).1 1 (some [⟨Rank3, Clubs⟩])).1 = 51 := by
  refine ⟨?_, ?_, ?_⟩ <;> rfl

/-- C32, amended: the sum of the hand sizes of all players plus the number of cards of the
standing hand is 52 right after a deal to four players (the first deal and every reset) and
at most 52 in every reachable state; an accepted play lowers it by the number of cards of
the standing hand it replaces, and a pass leaves it as it is or, when it clears the
standing hand, lowers it by the number of cards of that hand. -/
theorem card_total_bound (g : GameState) (hr : Reachable g) :
    cardTotal g ≤ 52 ∧
    (∀ actor msg, (processPlayCardsAction g actor msg).2.2 = true →
      cardTotal (processPlayCardsAction g actor msg).1 + (standingCards g).length =
        cardTotal g) ∧
    (∀ actor, cardTotal (processPassTurnAction g actor).1 = cardTotal g ∨
      ((processPassTurnAction g actor).1.LastPlayedHand = none ∧
        cardTotal (processPassTurnAction g actor).1 + (standingCards g).length =
          cardTotal g)) ∧
    (∀ deck : Deck, deck.Perm NewDeck →
      cardTotal (initialGameState 4 deck) = 52 ∧
      (g.Players.length = 4 → cardTotal (processNewGameAction g deck).1 = 52)) := by
  refine ⟨?_, play_total g, pass_total g, fun deck hd =>
    ⟨initialGameState_total deck hd, newGame_total g deck hd⟩⟩
  rw [cardTotal_eq, ← newDeck_length]
  exact (reachable_cards hr).1.length_le

/-- C32, amended, at a concrete input: right after the deal of `NewDeck` to four players the
play of the 3 of Diamonds onto the empty table keeps the count. -/
theorem card_total_bound_witness :
    cardTotal (processPlayCardsAction (initialGameState 4 NewDeck) 0
        (some [⟨Rank3, Diamonds⟩])).1 + (standingCards (initialGameState 4 NewDeck)).length =
      cardTotal (initialGameState 4 NewDeck) :=
  (card_total_bound (initialGameState 4 NewDeck)
    (Reachable.init 4 NewDeck (by decide) (List.Perm.refl _))).2.1 0
    (some [⟨Rank3, Diamonds⟩]) rfl

/-- C33: in every reachable state no card occurs twice among the hands of all players and
the cards of the standing hand. -/
theorem no_card_twice (g : GameState) (hr : Reachable g) : (allCards g).Nodup :=
  nodup_of_subperm (reachable_cards hr).1 newDeck_nodup

/-- C33, at a concrete input: the state right after the deal of `NewDeck` to four players. -/
theorem no_card_twice_witness : (allCards (initialGameState 4 NewDeck)).Nodup :=
  no_card_twice (initialGameState 4 NewDeck)
    (Reachable.init 4 NewDeck (by decide) (List.Perm.refl _))

/-- C34: in every reachable state the hand of every player is in canonical order: of two
cards the earlier one has the lower rank, or the same rank and a suit that is not
higher. -/
theorem hands_sorted (g : GameState) (hr : Reachable g) :
    ∀ p ∈ g.Players, p.Hand.IsSorted ∧
      p.Hand.Pairwise (fun a b => a.Rank < b.Rank ∨ (a.Rank = b.Rank ∧ a.Suit ≤ b.Suit)) := by
  intro p hp
  have hs := (reachable_cards hr).2 p hp
  exact ⟨hs, List.Pairwise.imp (fun hab => (cardLE_iff _ _).1 hab) hs⟩

/-- C34, at a concrete input: the hand of the third player after the deal of `NewDeck` to
four players and a new game dealt from `NewDeck` again, thirteen Hearts. -/
theorem hands_sorted_witness :
    Deck.IsSorted ((List.range 13).map fun i => (⟨(i : Int) + 3, Hearts⟩ : Card)) :=
  (hands_sorted (handleAction (initialGameState 4 NewDeck) 0 (Action.newGame NewDeck)).1
    (Reachable.step _ 0 (Action.newGame NewDeck)
      (Reachable.init 4 NewDeck (by decide) (List.Perm.refl _)) (by decide)
      (fun _ h => by cases h; exact List.Perm.refl _))
    ⟨"player3", "P3", (List.range 13).map fun i => (⟨(i : Int) + 3, Hearts⟩ : Card), true, 0,
      2, false⟩ (by decide)).1

/-- C35: `FindPlayerWith3D` returns the index of the first player in order whose hand holds
the 3 of Diamonds, and 0 when no hand holds it; after `resetRoundState` on a game with a
player the turn index is the value of `FindPlayerWith3D` on the hands just dealt. -/
theorem findPlayerWith3D_spec (players : List Player) :
    (∀ i p, players[i]? = some p → holds3D p →
      (∀ j q, j < i → players[j]? = some q → ¬ holds3D q) →
      FindPlayerWith3D players = i) ∧
    ((∀ p ∈ players, ¬ holds3D p) → FindPlayerWith3D players = 0) ∧
    (∀ (game : GameState) (deck : Deck), game.Players = players → players ≠ [] →
      (resetRoundState game deck).CurrentTurnPlayerIndex =
        (FindPlayerWith3D (resetRoundState game deck).Players : Int)) := by
  refine ⟨?_, ?_, ?_⟩
  · intro i p hp h3 hb
    unfold FindPlayerWith3D
    rw [findPlayerWith3DLoop_first players 0 i p hp h3 hb, Nat.zero_add]
  · exact findPlayerWith3DLoop_none players 0
  · intro game deck hg hne
    exact resetRoundState_turn game deck (by rw [hg]; exact hne)

/-- C35, at a concrete input: in `trickExample` the first player holds the 3 of Diamonds, and
after the deal of `NewDeck` for the next round of `roundEndExample` the first player
opens. -/
theorem findPlayerWith3D_spec_witness :
    FindPlayerWith3D trickExample.Players = 0 ∧
    (resetRoundState roundEndExample NewDeck).CurrentTurnPlayerIndex =
      (FindPlayerWith3D (resetRoundState roundEndExample NewDeck).Players : Int) :=
  ⟨(findPlayerWith3D_spec trickExample.Players).1 0
      ⟨"player1", "Ann", [⟨Rank3, Diamonds⟩, ⟨Rank5, Clubs⟩], true, 0, 0, false⟩ rfl
      (by decide) (fun j _ hj => absurd hj (by omega)),
   (findPlayerWith3D_spec roundEndExample.Players).2.2 roundEndExample NewDeck rfl
      (by decide)⟩

/-- C36: `NewDeck` returns 52 cards, and every card whose rank is one of the thirteen ranks
and whose suit is one of the four suits occurs in it exactly once; no other card occurs. -/
theorem newDeck_complete :
    NewDeck.length = 52 ∧ ∀ c : Card, NewDeck.count c = if c.valid then 1 else 0 := by
  refine ⟨by decide, fun c => ?_⟩
  by_cases h : c.valid
  · rw [if_pos h]
    exact List.count_eq_one_of_mem newDeck_nodup ((newDeck_mem_iff c).2 h)
  · rw [if_neg h]
    exact List.count_eq_zero_of_not_mem fun hm => h ((newDeck_mem_iff c).1 hm)

/-- C37, as stated, fails: the removal of no card from a hand that is not in canonical order
returns true and leaves the hand as it is, not in canonical order. -/
theorem removeCards_empty_unsorted :
    (unsortedPlayer.RemoveCards []).2 = true ∧
    ¬ (unsortedPlayer.RemoveCards []).1.Hand.IsSorted := by
  decide

/-- C37, amended: `RemoveCards` returns true exactly when the cards are a sub-multiset of the
hand.  On true the new hand together with the cards is the old hand as a multiset, nothing
but the hand changes, and the new hand is in canonical order when a card was removed or the
old hand was in canonical order.  On false the player is unchanged.  The removal of no card
returns true and changes nothing. -/
theorem removeCards_spec (p : Player) (cards : Deck) :
    ((p.RemoveCards cards).2 = true ↔ cards.Subperm p.Hand) ∧
    ((p.RemoveCards cards).2 = true →
      ((p.RemoveCards cards).1.Hand ++ cards).Perm p.Hand ∧
      (p.RemoveCards cards).1 = { p with Hand := (p.RemoveCards cards).1.Hand } ∧
      (cards ≠ [] ∨ p.Hand.IsSorted → (p.RemoveCards cards).1.Hand.IsSorted)) ∧
    ((p.RemoveCards cards).2 = false → (p.RemoveCards cards).1 = p) ∧
    p.RemoveCards [] = (p, true) := by
  refine ⟨⟨subperm_of_removeCards p cards, fun h => (removeCards_of_subperm p cards h).1⟩,
    ?_, removeCards_false p cards, rfl⟩
  intro h
  have hs := subperm_of_removeCards p cards h
  obtain ⟨_, hperm, _, hsort⟩ := removeCards_of_subperm p cards hs
  refine ⟨hperm, ?_, ?_⟩
  · unfold Player.RemoveCards
    split
    · rfl
    · dsimp only
      split <;> rfl
  · rintro (hc | hc)
    · exact hsort hc
    · exact removeCards_sorted p cards hc

/-- C37, amended, at a concrete input: the 3 of Diamonds is removed from the hand 3♦ 5♣. -/
theorem removeCards_spec_witness :
    ((Player.RemoveCards ⟨"player1", "Ann", [⟨Rank3, Diamonds⟩, ⟨Rank5, Clubs⟩], true, 0, 0,
        false⟩ [⟨Rank3, Diamonds⟩]).1.Hand ++ ([⟨Rank3, Diamonds⟩] : Deck)).Perm
      ([⟨Rank3, Diamonds⟩, ⟨Rank5, Clubs⟩] : Deck) :=
  ((removeCards_spec ⟨"player1", "Ann", [⟨Rank3, Diamonds⟩, ⟨Rank5, Clubs⟩], true, 0, 0,
    false⟩ [⟨Rank3, Diamonds⟩]).2.1 rfl).1

/-- C38: whenever the possession check of `processPlayCardsAction` has passed on a hand and
the requested cards, `RemoveCards` on the same hand and cards returns true, so that the
handler never takes the branch of a failed removal. -/
theorem removal_never_fails (p : Player) (cards : Deck)
    (h : canPlayCards p.Hand cards = true) : (p.RemoveCards cards).2 = true :=
  (removeCards_of_subperm p cards ((canPlayCards_iff p.Hand cards).1 h)).1

/-- C38, at a concrete input: the 3 of Diamonds from the hand 3♦ 5♣. -/
theorem removal_never_fails_witness :
    (Player.RemoveCards ⟨"player1", "Ann", [⟨Rank3, Diamonds⟩, ⟨Rank5, Clubs⟩], true, 0, 0,
      false⟩ [⟨Rank3, Diamonds⟩]).2 = true :=
  removal_never_fails ⟨"player1", "Ann", [⟨Rank3, Diamonds⟩, ⟨Rank5, Clubs⟩], true, 0, 0,
    false⟩ [⟨Rank3, Diamonds⟩] rfl

/-- C39: on all hands `BeatsLastHand` is asymmetric, and no hand beats itself. -/
theorem beats_asymmetric (A B : PlayedHand) :
    (BeatsLastHand A (some B) = true → BeatsLastHand B (some A) = false) ∧
    BeatsLastHand A (some A) = false := by
  refine ⟨beatsLastHand_asymm A B, ?_⟩
  cases h : BeatsLastHand A (some A) with
  | false => rfl
  | true =>
    have h2 := beatsLastHand_asymm A A h
    rw [h] at h2
    cases h2

/-- C39, at a concrete input: the 4 of Diamonds beats the 3 of Diamonds, not the reverse. -/
theorem beats_asymmetric_witness :
    BeatsLastHand ⟨[⟨Rank3, Diamonds⟩], "", Single, "", 0, Rank3, Diamonds⟩
      (some ⟨[⟨Rank4, Diamonds⟩], "", Single, "", 0, Rank4, Diamonds⟩) = false :=
  (beats_asymmetric ⟨[⟨Rank4, Diamonds⟩], "", Single, "", 0, Rank4, Diamonds⟩
    ⟨[⟨Rank3, Diamonds⟩], "", Single, "", 0, Rank3, Diamonds⟩).1 rfl

/-- C40: `BeatsLastHand` is transitive on all hands, in particular on the hands returned by
`DeterminePlayedHand`: a hand that beats a hand that beats a third hand beats the third
hand. -/
theorem beats_transitive (A B C : PlayedHand) (hab : BeatsLastHand A (some B) = true)
    (hbc : BeatsLastHand B (some C) = true) : BeatsLastHand A (some C) = true :=
  beatsLastHand_trans A B C hab hbc

/-- C40, at a concrete input: the singles 5♦, 4♦ and 3♦. -/
theorem beats_transitive_witness :
    BeatsLastHand ⟨[⟨Rank5, Diamonds⟩], "", Single, "", 0, Rank5, Diamonds⟩
      (some ⟨[⟨Rank3, Diamonds⟩], "", Single, "", 0, Rank3, Diamonds⟩) = true :=
  beats_transitive ⟨[⟨Rank5, Diamonds⟩], "", Single, "", 0, Rank5, Diamonds⟩
    ⟨[⟨Rank4, Diamonds⟩], "", Single, "", 0, Rank4, Diamonds⟩
    ⟨[⟨Rank3, Diamonds⟩], "", Single, "", 0, Rank3, Diamonds⟩ rfl rfl

end BigTwo
